import Mathlib

/-!
Winding number of a polygon about a point: a shallow embedding.

The definitions below follow `src/src/poly_io.cpp` (the `Polygon` container and the
reader) and `src/src/winding.cpp` (the `SimpleWindingNumberAlgorithm`).

The code computes in `float`. It is embedded twice.

* The exact reading (namespaces `poly` and `winding_number`). Coordinates, the tolerance
  and the internal epsilon are rationals, and every `float` operation of the source (`-`,
  `*`, `std::abs`, `<=`, `<`) is the exact operation on `ℚ`. Rounding, infinities and NaN
  are outside this reading. It is used at inputs on which every operation the code
  performs is exact in binary32 (the defects of the on-edge special case), for the
  property that is stated for exact arithmetic (translation), and for properties of the
  control flow of the loop (which vertex is read, which vertex a vertex is compared with,
  which diagnostic is set).
* The binary32 reading (namespace `ieee`). A `float` is an `ieee.F32`: a finite value
  `m * 2^e`, an infinity or a NaN. The operators `-` and `*` round to nearest, ties to
  even, overflow to an infinity and propagate NaN; a comparison with a NaN is false. Every
  property whose truth depends on a rounded difference or product, on overflow or on a
  non-finite coordinate is stated on this reading, with its conditions read as the code
  computes them.

Conventions common to both readings.

* `std::vector<float>` is a list; `std::vector::at` is a checked read, `front()` /
  `back()` on an empty vector and a failing `assert` are faults.
* The algorithm object is the record of its two data members; a member function that
  writes `error_message_` returns the updated record next to its result.
* The loop counter `int i` and the accumulator `int winding_number` are unbounded:
  they can only leave the range of `int` on a polygon of more than `2^31 - 1` vertices.
* A `std::string_view` is a list of characters and the position `npos` is `none`.
  `std::stof` is library code: it is a parameter of the reader, a function from tokens
  to a value or one of its two exceptions. A thrown `std::runtime_error` is an error
  result carrying its message.
-/

set_option autoImplicit false

namespace poly

/-- Ways in which a call can end other than by returning. -/
inductive Fault where
  /-- Reading `front()` or `back()` of an empty vector. -/
  | undefined_behaviour
  /-- The `assert` of `Polygon::size` fails. -/
  | assertion_failure
  /-- The `std::out_of_range` thrown by `std::vector::at`. -/
  | out_of_range
  deriving DecidableEq, Repr

/-- The `struct Polygon` of `poly_io.hpp`: two parallel coordinate sequences (exact
reading; `ieee.Polygon` is the binary32 one). -/
structure Polygon where
  x_vec_ : List ℚ
  y_vec_ : List ℚ
  deriving DecidableEq, Repr

/-- The function `Polygon::AppendPoint`. -/
def Polygon.AppendPoint (self : Polygon) (x y : ℚ) : Polygon :=
  { x_vec_ := self.x_vec_ ++ [x], y_vec_ := self.y_vec_ ++ [y] }

/-- The function `Polygon::size`, with its assertion. -/
def Polygon.size (self : Polygon) : Except Fault Nat :=
  let x_vec_size := self.x_vec_.length
  if x_vec_size = self.y_vec_.length then .ok x_vec_size else .error .assertion_failure

/-- The function `Polygon::IsClosed`, in the exact reading: the differences are not
rounded and the coordinates are finite. `ieee.Polygon.IsClosed` is the binary32 one. -/
def Polygon.IsClosed (self : Polygon) (tolerance : ℚ) : Except Fault Bool :=
  match self.x_vec_.head?, self.x_vec_.getLast?, self.y_vec_.head?, self.y_vec_.getLast? with
  | some x_front, some x_back, some y_front, some y_back =>
    .ok (decide (|x_front - x_back| ≤ tolerance) && decide (|y_front - y_back| ≤ tolerance))
  | _, _, _, _ => .error .undefined_behaviour

/-! ### The reader

A `std::string_view` is a list of characters; the position `npos` is `none`. -/

/-- The offset of the first character of `s` that occurs in `chars`, if there is one. -/
def firstOf (chars : List Char) : List Char → Option Nat
  | [] => none
  | c :: cs => if chars.contains c then some 0 else (firstOf chars cs).map (· + 1)

/-- The call `to_split.find_first_of(delims, pos)`; `none` is `npos`. -/
def find_first_of (to_split delims : List Char) (pos : Nat) : Option Nat :=
  (firstOf delims (to_split.drop pos)).map (· + pos)

/-- The call `s.find(c)`; `none` is `npos`. -/
def find (s : List Char) (c : Char) : Option Nat :=
  firstOf [c] s

/-- The call `s.substr(pos, count)` for `pos <= s.size()`. A `count` of `none` stands for
a count that reaches the end of the string (`npos`, or `npos - pos`). -/
def substr (s : List Char) (pos : Nat) (count : Option Nat) : List Char :=
  match count with
  | some n => (s.drop pos).take n
  | none => s.drop pos

/-- The `for` loop of `SplitString`, entered with the given `first` and the tokens found
so far. The loop condition `second != npos` ends the loop after an iteration in which no
delimiter was found. -/
def SplitString.loop (to_split delims : List Char) (first : Nat)
    (split_strings : List (List Char)) : List (List Char) :=
  if first < to_split.length then
    match hs : find_first_of to_split delims first with
    | none => split_strings ++ [substr to_split first none]
    | some second =>
      SplitString.loop to_split delims (second + 1)
        (if first ≠ second then
          split_strings ++ [substr to_split first (some (second - first))]
        else split_strings)
  else split_strings
termination_by to_split.length - first
decreasing_by
  simp only [find_first_of, Option.map_eq_some'] at hs
  obtain ⟨i, _, hi⟩ := hs
  omega

/-- The function `SplitString`. -/
def SplitString (to_split delims : List Char) : List (List Char) :=
  SplitString.loop to_split delims 0 []

/-- The two exceptions `std::stof` throws. -/
inductive StofError where
  | invalid_argument
  | out_of_range
  deriving DecidableEq, Repr

/-- What leaves `CreatePointAndPolygonFromString` other than a result: a
`std::runtime_error` with its message, or a fault of the polygon container. -/
inductive ReaderError where
  | runtime_error (what : String)
  | fault (f : Fault)
  deriving DecidableEq, Repr

/-- The local variables of `CreatePointAndPolygonFromString` that live across the loop. -/
structure ReaderState where
  x : Option ℚ
  point_x : Option ℚ
  point_y : Option ℚ
  polygon : Polygon
  deriving DecidableEq, Repr

/-- One iteration of the loop over the tokens (lines 50-70); `stof` is `std::stof` on the
token, a parameter of the model. -/
def readElement (stof : List Char → Except StofError ℚ) (st : ReaderState)
    (element_view : List Char) : Except ReaderError ReaderState :=
  match stof element_view with
  | .error .invalid_argument =>
    .error (.runtime_error
      ("Could not parse line because this is not a floating point value: "
        ++ String.mk element_view))
  | .error .out_of_range =>
    .error (.runtime_error
      ("Could not parse line because this is too large to fit in a float: "
        ++ String.mk element_view))
  | .ok element_value =>
    if st.point_x = none then .ok { st with point_x := some element_value }
    else if st.point_y = none then .ok { st with point_y := some element_value }
    else
      match st.x with
      | none => .ok { st with x := some element_value }
      | some x => .ok { st with polygon := st.polygon.AppendPoint x element_value, x := none }

/-- The function `DefaultPolygonReader::CreatePointAndPolygonFromString`. -/
def CreatePointAndPolygonFromString (stof : List Char → Except StofError ℚ)
    (polygon_string : List Char) : Except ReaderError (ℚ × ℚ × Polygon) :=
  let line_body := substr polygon_string 0 (find polygon_string '#')
  let split_string := SplitString line_body [' ', '\t']
  match split_string.foldlM (readElement stof)
      { x := none, point_x := none, point_y := none, polygon := { x_vec_ := [], y_vec_ := [] } } with
  | .error e => .error e
  | .ok st =>
    match st.point_x, st.point_y with
    | none, _ => .error (.runtime_error "Missing initial x-value for point.")
    | some _, none => .error (.runtime_error "Missing initial y-value for point.")
    | some point_x, some point_y =>
      match st.polygon.size with
      | .error f => .error (.fault f)
      | .ok n =>
        if n ≤ 1 then .error (.runtime_error "Insufficient geometry to compose polygon.")
        else .ok (point_x, point_y, st.polygon)

/-- Modelled on the words of the tokenizer property: the maximal non-empty runs of
characters of `s` that are not in `delims`, in order of occurrence; `s` is cut at every
delimiter and the empty pieces are dropped. -/
def maximalRuns (delims : List Char) (s : List Char) : List (List Char) :=
  (s.splitOnP fun c => delims.contains c).filter fun t => !t.isEmpty

/-- The local `line_body` of `CreatePointAndPolygonFromString`: the line up to its first
`#`. -/
def lineBody (polygon_string : List Char) : List Char :=
  substr polygon_string 0 (find polygon_string '#')

/-- The local `split_string` of `CreatePointAndPolygonFromString`: the tokens of the
line. -/
def tokensOf (polygon_string : List Char) : List (List Char) :=
  SplitString (lineBody polygon_string) [' ', '\t']

/-- The reader state on entry to the loop over the tokens. -/
def initialReaderState : ReaderState :=
  { x := none, point_x := none, point_y := none, polygon := { x_vec_ := [], y_vec_ := [] } }

/-- What `readElement` does to the state once the token has been converted to
`element_value`. -/
def readValue (st : ReaderState) (element_value : ℚ) : ReaderState :=
  if st.point_x = none then { st with point_x := some element_value }
  else if st.point_y = none then { st with point_y := some element_value }
  else
    match st.x with
    | none => { st with x := some element_value }
    | some x => { st with polygon := st.polygon.AppendPoint x element_value, x := none }

/-- A sequence of values read two by two; a last value without a partner is left out. -/
def pairUp : List ℚ → List (ℚ × ℚ)
  | x :: y :: rest => (x, y) :: pairUp rest
  | _ => []

/-- The last value of a sequence of odd length: the `x` left without a `y`. -/
def unpaired : List ℚ → Option ℚ
  | _ :: _ :: rest => unpaired rest
  | [x] => some x
  | [] => none

/-- The outcome of `CreatePointAndPolygonFromString` on a line all of whose tokens
convert, as a function of their values (proved in
`CreatePointAndPolygonFromString_of_ok`). -/
def outcomeOfValues : List ℚ → Except ReaderError (ℚ × ℚ × Polygon)
  | [] => .error (.runtime_error "Missing initial x-value for point.")
  | [_] => .error (.runtime_error "Missing initial y-value for point.")
  | px :: py :: rest =>
    if rest.length / 2 ≤ 1 then
      .error (.runtime_error "Insufficient geometry to compose polygon.")
    else
      .ok (px, py, { x_vec_ := (pairUp rest).map Prod.fst,
                     y_vec_ := (pairUp rest).map Prod.snd })

/-- A stand-in for `std::stof` on the tokens of the test lines, used for concrete
examples only: `0.0`, `1.0`, `4.0` and `5.0` convert to their values, every other token
is taken as not a number. -/
def stofOnTestTokens (token : List Char) : Except StofError ℚ :=
  if token = "0.0".toList then .ok 0
  else if token = "1.0".toList then .ok 1
  else if token = "4.0".toList then .ok 4
  else if token = "5.0".toList then .ok 5
  else .error .invalid_argument

end poly

namespace winding_number

open poly

/-- The `struct Point` of `winding.cpp`. -/
structure Point where
  x : ℚ
  y : ℚ
  deriving DecidableEq, Repr

/-- The function `CrossProduct` of `winding.cpp`, in the exact reading: no operation
rounds or overflows. `ieee.CrossProduct` is the binary32 one. -/
def CrossProduct (a b c : Point) : ℚ :=
  ((b.x - a.x) * (c.y - b.y)) - ((b.y - a.y) * (c.x - b.x))

/-- The function `ExtractPoint`: two checked reads. -/
def ExtractPoint (polygon : Polygon) (n : Nat) : Except Fault Point :=
  match polygon.x_vec_[n]?, polygon.y_vec_[n]? with
  | some x, some y => .ok { x := x, y := y }
  | _, _ => .error .out_of_range

/-- The function `WithinTolerance`, in the exact reading: the differences are not rounded.
`ieee.WithinTolerance` is the binary32 one. -/
def WithinTolerance (tolerance : ℚ) (a b : Point) : Bool :=
  decide (|a.x - b.x| ≤ tolerance) && decide (|a.y - b.y| ≤ tolerance)

/-- The default value `1e-6f` of the parameter `max_delta` of `FuzzyEquals`, read as
`10^-6`; the binary32 literal itself is `ieee.default_max_delta`. -/
def default_max_delta : ℚ := 1 / 1000000

/-- The function `FuzzyEquals`, in the exact reading; callers that omit `max_delta` pass
`default_max_delta`. `ieee.FuzzyEquals` is the binary32 one. -/
def FuzzyEquals (a b max_delta : ℚ) : Bool :=
  decide (|a - b| ≤ max_delta)

/-- The data members of `IWindingNumberAlgorithm`. -/
structure IWindingNumberAlgorithm where
  tolerance_ : ℚ
  error_message_ : String
  deriving DecidableEq, Repr

/-- The object built by `IWindingNumberAlgorithm::Create`: the member initialisers. -/
def IWindingNumberAlgorithm.Create : IWindingNumberAlgorithm :=
  { tolerance_ := 0, error_message_ := "" }

/-- The setter `tolerance(float)`. -/
def IWindingNumberAlgorithm.set_tolerance (self : IWindingNumberAlgorithm) (tolerance : ℚ) :
    IWindingNumberAlgorithm :=
  { self with tolerance_ := tolerance }

/-- The getter `tolerance()`. -/
def IWindingNumberAlgorithm.tolerance (self : IWindingNumberAlgorithm) : ℚ :=
  self.tolerance_

/-- The protected setter `error_message(std::string)`. -/
def IWindingNumberAlgorithm.set_error_message (self : IWindingNumberAlgorithm)
    (error_message : String) : IWindingNumberAlgorithm :=
  { self with error_message_ := error_message }

/-- The local variables of `CalculateWindingNumber2D` that live across loop iterations. -/
structure LoopState where
  a : Point
  a_left_or_on_p : Bool
  winding_number : Int
  evaluated_edge_count : Nat
  deriving DecidableEq, Repr

/-- One iteration of the `for` loop of `CalculateWindingNumber2D` (lines 81-105), once
`b` has been read. -/
def loopBody (tolerance : ℚ) (p : Point) (s : LoopState) (b : Point) : LoopState :=
  if WithinTolerance tolerance s.a b then s
  else
    let b_left_or_on_p : Bool := decide (b.x ≤ p.x)
    let cross_product : ℚ := CrossProduct s.a b p
    let winding_number : Int :=
      if (FuzzyEquals cross_product 0 default_max_delta
            && FuzzyEquals s.a.x b.x default_max_delta && decide (s.a.y < b.y)
            && decide (p.y ≤ b.y) && decide (s.a.y ≤ p.y)) = true then
        s.winding_number + 1
      else if s.a_left_or_on_p = true then
        if (!b_left_or_on_p && decide (cross_product < 0)) = true then s.winding_number - 1
        else s.winding_number
      else
        if (b_left_or_on_p && decide (cross_product ≥ 0)) = true then s.winding_number + 1
        else s.winding_number
    { a := b
      a_left_or_on_p := b_left_or_on_p
      winding_number := winding_number
      evaluated_edge_count := s.evaluated_edge_count + 1 }

/-- The function `SimpleWindingNumberAlgorithm::CalculateWindingNumber2D`. The result is
the returned `std::optional<int>` together with the algorithm object after the call. -/
def CalculateWindingNumber2D (self : IWindingNumberAlgorithm) (x y : ℚ) (polygon : Polygon) :
    Except Fault (Option Int × IWindingNumberAlgorithm) :=
  (polygon.IsClosed self.tolerance).bind fun closed =>
  if closed = false then
    .ok (none, self.set_error_message "Input polygon is not closed.")
  else
    let p : Point := { x := x, y := y }
    (ExtractPoint polygon 0).bind fun a =>
    (polygon.size).bind fun poly_size =>
    ((List.range' 1 (poly_size - 1)).foldlM
      (fun s i =>
        (ExtractPoint polygon (if i = poly_size - 1 then 0 else i)).bind fun b =>
        .ok (loopBody self.tolerance p s b))
      ({ a := a, a_left_or_on_p := decide (a.x ≤ p.x), winding_number := 0,
         evaluated_edge_count := 0 } : LoopState)).bind fun s =>
    if s.evaluated_edge_count < 1 then
      .ok (none, self.set_error_message
        "Insufficient geometry in polygon for a meaningful result")
    else
      .ok (some s.winding_number, self)

/-! ### The vertex-sequence view of a polygon

A well-formed polygon (two coordinate sequences of equal length) is the same thing as
its sequence of vertices; the properties below are stated on that sequence. -/

/-- The vertices of a polygon, in order: vertex `n` is what `ExtractPoint polygon n`
reads. -/
def verticesOf (polygon : Polygon) : List Point :=
  List.zipWith Point.mk polygon.x_vec_ polygon.y_vec_

/-- The polygon with the given vertices. -/
def polygonOf (vs : List Point) : Polygon :=
  { x_vec_ := vs.map Point.x, y_vec_ := vs.map Point.y }

/-- The consecutive vertex pairs `(v 0, v 1), (v 1, v 2), ...` of a vertex sequence. -/
def consecutivePairs (vs : List Point) : List (Point × Point) :=
  vs.zip vs.tail

/-- A vertex sequence with its last entry replaced by `v0`. -/
def closeWith (v0 : Point) : List Point → List Point
  | [] => []
  | [_] => [v0]
  | b :: c :: rest => b :: closeWith v0 (c :: rest)

/-- What the loop body adds to `winding_number` on an edge `a -> b` that is not skipped,
when `a_left_or_on_p` holds the value `a.x <= p.x` (it always does, see
`loopBody_eq`). -/
def edgeDelta (p a b : Point) : Int :=
  if (FuzzyEquals (CrossProduct a b p) 0 default_max_delta
        && FuzzyEquals a.x b.x default_max_delta && decide (a.y < b.y)
        && decide (p.y ≤ b.y) && decide (a.y ≤ p.y)) = true then 1
  else if a.x ≤ p.x then
    if ¬ b.x ≤ p.x ∧ CrossProduct a b p < 0 then -1 else 0
  else
    if b.x ≤ p.x ∧ 0 ≤ CrossProduct a b p then 1 else 0

/-- The sum of the per-edge contributions over a list of edges. -/
def deltaSum (p : Point) (es : List (Point × Point)) : Int :=
  (es.map fun e => edgeDelta p e.1 e.2).sum

/-- The tail of `CalculateWindingNumber2D` (lines 108-113) as a function of the final
loop state. -/
def finish (self : IWindingNumberAlgorithm) (s : LoopState) :
    Except Fault (Option Int × IWindingNumberAlgorithm) :=
  if s.evaluated_edge_count < 1 then
    .ok (none, self.set_error_message
      "Insufficient geometry in polygon for a meaningful result")
  else
    .ok (some s.winding_number, self)

/-- The loop state on entry to the `for` loop. -/
def initialState (p a : Point) : LoopState :=
  { a := a, a_left_or_on_p := decide (a.x ≤ p.x), winding_number := 0,
    evaluated_edge_count := 0 }

/-- The cyclic rotation `v k, ..., v (n-2), v 0, ..., v k` of a closed sequence
`v 0, ..., v (n-1)`: drop the closing entry, start at position `k`, and close again. -/
def cyclicRotation {α : Type} (k : Nat) (l : List α) : List α :=
  l.dropLast.drop k ++ l.take (k + 1)

/-- A sequence with a copy of its entry `j` inserted right after that entry. -/
def insertCopy {α : Type} (j : Nat) (l : List α) : List α :=
  l.take (j + 1) ++ l.drop j

/-- A point moved by the offset `(dx, dy)`. -/
def translate (dx dy : ℚ) (v : Point) : Point :=
  { x := v.x + dx, y := v.y + dy }

/-- A loop state whose vertex `a` is moved by the offset `(dx, dy)`. -/
def translateState (dx dy : ℚ) (s : LoopState) : LoopState :=
  { s with a := translate dx dy s.a }

/-- The unit square of the test `CanGetPointInPolygon`, counter-clockwise and closed. -/
def unitSquare : Polygon :=
  { x_vec_ := [0, 1, 1, 0, 0], y_vec_ := [0, 0, 1, 1, 0] }

/-- The polygon of the test `FailOnCollapsedGeometry`, with `1e-7f` read as `1/10^7`. -/
def collapsedTriangle : Polygon :=
  { x_vec_ := [0, 0, 1 / 10000000, 0], y_vec_ := [0, 1 / 10000000, 1 / 10000000, 0] }

/-- The closed counter-clockwise rectangle `(x0,y0),(x1,y0),(x1,y1),(x0,y1),(x0,y0)`. -/
def rectangleCCW (x0 y0 x1 y1 : ℚ) : Polygon :=
  { x_vec_ := [x0, x1, x1, x0, x0], y_vec_ := [y0, y0, y1, y1, y0] }

/-- A counter-clockwise rectangle `[0,1] x [0, 2^-24]`, closed; every coordinate is a
`float`. -/
def thinRectangle : Polygon :=
  { x_vec_ := [0, 1, 1, 0, 0], y_vec_ := [0, 0, 1 / 16777216, 1 / 16777216, 0] }

/-- A path that goes out along the x axis and back in steps of 1: consecutive vertices are
1 apart, the middle vertex is 2 away from the first. -/
def outAndBack : Polygon :=
  { x_vec_ := [0, 1, 2, 1, 0], y_vec_ := [0, 0, 0, 0, 0] }

end winding_number

/-! ## The same code over binary32

The definitions of this part embed the same source functions with `float` read as
IEEE-754 binary32: every `-` and `*` rounds to nearest (ties to even), overflows to an
infinity and propagates NaN, each operation being rounded on its own (no fused
multiply-add), and every comparison with a NaN is false. They carry the names of the
source inside the namespace `ieee`. The properties whose truth depends on what the code
computes in single precision are stated on them. -/

namespace ieee

open poly

/-- A binary32 value. A finite value is `m * 2^e`, kept in lowest terms (`m` odd, or
`m = 0` and `e = 0`), so that equality of values is equality of terms. The sign of a zero
and the payload of a NaN are not represented: no operation of the source observes them. -/
inductive F32 where
  | finite (m : Int) (e : Int)
  | inf (negative : Bool)
  | nan
  deriving DecidableEq, Repr

namespace F32

/-- Halving `n` until it is below 2, at most `fuel` times: the number of halvings. -/
def halvings : Nat → Nat → Nat
  | 0, _ => 0
  | fuel + 1, n => if n < 2 then 0 else halvings fuel (n / 2) + 1

/-- The position of the leading bit of `n`: the floor of its binary logarithm, for
`n > 0`. -/
def log2 (n : Nat) : Nat := halvings n n

/-- The largest power of two that divides `n`, for `n > 0`. -/
def twoPart (n : Nat) : Nat := Nat.gcd n (2 ^ (log2 n + 1))

/-- The exponent of the last bit kept when `n * 2^e` (`n > 0`) is rounded to 24
significant bits, and never below `-149`, the exponent of the last bit of a subnormal. -/
def quantum (n : Nat) (e : Int) : Int :=
  max (e + (log2 n + 1) - 24) (-149)

/-- The integer nearest to `n * 2^e / 2^(quantum n e)`, a tie going to the even one. -/
def significand (n : Nat) (e : Int) : Nat :=
  let q := quantum n e
  if q ≤ e then n * 2 ^ (e - q).toNat
  else
    let s := (q - e).toNat
    let k0 := n / 2 ^ s
    let r := n % 2 ^ s
    if 2 ^ (s - 1) < r ∨ (r = 2 ^ (s - 1) ∧ k0 % 2 = 1) then k0 + 1 else k0

/-- The binary32 value nearest to the exact number `m * 2^e`, ties going to the even
significand: 24 significant bits, the last kept bit at `2^-149` or above, and an infinity
when the rounded magnitude reaches `2^128`. -/
def ofExact (m e : Int) : F32 :=
  if m = 0 then .finite 0 0
  else
    let q := quantum m.natAbs e
    let k := significand m.natAbs e
    if k = 0 then .finite 0 0
    else if 0 ≤ q ∧ 2 ^ 128 ≤ k * 2 ^ q.toNat then .inf (decide (m < 0))
    else
      .finite ((if m < 0 then -1 else 1) * ((k / twoPart k : Nat) : Int))
        (q + (log2 (twoPart k) : Nat))

/-- The value `0.f`. -/
def zero : F32 := .finite 0 0

/-- The operator `-` on `float`. -/
def sub : F32 → F32 → F32
  | .nan, _ => .nan
  | _, .nan => .nan
  | .inf s, .inf t => if s = t then .nan else .inf s
  | .inf s, .finite _ _ => .inf s
  | .finite _ _, .inf t => .inf (!t)
  | .finite m1 e1, .finite m2 e2 =>
    ofExact (m1 * 2 ^ (e1 - min e1 e2).toNat - m2 * 2 ^ (e2 - min e1 e2).toNat) (min e1 e2)

/-- The operator `*` on `float`. -/
def mul : F32 → F32 → F32
  | .nan, _ => .nan
  | _, .nan => .nan
  | .inf s, .inf t => .inf (s != t)
  | .inf s, .finite m _ => if m = 0 then .nan else .inf (s != decide (m < 0))
  | .finite m _, .inf t => if m = 0 then .nan else .inf (decide (m < 0) != t)
  | .finite m1 e1, .finite m2 e2 => ofExact (m1 * m2) (e1 + e2)

/-- The function `std::abs` on `float`. -/
def abs : F32 → F32
  | .finite m e => .finite (|m|) e
  | .inf _ => .inf false
  | .nan => .nan

/-- The operator `<=` on `float` (`a >= b` is `b <= a`). -/
def le : F32 → F32 → Bool
  | .nan, _ => false
  | _, .nan => false
  | .inf s, .inf t => s || !t
  | .inf s, .finite _ _ => s
  | .finite _ _, .inf t => !t
  | .finite m1 e1, .finite m2 e2 =>
    decide (m1 * 2 ^ (e1 - min e1 e2).toNat ≤ m2 * 2 ^ (e2 - min e1 e2).toNat)

/-- The operator `<` on `float`. -/
def lt : F32 → F32 → Bool
  | .nan, _ => false
  | _, .nan => false
  | .inf s, .inf t => s && !t
  | .inf s, .finite _ _ => s
  | .finite _ _, .inf t => !t
  | .finite m1 e1, .finite m2 e2 =>
    decide (m1 * 2 ^ (e1 - min e1 e2).toNat < m2 * 2 ^ (e2 - min e1 e2).toNat)

/-- Neither an infinity nor a NaN (`std::isfinite`). -/
def isFinite : F32 → Bool
  | .finite _ _ => true
  | _ => false

/-- The term denotes a binary32 value: a finite `m * 2^e` is in lowest terms, has at most
24 significant bits, is a multiple of `2^-149` and is below `2^128` in magnitude. -/
def isValid : F32 → Bool
  | .finite m e =>
    (decide (m = 0) && decide (e = 0))
      || (decide (m % 2 = 1) && decide (m.natAbs < 2 ^ 24) && decide (-149 ≤ e)
          && decide (m.natAbs * 2 ^ e.toNat < 2 ^ 128))
  | _ => true

end F32

/-- The `struct Polygon` of `poly_io.hpp`: two parallel coordinate sequences. -/
structure Polygon where
  x_vec_ : List F32
  y_vec_ : List F32
  deriving DecidableEq, Repr

/-- The function `Polygon::AppendPoint`. -/
def Polygon.AppendPoint (self : Polygon) (x y : F32) : Polygon :=
  { x_vec_ := self.x_vec_ ++ [x], y_vec_ := self.y_vec_ ++ [y] }

/-- The function `Polygon::size`, with its assertion. -/
def Polygon.size (self : Polygon) : Except Fault Nat :=
  let x_vec_size := self.x_vec_.length
  if x_vec_size = self.y_vec_.length then .ok x_vec_size else .error .assertion_failure

/-- The function `Polygon::IsClosed`:
`std::abs(x_vec_.front() - x_vec_.back()) <= tolerance
  && std::abs(y_vec_.front() - y_vec_.back()) <= tolerance`. -/
def Polygon.IsClosed (self : Polygon) (tolerance : F32) : Except Fault Bool :=
  match self.x_vec_.head?, self.x_vec_.getLast?, self.y_vec_.head?, self.y_vec_.getLast? with
  | some x_front, some x_back, some y_front, some y_back =>
    .ok (F32.le (F32.abs (F32.sub x_front x_back)) tolerance
          && F32.le (F32.abs (F32.sub y_front y_back)) tolerance)
  | _, _, _, _ => .error .undefined_behaviour

/-- The function `Polygon::ClosePolygon`: `size() == 0 || IsClosed()` short-circuits, and
`IsClosed()` is called with its default tolerance `0.f`. -/
def Polygon.ClosePolygon (self : Polygon) : Except Fault Polygon :=
  self.size.bind fun n =>
  if n = 0 then .ok self
  else
    (self.IsClosed F32.zero).bind fun closed =>
    if closed = true then .ok self
    else
      match self.x_vec_[0]?, self.y_vec_[0]? with
      | some x0, some y0 => .ok { x_vec_ := self.x_vec_ ++ [x0], y_vec_ := self.y_vec_ ++ [y0] }
      | _, _ => .error .undefined_behaviour

/-- The `struct Point` of `winding.cpp`. -/
structure Point where
  x : F32
  y : F32
  deriving DecidableEq, Repr

/-- The function `CrossProduct` of `winding.cpp`:
`((b.x - a.x) * (c.y - b.y)) - ((b.y - a.y) * (c.x - b.x))`. -/
def CrossProduct (a b c : Point) : F32 :=
  F32.sub (F32.mul (F32.sub b.x a.x) (F32.sub c.y b.y))
    (F32.mul (F32.sub b.y a.y) (F32.sub c.x b.x))

/-- The function `ExtractPoint`: two checked reads. -/
def ExtractPoint (polygon : Polygon) (n : Nat) : Except Fault Point :=
  match polygon.x_vec_[n]?, polygon.y_vec_[n]? with
  | some x, some y => .ok { x := x, y := y }
  | _, _ => .error .out_of_range

/-- The function `WithinTolerance`:
`std::abs(a.x - b.x) <= tolerance && std::abs(a.y - b.y) <= tolerance`. -/
def WithinTolerance (tolerance : F32) (a b : Point) : Bool :=
  F32.le (F32.abs (F32.sub a.x b.x)) tolerance && F32.le (F32.abs (F32.sub a.y b.y)) tolerance

/-- The default value `1e-6f` of the parameter `max_delta` of `FuzzyEquals`: the binary32
value nearest to `10^-6`, which is `8796093 * 2^-43`. -/
def default_max_delta : F32 := .finite 8796093 (-43)

/-- The function `FuzzyEquals`: `std::abs(a - b) <= max_delta`; callers that omit
`max_delta` pass `default_max_delta`. -/
def FuzzyEquals (a b max_delta : F32) : Bool :=
  F32.le (F32.abs (F32.sub a b)) max_delta

/-- The data members of `IWindingNumberAlgorithm`. -/
structure IWindingNumberAlgorithm where
  tolerance_ : F32
  error_message_ : String
  deriving DecidableEq, Repr

/-- The object built by `IWindingNumberAlgorithm::Create`: the member initialisers. -/
def IWindingNumberAlgorithm.Create : IWindingNumberAlgorithm :=
  { tolerance_ := F32.zero, error_message_ := "" }

/-- The setter `tolerance(float)`. -/
def IWindingNumberAlgorithm.set_tolerance (self : IWindingNumberAlgorithm) (tolerance : F32) :
    IWindingNumberAlgorithm :=
  { self with tolerance_ := tolerance }

/-- The getter `tolerance()`. -/
def IWindingNumberAlgorithm.tolerance (self : IWindingNumberAlgorithm) : F32 :=
  self.tolerance_

/-- The protected setter `error_message(std::string)`. -/
def IWindingNumberAlgorithm.set_error_message (self : IWindingNumberAlgorithm)
    (error_message : String) : IWindingNumberAlgorithm :=
  { self with error_message_ := error_message }

/-- The local variables of `CalculateWindingNumber2D` that live across loop iterations. -/
structure LoopState where
  a : Point
  a_left_or_on_p : Bool
  winding_number : Int
  evaluated_edge_count : Nat
  deriving DecidableEq, Repr

/-- One iteration of the `for` loop of `CalculateWindingNumber2D` (lines 81-105), once
`b` has been read. The literal `0` compared with `cross_product` is converted to `0.f`. -/
def loopBody (tolerance : F32) (p : Point) (s : LoopState) (b : Point) : LoopState :=
  if WithinTolerance tolerance s.a b then s
  else
    let b_left_or_on_p : Bool := F32.le b.x p.x
    let cross_product : F32 := CrossProduct s.a b p
    let winding_number : Int :=
      if (FuzzyEquals cross_product F32.zero default_max_delta
            && FuzzyEquals s.a.x b.x default_max_delta && F32.lt s.a.y b.y
            && F32.le p.y b.y && F32.le s.a.y p.y) = true then
        s.winding_number + 1
      else if s.a_left_or_on_p = true then
        if (!b_left_or_on_p && F32.lt cross_product F32.zero) = true then s.winding_number - 1
        else s.winding_number
      else
        if (b_left_or_on_p && F32.le F32.zero cross_product) = true then s.winding_number + 1
        else s.winding_number
    { a := b
      a_left_or_on_p := b_left_or_on_p
      winding_number := winding_number
      evaluated_edge_count := s.evaluated_edge_count + 1 }

/-- The function `SimpleWindingNumberAlgorithm::CalculateWindingNumber2D`. The result is
the returned `std::optional<int>` together with the algorithm object after the call. -/
def CalculateWindingNumber2D (self : IWindingNumberAlgorithm) (x y : F32) (polygon : Polygon) :
    Except Fault (Option Int × IWindingNumberAlgorithm) :=
  (polygon.IsClosed self.tolerance).bind fun closed =>
  if closed = false then
    .ok (none, self.set_error_message "Input polygon is not closed.")
  else
    let p : Point := { x := x, y := y }
    (ExtractPoint polygon 0).bind fun a =>
    (polygon.size).bind fun poly_size =>
    ((List.range' 1 (poly_size - 1)).foldlM
      (fun s i =>
        (ExtractPoint polygon (if i = poly_size - 1 then 0 else i)).bind fun b =>
        .ok (loopBody self.tolerance p s b))
      ({ a := a, a_left_or_on_p := F32.le a.x p.x, winding_number := 0,
         evaluated_edge_count := 0 } : LoopState)).bind fun s =>
    if s.evaluated_edge_count < 1 then
      .ok (none, self.set_error_message
        "Insufficient geometry in polygon for a meaningful result")
    else
      .ok (some s.winding_number, self)

/-- The vertices of a polygon, in order: vertex `n` is what `ExtractPoint polygon n`
reads. -/
def verticesOf (polygon : Polygon) : List Point :=
  List.zipWith Point.mk polygon.x_vec_ polygon.y_vec_

/-- The polygon with the given vertices. -/
def polygonOf (vs : List Point) : Polygon :=
  { x_vec_ := vs.map Point.x, y_vec_ := vs.map Point.y }

/-- The consecutive vertex pairs `(v 0, v 1), (v 1, v 2), ...` of a vertex sequence. -/
def consecutivePairs (vs : List Point) : List (Point × Point) :=
  vs.zip vs.tail

/-- A vertex sequence with its last entry replaced by `v0`. -/
def closeWith (v0 : Point) : List Point → List Point
  | [] => []
  | [_] => [v0]
  | b :: c :: rest => b :: closeWith v0 (c :: rest)

/-- What the loop body adds to `winding_number` on an edge `a -> b` that is not skipped,
when `a_left_or_on_p` holds the value `a.x <= p.x`. -/
def edgeDelta (p a b : Point) : Int :=
  if (FuzzyEquals (CrossProduct a b p) F32.zero default_max_delta
        && FuzzyEquals a.x b.x default_max_delta && F32.lt a.y b.y
        && F32.le p.y b.y && F32.le a.y p.y) = true then 1
  else if F32.le a.x p.x = true then
    if (!F32.le b.x p.x && F32.lt (CrossProduct a b p) F32.zero) = true then -1 else 0
  else
    if (F32.le b.x p.x && F32.le F32.zero (CrossProduct a b p)) = true then 1 else 0

/-- The sum of the per-edge contributions over a list of edges. -/
def deltaSum (p : Point) (es : List (Point × Point)) : Int :=
  (es.map fun e => edgeDelta p e.1 e.2).sum

/-- The tail of `CalculateWindingNumber2D` (lines 108-113) as a function of the final
loop state. -/
def finish (self : IWindingNumberAlgorithm) (s : LoopState) :
    Except Fault (Option Int × IWindingNumberAlgorithm) :=
  if s.evaluated_edge_count < 1 then
    .ok (none, self.set_error_message
      "Insufficient geometry in polygon for a meaningful result")
  else
    .ok (some s.winding_number, self)

/-- The loop state on entry to the `for` loop. -/
def initialState (p a : Point) : LoopState :=
  { a := a, a_left_or_on_p := F32.le a.x p.x, winding_number := 0,
    evaluated_edge_count := 0 }

/-- Both coordinates of the point are finite. -/
def Point.isFinite (v : Point) : Bool :=
  v.x.isFinite && v.y.isFinite

/-- Equality of two outcomes of a call that may fault is decidable. -/
instance instDecidableEqOutcome {ε α : Type} [DecidableEq ε] [DecidableEq α] :
    DecidableEq (Except ε α)
  | .ok a, .ok b =>
    if h : a = b then isTrue (congrArg Except.ok h) else isFalse fun h' => h (Except.ok.inj h')
  | .error a, .error b =>
    if h : a = b then isTrue (congrArg Except.error h)
    else isFalse fun h' => h (Except.error.inj h')
  | .ok _, .error _ => isFalse fun h => Except.noConfusion h
  | .error _, .ok _ => isFalse fun h => Except.noConfusion h

/-- The unit square of the test `CanGetPointInPolygon`, counter-clockwise and closed. -/
def unitSquare : Polygon :=
  { x_vec_ := [.finite 0 0, .finite 1 0, .finite 1 0, .finite 0 0, .finite 0 0],
    y_vec_ := [.finite 0 0, .finite 0 0, .finite 1 0, .finite 1 0, .finite 0 0] }

/-- The open polygon `(0,0),(1,0),(1,1)` of the test `FailsWithUnclosedPolygon`. -/
def openTriangle : Polygon :=
  { x_vec_ := [.finite 0 0, .finite 1 0, .finite 1 0],
    y_vec_ := [.finite 0 0, .finite 0 0, .finite 1 0] }

/-- The polygon `(0,0),(0,1e-7f),(1e-7f,1e-7f),(0,0)` of the test
`FailOnCollapsedGeometry`; the literal `1e-7f` is `14073749 * 2^-47`. -/
def collapsedTriangle : Polygon :=
  { x_vec_ := [.finite 0 0, .finite 0 0, .finite 14073749 (-47), .finite 0 0],
    y_vec_ := [.finite 0 0, .finite 14073749 (-47), .finite 14073749 (-47), .finite 0 0] }

/-- The polygon `(inf,0),(0,1),(0,-1),(inf,0)`: its first vertex has an infinite
coordinate. -/
def infiniteFirstVertex : Polygon :=
  { x_vec_ := [.inf false, .finite 0 0, .finite 0 0, .inf false],
    y_vec_ := [.finite 0 0, .finite 1 0, .finite (-1) 0, .finite 0 0] }

/-- The polygon `(inf,0),(1,0),(inf,0)`. -/
def infiniteSpike : Polygon :=
  { x_vec_ := [.inf false, .finite 1 0, .inf false],
    y_vec_ := [.finite 0 0, .finite 0 0, .finite 0 0] }

/-- The polygon with the single vertex `(inf,0)`. -/
def infinitePoint : Polygon :=
  { x_vec_ := [.inf false], y_vec_ := [.finite 0 0] }

/-- The closed triangle `(2,93),(27,135),(47,17),(2,93)`. -/
def slantedTriangle : Polygon :=
  { x_vec_ := [.finite 1 1, .finite 27 0, .finite 47 0, .finite 1 1],
    y_vec_ := [.finite 93 0, .finite 135 0, .finite 17 0, .finite 93 0] }

/-- The point `(0x1.437aeep+3, 0x1.aa7da8p+6)`, about `(10.1088, 106.6227)`: its
coordinates are `10599799 * 2^-20` and `3493813 * 2^-15`. It lies close to the first edge
of `slantedTriangle`. -/
def nearFirstEdge : Point :=
  { x := .finite 10599799 (-20), y := .finite 3493813 (-15) }

/-- The loop state before the edge `(0,-3e38f) -> (0,3e38f)` is processed, with a winding
number of 0; the literal `3e38f` is `7395571 * 2^105`. -/
def tallEdgeState : LoopState :=
  { a := { x := .finite 0 0, y := .finite (-7395571) 105 }, a_left_or_on_p := true,
    winding_number := 0, evaluated_edge_count := 0 }

/-- The end point `(0,3e38f)` of that edge. -/
def tallEdgeEnd : Point :=
  { x := .finite 0 0, y := .finite 7395571 105 }

/-- The point `(0,0)`. -/
def origin : Point :=
  { x := F32.zero, y := F32.zero }

/-- The loop state before the edge `(inf,0) -> (inf,2)` is processed, with a winding
number of 0. -/
def infiniteEdgeState : LoopState :=
  { a := { x := .inf false, y := .finite 0 0 }, a_left_or_on_p := true,
    winding_number := 0, evaluated_edge_count := 0 }

/-- The end point `(inf,2)` of that edge. -/
def infiniteEdgeEnd : Point :=
  { x := .inf false, y := .finite 1 1 }

/-- The point `(inf,1)` between the two. -/
def infiniteEdgeMiddle : Point :=
  { x := .inf false, y := .finite 1 0 }

end ieee

open poly winding_number

/-! ## Bridging lemmas: the indexed loop and the vertex sequence -/

namespace winding_number

theorem polygonOf_verticesOf (polygon : Polygon)
    (h : polygon.x_vec_.length = polygon.y_vec_.length) :
    polygonOf (verticesOf polygon) = polygon := by
  obtain ⟨xs, ys⟩ := polygon
  simp only [polygonOf, verticesOf] at *
  congr 1
  · induction xs generalizing ys with
    | nil => simp
    | cons a xs ih =>
      cases ys with
      | nil => simp at h
      | cons b ys => simp at h; simp [ih ys h]
  · induction xs generalizing ys with
    | nil => cases ys with
      | nil => simp
      | cons b ys => simp at h
    | cons a xs ih =>
      cases ys with
      | nil => simp at h
      | cons b ys => simp at h; simp [ih ys h]

theorem verticesOf_polygonOf (vs : List Point) : verticesOf (polygonOf vs) = vs := by
  induction vs with
  | nil => rfl
  | cons v vs ih =>
    simp only [verticesOf, polygonOf, List.map_cons, List.zipWith_cons_cons] at *
    rw [ih]

theorem length_verticesOf (polygon : Polygon)
    (h : polygon.x_vec_.length = polygon.y_vec_.length) :
    (verticesOf polygon).length = polygon.x_vec_.length := by
  simp [verticesOf, h]

theorem ExtractPoint_polygonOf (vs : List Point) (n : Nat) (h : n < vs.length) :
    ExtractPoint (polygonOf vs) n = .ok (vs.get ⟨n, h⟩) := by
  simp [ExtractPoint, polygonOf, List.getElem?_map, List.getElem?_eq_getElem h]

theorem size_polygonOf (vs : List Point) : (polygonOf vs).size = .ok vs.length := by
  simp [Polygon.size, polygonOf]

theorem IsClosed_polygonOf (vs : List Point) (h : vs ≠ []) (tolerance : ℚ) :
    (polygonOf vs).IsClosed tolerance
      = .ok (WithinTolerance tolerance (vs.head h) (vs.getLast h)) := by
  simp only [Polygon.IsClosed, polygonOf, List.getLast?_map, List.head?_map,
    List.getLast?_eq_getLast _ h, List.head?_eq_head h, Option.map_some', WithinTolerance]

theorem length_closeWith (v0 : Point) : ∀ rest : List Point,
    (closeWith v0 rest).length = rest.length
  | [] => rfl
  | [_] => rfl
  | _ :: c :: rest => by simp [closeWith, length_closeWith v0 (c :: rest)]

theorem getElem?_closeWith (v0 : Point) : ∀ (rest : List Point) (j : Nat),
    (closeWith v0 rest)[j]? = if j + 1 = rest.length then some v0 else rest[j]?
  | [], j => by simp [closeWith]
  | [_], j => by cases j <;> simp [closeWith]
  | b :: c :: rest, 0 => by simp [closeWith]
  | b :: c :: rest, j + 1 => by
    simp [closeWith, getElem?_closeWith v0 (c :: rest) j]

/-- Reading vertices inside the range never faults, so the monadic loop is a plain fold
over the points it reads. -/
theorem foldlM_ExtractPoint (vs : List Point) (g : Nat → Nat)
    (step : LoopState → Point → LoopState) (d : Point) :
    ∀ (is : List Nat) (s : LoopState), (∀ i ∈ is, g i < vs.length) →
      is.foldlM (fun s i => (ExtractPoint (polygonOf vs) (g i)).bind
          fun b => (Except.ok (step s b) : Except Fault LoopState)) s
        = Except.ok (List.foldl step s (is.map fun i => (vs[g i]?).getD d)) := by
  intro is
  induction is with
  | nil => intro s _; rfl
  | cons i is ih =>
    intro s h
    have hi : g i < vs.length := h i (List.mem_cons_self _ _)
    have hrest : ∀ j ∈ is, g j < vs.length := fun j hj => h j (List.mem_cons_of_mem _ hj)
    rw [List.foldlM_cons, ExtractPoint_polygonOf vs (g i) hi]
    show is.foldlM _ (step s (vs.get ⟨g i, hi⟩)) = _
    rw [ih _ hrest]
    simp [List.getElem?_eq_getElem hi]

/-- The points `b` read by the loop on a polygon `v0 :: rest`: the vertices after the
first, the last one replaced by vertex 0. -/
theorem loop_targets (v0 : Point) (rest : List Point) :
    ((List.range' 1 rest.length).map fun i =>
        ((v0 :: rest)[if i = rest.length then 0 else i]?).getD v0)
      = closeWith v0 rest := by
  apply List.ext_getElem?
  intro j
  rw [getElem?_closeWith, List.getElem?_map]
  by_cases hj : j < rest.length
  · rw [List.getElem?_range' 1 1 hj]
    by_cases hl : j + 1 = rest.length
    · have : 1 + j = rest.length := by omega
      simp [hl, this]
    · have : ¬ 1 + j = rest.length := by omega
      simp [hl, this, Nat.add_comm 1 j, List.getElem?_eq_getElem hj]
  · have : ¬ j + 1 = rest.length := by omega
    have h2 : rest.length ≤ j := by omega
    rw [List.getElem?_eq_none (by simpa using h2)]
    simp [this, List.getElem?_eq_none h2]

theorem Except_bind_ok {ε α β : Type} (a : α) (f : α → Except ε β) :
    (Except.ok a : Except ε α).bind f = f a := rfl

/-- The call on a non-empty well-formed polygon, as a fold over the vertex sequence. -/
theorem CalculateWindingNumber2D_polygonOf (self : IWindingNumberAlgorithm) (x y : ℚ)
    (v0 : Point) (rest : List Point) :
    CalculateWindingNumber2D self x y (polygonOf (v0 :: rest))
      = if WithinTolerance self.tolerance_ v0
            ((v0 :: rest).getLast (List.cons_ne_nil _ _)) = false then
          .ok (none, self.set_error_message "Input polygon is not closed.")
        else
          finish self (List.foldl (loopBody self.tolerance_ { x := x, y := y })
            (initialState { x := x, y := y } v0) (closeWith v0 rest)) := by
  unfold CalculateWindingNumber2D
  rw [IsClosed_polygonOf (v0 :: rest) (List.cons_ne_nil _ _)]
  simp only [Except_bind_ok, List.head_cons, IWindingNumberAlgorithm.tolerance]
  split
  · rfl
  · rw [ExtractPoint_polygonOf (v0 :: rest) 0 (by simp), size_polygonOf]
    simp only [Except_bind_ok, List.length_cons, Nat.add_sub_cancel, List.get_eq_getElem,
      List.getElem_cons_zero]
    rw [foldlM_ExtractPoint (v0 :: rest) (fun i => if i = rest.length then 0 else i)
      (loopBody self.tolerance_ { x := x, y := y }) v0]
    · simp only [loop_targets, Except_bind_ok]
      rfl
    · intro i hi
      simp only [List.mem_range'_1] at hi
      simp only [List.length_cons]
      split <;> omega

theorem polygon_cases (polygon : Polygon)
    (hlen : polygon.x_vec_.length = polygon.y_vec_.length)
    (hne : verticesOf polygon ≠ []) :
    ∃ v0 rest, polygon = polygonOf (v0 :: rest) := by
  cases hv : verticesOf polygon with
  | nil => exact absurd hv hne
  | cons v0 rest => exact ⟨v0, rest, by rw [← hv, polygonOf_verticesOf polygon hlen]⟩

/-! ## The loop body -/

theorem WithinTolerance_iff (tolerance : ℚ) (a b : Point) :
    WithinTolerance tolerance a b = true ↔ |a.x - b.x| ≤ tolerance ∧ |a.y - b.y| ≤ tolerance := by
  simp [WithinTolerance]

theorem tolerance_nonneg_of_within (tolerance : ℚ) (a b : Point)
    (h : WithinTolerance tolerance a b = true) : 0 ≤ tolerance :=
  le_trans (abs_nonneg _) ((WithinTolerance_iff tolerance a b).1 h).1

theorem WithinTolerance_self (tolerance : ℚ) (a : Point) (h : 0 ≤ tolerance) :
    WithinTolerance tolerance a a = true := by
  simp [WithinTolerance, h]

/-- On an edge that is not skipped, the loop body moves to `b`, adds `edgeDelta` to the
winding number and counts the edge. -/
theorem loopBody_eq (tolerance : ℚ) (p a b : Point) (w : Int) (c : Nat)
    (h : WithinTolerance tolerance a b = false) :
    loopBody tolerance p
        { a := a, a_left_or_on_p := decide (a.x ≤ p.x), winding_number := w,
          evaluated_edge_count := c } b
      = { a := b, a_left_or_on_p := decide (b.x ≤ p.x),
          winding_number := w + edgeDelta p a b, evaluated_edge_count := c + 1 } := by
  unfold loopBody edgeDelta
  simp only [h, Bool.false_eq_true, if_false, decide_eq_true_eq, Bool.and_eq_true,
    Bool.not_eq_true', decide_eq_false_iff_not, ge_iff_le, LoopState.mk.injEq, true_and,
    and_true]
  split_ifs <;> first | rfl | omega

theorem loopBody_skip (tolerance : ℚ) (p : Point) (s : LoopState) (b : Point)
    (h : WithinTolerance tolerance s.a b = true) : loopBody tolerance p s b = s := by
  simp [loopBody, h]

theorem consecutivePairs_cons_cons (a b : Point) (bs : List Point) :
    consecutivePairs (a :: b :: bs) = (a, b) :: consecutivePairs (b :: bs) := rfl

theorem deltaSum_cons (p : Point) (e : Point × Point) (es : List (Point × Point)) :
    deltaSum p (e :: es) = edgeDelta p e.1 e.2 + deltaSum p es := by
  simp [deltaSum]

/-- When no edge is skipped, the loop adds up `edgeDelta` over the consecutive pairs and
counts every edge. -/
theorem foldl_loopBody_noskip (tolerance : ℚ) (p : Point) :
    ∀ (bs : List Point) (a : Point) (w : Int) (c : Nat),
      (∀ e ∈ consecutivePairs (a :: bs), WithinTolerance tolerance e.1 e.2 = false) →
      (List.foldl (loopBody tolerance p)
          { a := a, a_left_or_on_p := decide (a.x ≤ p.x), winding_number := w,
            evaluated_edge_count := c } bs).winding_number
          = w + deltaSum p (consecutivePairs (a :: bs))
      ∧ (List.foldl (loopBody tolerance p)
          { a := a, a_left_or_on_p := decide (a.x ≤ p.x), winding_number := w,
            evaluated_edge_count := c } bs).evaluated_edge_count
          = c + bs.length := by
  intro bs
  induction bs with
  | nil => intro a w c _; simp [consecutivePairs, deltaSum]
  | cons b bs ih =>
    intro a w c h
    have hab : WithinTolerance tolerance a b = false :=
      h (a, b) (by simp [consecutivePairs_cons_cons])
    have hrest : ∀ e ∈ consecutivePairs (b :: bs), WithinTolerance tolerance e.1 e.2 = false :=
      fun e he => h e (by rw [consecutivePairs_cons_cons]; exact List.mem_cons_of_mem _ he)
    rw [List.foldl_cons, loopBody_eq tolerance p a b w c hab]
    obtain ⟨h1, h2⟩ := ih b (w + edgeDelta p a b) (c + 1) hrest
    rw [h1, h2, consecutivePairs_cons_cons, deltaSum_cons]
    constructor
    · simp only []; ring
    · simp only [List.length_cons]; omega

theorem closeWith_of_getLast (v0 : Point) : ∀ (rest : List Point) (h : rest ≠ []),
    rest.getLast h = v0 → closeWith v0 rest = rest
  | [], h, _ => absurd rfl h
  | [b], _, hl => by simp at hl; simp [closeWith, hl]
  | b :: c :: rest, _, hl => by
    have : (c :: rest).getLast (List.cons_ne_nil _ _) = v0 := by
      rw [← hl]; simp [List.getLast_cons]
    simp [closeWith, closeWith_of_getLast v0 (c :: rest) (List.cons_ne_nil _ _) this]

/-- The call on an exactly closed polygon none of whose edges is skipped: the sum of the
per-edge contributions. -/
theorem CalculateWindingNumber2D_noskip (self : IWindingNumberAlgorithm) (x y : ℚ)
    (vs : List Point) (h2 : 2 ≤ vs.length) (htol : 0 ≤ self.tolerance_)
    (hclosed : vs.getLast? = vs.head?)
    (hsep : ∀ e ∈ consecutivePairs vs, WithinTolerance self.tolerance_ e.1 e.2 = false) :
    CalculateWindingNumber2D self x y (polygonOf vs)
      = .ok (some (deltaSum { x := x, y := y } (consecutivePairs vs)), self) := by
  match vs, h2, hclosed, hsep with
  | v0 :: b :: rest, _, hclosed, hsep =>
    have hlast : (b :: rest).getLast (List.cons_ne_nil _ _) = v0 := by
      have h := hclosed
      rw [List.getLast?_eq_getLast _ (List.cons_ne_nil _ _)] at h
      simp only [List.head?_cons, Option.some.injEq] at h
      rw [← h, List.getLast_cons (List.cons_ne_nil _ _)]
    have hlast2 : (v0 :: b :: rest).getLast (List.cons_ne_nil _ _) = v0 := by
      rw [List.getLast_cons (List.cons_ne_nil _ _)]; exact hlast
    rw [CalculateWindingNumber2D_polygonOf, hlast2, WithinTolerance_self _ _ htol,
      closeWith_of_getLast v0 (b :: rest) (List.cons_ne_nil _ _) hlast]
    obtain ⟨h1, hc⟩ := foldl_loopBody_noskip self.tolerance_ { x := x, y := y }
      (b :: rest) v0 0 0 hsep
    simp only [Bool.true_eq_false, if_false, finish, initialState, h1, hc, List.length_cons]
    rw [if_neg (by omega)]
    simp

theorem countP_cons_int {α : Type} (q : α → Prop) [DecidablePred q] (a : α) (l : List α) :
    ((List.countP (fun e => decide (q e)) (a :: l) : Nat) : Int)
      = (if q a then 1 else 0) + ((List.countP (fun e => decide (q e)) l : Nat) : Int) := by
  rw [List.countP_cons]
  by_cases h : q a
  · simp only [decide_eq_true h, if_true, if_pos h]; push_cast; ring
  · simp only [decide_eq_false h, Bool.false_eq_true, if_false, if_neg h]; push_cast; ring

/-! ## Skipped edges and the evaluated-edge count -/

theorem evaluated_edge_count_loopBody (tolerance : ℚ) (p : Point) (s : LoopState) (b : Point) :
    (loopBody tolerance p s b).evaluated_edge_count
      = if WithinTolerance tolerance s.a b = true then s.evaluated_edge_count
        else s.evaluated_edge_count + 1 := by
  unfold loopBody
  split <;> rfl

theorem evaluated_edge_count_mono (tolerance : ℚ) (p : Point) :
    ∀ (bs : List Point) (s : LoopState),
      s.evaluated_edge_count
        ≤ (List.foldl (loopBody tolerance p) s bs).evaluated_edge_count := by
  intro bs
  induction bs with
  | nil => intro s; exact le_refl _
  | cons b bs ih =>
    intro s
    rw [List.foldl_cons]
    refine le_trans ?_ (ih _)
    rw [evaluated_edge_count_loopBody]
    split <;> omega

theorem foldl_loopBody_skip_all (tolerance : ℚ) (p : Point) :
    ∀ (bs : List Point) (s : LoopState),
      (∀ b ∈ bs, WithinTolerance tolerance s.a b = true) →
      List.foldl (loopBody tolerance p) s bs = s := by
  intro bs
  induction bs with
  | nil => intro s _; rfl
  | cons b bs ih =>
    intro s h
    rw [List.foldl_cons, loopBody_skip tolerance p s b (h b (List.mem_cons_self _ _))]
    exact ih s (fun b' hb' => h b' (List.mem_cons_of_mem _ hb'))

theorem within_of_evaluated_edge_count_eq (tolerance : ℚ) (p : Point) :
    ∀ (bs : List Point) (s : LoopState),
      (List.foldl (loopBody tolerance p) s bs).evaluated_edge_count = s.evaluated_edge_count →
      ∀ b ∈ bs, WithinTolerance tolerance s.a b = true := by
  intro bs
  induction bs with
  | nil => intro s _ b hb; simp at hb
  | cons b bs ih =>
    intro s h
    rw [List.foldl_cons] at h
    have hmono := evaluated_edge_count_mono tolerance p bs (loopBody tolerance p s b)
    have hstep := evaluated_edge_count_loopBody tolerance p s b
    by_cases hw : WithinTolerance tolerance s.a b = true
    · rw [loopBody_skip tolerance p s b hw] at h
      intro b' hb'
      rcases List.mem_cons.1 hb' with rfl | hb'
      · exact hw
      · exact ih s h b' hb'
    · rw [if_neg hw] at hstep
      omega

theorem mem_closeWith (v0 : Point) : ∀ (rest : List Point) (b : Point),
    b ∈ closeWith v0 rest → b = v0 ∨ b ∈ rest
  | [], b, h => by simp [closeWith] at h
  | [_], b, h => by simp [closeWith] at h; exact Or.inl h
  | c :: d :: rest, b, h => by
    simp only [closeWith, List.mem_cons] at h
    rcases h with h | h
    · exact Or.inr (by simp [h])
    · rcases mem_closeWith v0 (d :: rest) b (by simpa [List.mem_cons] using h) with h' | h'
      · exact Or.inl h'
      · exact Or.inr (List.mem_cons_of_mem _ h')

theorem mem_closeWith_or_last (v0 : Point) : ∀ (rest : List Point) (v : Point),
    v ∈ rest → v ∈ closeWith v0 rest ∨ rest.getLast? = some v
  | [], v, h => by simp at h
  | [c], v, h => by simp at h; simp [h]
  | c :: d :: rest, v, h => by
    rcases List.mem_cons.1 h with rfl | h
    · exact Or.inl (by simp [closeWith])
    · rcases mem_closeWith_or_last v0 (d :: rest) v h with h' | h'
      · exact Or.inl (by simp only [closeWith]; exact List.mem_cons_of_mem _ h')
      · exact Or.inr (by rw [List.getLast?_cons_cons]; exact h')

/-- On a polygon closed within the tolerance, no edge is evaluated exactly when every
vertex is within the tolerance of vertex 0. -/
theorem CalculateWindingNumber2D_closed (self : IWindingNumberAlgorithm) (x y : ℚ)
    (v0 : Point) (rest : List Point)
    (hcl : WithinTolerance self.tolerance_ v0
      ((v0 :: rest).getLast (List.cons_ne_nil _ _)) = true) :
    ((∀ v ∈ v0 :: rest, WithinTolerance self.tolerance_ v0 v = true) →
      CalculateWindingNumber2D self x y (polygonOf (v0 :: rest))
        = .ok (none, self.set_error_message
            "Insufficient geometry in polygon for a meaningful result"))
    ∧ ((¬ ∀ v ∈ v0 :: rest, WithinTolerance self.tolerance_ v0 v = true) →
      ∃ n : Int, CalculateWindingNumber2D self x y (polygonOf (v0 :: rest))
        = .ok (some n, self)) := by
  have htol := tolerance_nonneg_of_within _ _ _ hcl
  rw [CalculateWindingNumber2D_polygonOf, hcl]
  simp only [Bool.true_eq_false, if_false]
  constructor
  · intro hall
    rw [foldl_loopBody_skip_all]
    · rfl
    · intro b hb
      rcases mem_closeWith v0 rest b hb with rfl | hb
      · exact WithinTolerance_self _ _ htol
      · exact hall b (List.mem_cons_of_mem _ hb)
  · intro hnot
    suffices hc : ¬ (List.foldl (loopBody self.tolerance_ { x := x, y := y })
        (initialState { x := x, y := y } v0) (closeWith v0 rest)).evaluated_edge_count < 1 by
      unfold finish
      rw [if_neg hc]
      exact ⟨_, rfl⟩
    intro hlt
    apply hnot
    have h0 : (List.foldl (loopBody self.tolerance_ { x := x, y := y })
        (initialState { x := x, y := y } v0) (closeWith v0 rest)).evaluated_edge_count
        = (initialState { x := x, y := y } v0).evaluated_edge_count := by
      have : (initialState { x := x, y := y } v0).evaluated_edge_count = 0 := rfl
      omega
    have hw := within_of_evaluated_edge_count_eq _ _ _ _ h0
    intro v hv
    rcases List.mem_cons.1 hv with rfl | hv
    · exact WithinTolerance_self _ _ htol
    · rcases mem_closeWith_or_last v0 rest v hv with h | h
      · exact hw v h
      · have hl : (v0 :: rest).getLast (List.cons_ne_nil _ _) = v := by
          cases rest with
          | nil => simp at hv
          | cons c rest =>
            rw [List.getLast_cons (List.cons_ne_nil _ _)]
            rw [List.getLast?_eq_getLast _ (List.cons_ne_nil _ _)] at h
            exact Option.some.inj h
        rw [← hl]; exact hcl

/-! ## Cyclic rotation -/

theorem cyclicRotation_decomposed {α : Type} (L R : List α) (m v0 : α) :
    cyclicRotation L.length ((L ++ m :: R) ++ [v0]) = (m :: R) ++ (L ++ [m]) := by
  unfold cyclicRotation
  rw [List.dropLast_concat, List.drop_left,
    List.take_append_of_le_length (by simp), List.take_append]
  simp

/-! ## The last stored vertex -/

end winding_number

/-! ## The claims stated on the exact reading -/

/-- C4 (the code at a failing input). The point `(1 - 2^-21, 1/2)` is strictly inside the
counter-clockwise unit square, and with tolerance 0 `CalculateWindingNumber2D` returns 2,
not 1: the right edge is counted once by the on-edge special case (its cross product
`2^-21` is within the internal epsilon of zero) and the top edge once by the general
right-to-left rule. -/
theorem inside_unit_square_near_right_edge :
    CalculateWindingNumber2D IWindingNumberAlgorithm.Create (2097151 / 2097152) (1 / 2)
        unitSquare
      = .ok (some 2, IWindingNumberAlgorithm.Create) := by
  rw [show unitSquare = polygonOf [⟨0, 0⟩, ⟨1, 0⟩, ⟨1, 1⟩, ⟨0, 1⟩, ⟨0, 0⟩] from rfl,
    CalculateWindingNumber2D_polygonOf]
  norm_num [closeWith, List.foldl, loopBody, initialState, finish, WithinTolerance,
    FuzzyEquals, CrossProduct, default_max_delta, IWindingNumberAlgorithm.Create, abs_le]

/-- Where C4 holds and where it fails: for a point strictly inside a counter-clockwise
rectangle and tolerance 0, the call returns 1 when the cross product of the right edge
with the point, `(y1 - y0) * (x1 - px)`, exceeds the internal epsilon, and 2 otherwise. -/
theorem inside_rectangleCCW (self : IWindingNumberAlgorithm) (x0 y0 x1 y1 px py : ℚ)
    (htol : self.tolerance_ = 0)
    (hx : x0 < x1) (hy : y0 < y1) (hpx : x0 < px ∧ px < x1) (hpy : y0 < py ∧ py < y1) :
    CalculateWindingNumber2D self px py (rectangleCCW x0 y0 x1 y1)
      = .ok (some (if (y1 - y0) * (x1 - px) ≤ default_max_delta then 2 else 1), self) := by
  obtain ⟨hpx0, hpx1⟩ := hpx
  obtain ⟨hpy0, hpy1⟩ := hpy
  have hxne : ¬ x1 - x0 ≤ 0 := by linarith
  have hxne' : ¬ 0 ≤ x0 - x1 := by linarith
  have hyne : ¬ y1 - y0 ≤ 0 := by linarith
  have hyne' : ¬ 0 ≤ y0 - y1 := by linarith
  have hc2 : 0 < (y1 - y0) * (x1 - px) := mul_pos (by linarith) (by linarith)
  have hc3 : 0 ≤ (x0 - x1) * (py - y1) := by nlinarith
  rw [show rectangleCCW x0 y0 x1 y1
      = polygonOf [⟨x0, y0⟩, ⟨x1, y0⟩, ⟨x1, y1⟩, ⟨x0, y1⟩, ⟨x0, y0⟩] from rfl,
    CalculateWindingNumber2D_noskip self px py _ (by simp) (by rw [htol]) (by simp)
      (by
        intro e he
        simp only [consecutivePairs, List.tail_cons, List.zip_cons_cons, List.zip_nil_right,
          List.mem_cons, List.mem_singleton, List.not_mem_nil, or_false] at he
        rcases he with rfl | rfl | rfl | rfl <;>
          simp [WithinTolerance, htol, abs_le, hxne, hxne', hyne, hyne'])]
  simp only [consecutivePairs, List.tail_cons, List.zip_cons_cons, List.zip_nil_right,
    deltaSum, List.map_cons, List.map_nil, List.sum_cons, List.sum_nil, add_zero]
  have e1 : edgeDelta ⟨px, py⟩ ⟨x0, y0⟩ ⟨x1, y0⟩ = 0 := by
    have hc : ¬ (x1 - x0) * (py - y0) < 0 := not_lt.mpr (by nlinarith)
    simp [edgeDelta, CrossProduct, le_of_lt hpx0, hc]
  have e2 : edgeDelta ⟨px, py⟩ ⟨x1, y0⟩ ⟨x1, y1⟩
      = if (y1 - y0) * (x1 - px) ≤ default_max_delta then 1 else 0 := by
    have hneg : -((y1 - y0) * (px - x1)) = (y1 - y0) * (x1 - px) := by ring
    have hpos : (0 : ℚ) ≤ default_max_delta := by norm_num [default_max_delta]
    have habs : |-((y1 - y0) * (px - x1))| = (y1 - y0) * (x1 - px) := by
      rw [hneg]; exact abs_of_pos hc2
    simp only [edgeDelta, CrossProduct, FuzzyEquals, sub_self, zero_mul, zero_sub, sub_zero,
      abs_zero, habs, hpos, hy, le_of_lt hpy0, le_of_lt hpy1, decide_True, Bool.and_true,
      decide_eq_true_eq, not_le.mpr hpx1, if_false, false_and]
  have e3 : edgeDelta ⟨px, py⟩ ⟨x1, y1⟩ ⟨x0, y1⟩ = 1 := by
    simp [edgeDelta, CrossProduct, le_of_lt hpx0, not_le.mpr hpx1, hc3]
  have e4 : edgeDelta ⟨px, py⟩ ⟨x0, y1⟩ ⟨x0, y0⟩ = 0 := by
    simp [edgeDelta, CrossProduct, le_of_lt hpx0, not_lt.mpr (le_of_lt hy)]
  rw [e1, e2, e3, e4]
  split_ifs <;> rfl

/-- C5 (the code at a failing input). The point `(5, 2^-25)` lies 4 units to the right of
the counter-clockwise rectangle `[0,1] x [0, 2^-24]`, and with tolerance 0
`CalculateWindingNumber2D` returns 1, not 0: the cross product of the right edge with the
point is `-2^-22`, within the internal epsilon of zero, so the on-edge special case
counts the edge. -/
theorem outside_thin_rectangle :
    CalculateWindingNumber2D IWindingNumberAlgorithm.Create 5 (1 / 33554432) thinRectangle
      = .ok (some 1, IWindingNumberAlgorithm.Create) := by
  rw [show thinRectangle = polygonOf [⟨0, 0⟩, ⟨1, 0⟩, ⟨1, 1 / 16777216⟩, ⟨0, 1 / 16777216⟩,
      ⟨0, 0⟩] from rfl, CalculateWindingNumber2D_polygonOf]
  norm_num [closeWith, List.foldl, loopBody, initialState, finish, WithinTolerance,
    FuzzyEquals, CrossProduct, default_max_delta, IWindingNumberAlgorithm.Create, abs_le]

/-- C6 (the code at a failing input). The point `(1 - 2^-21, 0)` lies on the bottom edge
of the counter-clockwise unit square, and with tolerance 0 `CalculateWindingNumber2D`
returns 2, not 1. -/
theorem on_bottom_edge_near_corner :
    CalculateWindingNumber2D IWindingNumberAlgorithm.Create (2097151 / 2097152) 0 unitSquare
      = .ok (some 2, IWindingNumberAlgorithm.Create) := by
  rw [show unitSquare = polygonOf [⟨0, 0⟩, ⟨1, 0⟩, ⟨1, 1⟩, ⟨0, 1⟩, ⟨0, 0⟩] from rfl,
    CalculateWindingNumber2D_polygonOf]
  norm_num [closeWith, List.foldl, loopBody, initialState, finish, WithinTolerance,
    FuzzyEquals, CrossProduct, default_max_delta, IWindingNumberAlgorithm.Create, abs_le]

/-- The test `CanGetPointInPolygon`: the corner (0,0) of the unit square, with tolerance
1e-6, gives 1. -/
theorem on_corner_of_unit_square :
    CalculateWindingNumber2D { tolerance_ := 1 / 1000000, error_message_ := "" } 0 0 unitSquare
      = .ok (some 1, { tolerance_ := 1 / 1000000, error_message_ := "" }) := by
  rw [show unitSquare = polygonOf [⟨0, 0⟩, ⟨1, 0⟩, ⟨1, 1⟩, ⟨0, 1⟩, ⟨0, 0⟩] from rfl,
    CalculateWindingNumber2D_polygonOf]
  norm_num [closeWith, List.foldl, loopBody, initialState, finish, WithinTolerance,
    FuzzyEquals, CrossProduct, default_max_delta, abs_le]

/-- C12 (counterexample). With tolerance 1 the polygon (0,0),(1,0),(2,0),(1,0),(0,0) has
at least 2 vertices, is closed, and every two consecutive vertices are within the
tolerance of each other; yet `CalculateWindingNumber2D` at the point (0,0) returns the
value 1: the vertex (2,0) is compared with the first vertex, not with its predecessor. -/
theorem consecutive_degenerate_counterexample :
    (0 : ℚ) ≤ 1
    ∧ 2 ≤ (verticesOf outAndBack).length
    ∧ outAndBack.IsClosed 1 = .ok true
    ∧ (∀ e ∈ consecutivePairs (verticesOf outAndBack),
        |e.1.x - e.2.x| ≤ 1 ∧ |e.1.y - e.2.y| ≤ 1)
    ∧ CalculateWindingNumber2D { tolerance_ := 1, error_message_ := "" } 0 0 outAndBack
        = .ok (some 1, { tolerance_ := 1, error_message_ := "" }) := by
  refine ⟨by norm_num, by simp [verticesOf, outAndBack], ?_, ?_, ?_⟩
  · norm_num [Polygon.IsClosed, outAndBack]
  · simp only [verticesOf, outAndBack, consecutivePairs]
    norm_num [abs_le]
  · rw [show outAndBack = polygonOf [⟨0, 0⟩, ⟨1, 0⟩, ⟨2, 0⟩, ⟨1, 0⟩, ⟨0, 0⟩] from rfl,
      CalculateWindingNumber2D_polygonOf]
    norm_num [closeWith, List.foldl, loopBody, initialState, finish, WithinTolerance,
      FuzzyEquals, CrossProduct, default_max_delta, abs_le]

/-- C12 (amended). For every tolerance `>= 0`, every test point and every polygon with at
least 2 vertices that is closed within the tolerance and in which every vertex is within
the tolerance of the first vertex in both coordinates, `CalculateWindingNumber2D` returns
no result, with the insufficient-geometry diagnostic. -/
theorem all_near_first_vertex_fails (self : IWindingNumberAlgorithm) (x y : ℚ)
    (polygon : Polygon)
    (hlen : polygon.x_vec_.length = polygon.y_vec_.length)
    (hne : verticesOf polygon ≠ [])
    (htol : 0 ≤ self.tolerance_)
    (h2 : 2 ≤ (verticesOf polygon).length)
    (hclosed : |((verticesOf polygon).head hne).x - ((verticesOf polygon).getLast hne).x|
          ≤ self.tolerance_
        ∧ |((verticesOf polygon).head hne).y - ((verticesOf polygon).getLast hne).y|
          ≤ self.tolerance_)
    (hnear : ∀ v ∈ verticesOf polygon,
        |((verticesOf polygon).head hne).x - v.x| ≤ self.tolerance_
        ∧ |((verticesOf polygon).head hne).y - v.y| ≤ self.tolerance_) :
    CalculateWindingNumber2D self x y polygon
      = .ok (none, { self with error_message_ :=
          "Insufficient geometry in polygon for a meaningful result" }) := by
  have _ := htol
  have _ := h2
  obtain ⟨v0, rest, rfl⟩ := polygon_cases polygon hlen hne
  simp only [verticesOf_polygonOf, List.head_cons, ← WithinTolerance_iff] at hclosed hnear
  exact (CalculateWindingNumber2D_closed self x y v0 rest hclosed).1 hnear

/-- C12 (amended), at the polygon (0,0),(0,1e-7),(1e-7,1e-7),(0,0) with tolerance 1e-6
and the point (0,0). -/
theorem all_near_first_vertex_fails_witness :
    CalculateWindingNumber2D { tolerance_ := 1 / 1000000, error_message_ := "" } 0 0
        collapsedTriangle
      = .ok (none, { tolerance_ := 1 / 1000000, error_message_ :=
          "Insufficient geometry in polygon for a meaningful result" }) :=
  all_near_first_vertex_fails { tolerance_ := 1 / 1000000, error_message_ := "" } 0 0
    collapsedTriangle rfl (by simp [verticesOf, collapsedTriangle]) (by norm_num)
    (by simp [verticesOf, collapsedTriangle])
    (by
      simp only [verticesOf, collapsedTriangle, List.zipWith, List.head_cons,
        List.getLast_cons_cons, List.getLast_singleton]
      norm_num [abs_le])
    (by
      simp only [verticesOf, collapsedTriangle, List.zipWith, List.head_cons, List.mem_cons,
        List.mem_singleton, List.not_mem_nil, or_false]
      rintro v (rfl | rfl | rfl | rfl) <;> norm_num [abs_le])

namespace poly

/-! ## The tokenizer -/

theorem firstOf_none (chars : List Char) : ∀ r : List Char, firstOf chars r = none →
    ∀ c ∈ r, chars.contains c = false
  | [], _, c, hc => by simp at hc
  | a :: r, h, c, hc => by
    unfold firstOf at h
    by_cases ha : chars.contains a = true
    · rw [if_pos ha] at h
      cases h
    · rw [if_neg ha, Option.map_eq_none'] at h
      rcases List.mem_cons.1 hc with rfl | hc
      · exact Bool.not_eq_true _ ▸ ha
      · exact firstOf_none chars r h c hc

theorem firstOf_some (chars : List Char) : ∀ (r : List Char) (i : Nat),
    firstOf chars r = some i →
    ∃ (t : List Char) (d : Char) (r' : List Char), r = t ++ d :: r' ∧ t.length = i
      ∧ (∀ c ∈ t, chars.contains c = false) ∧ chars.contains d = true
  | [], i, h => by simp [firstOf] at h
  | a :: r, i, h => by
    unfold firstOf at h
    by_cases ha : chars.contains a = true
    · rw [if_pos ha, Option.some.injEq] at h
      exact ⟨[], a, r, rfl, h, fun c hc => absurd hc (List.not_mem_nil c), ha⟩
    · rw [if_neg ha, Option.map_eq_some'] at h
      obtain ⟨j, hj, rfl⟩ := h
      obtain ⟨t, d, r', hr, hlen, ht, hd⟩ := firstOf_some chars r j hj
      refine ⟨a :: t, d, r', by rw [hr]; rfl, by rw [List.length_cons, hlen], ?_, hd⟩
      intro c hc
      rcases List.mem_cons.1 hc with rfl | hc
      · exact Bool.not_eq_true _ ▸ ha
      · exact ht c hc

theorem maximalRuns_nil (delims : List Char) : maximalRuns delims [] = [] := rfl

theorem maximalRuns_of_no_delim (delims r : List Char)
    (h : ∀ c ∈ r, delims.contains c = false) (hne : r ≠ []) :
    maximalRuns delims r = [r] := by
  unfold maximalRuns
  rw [List.splitOnP_eq_single _ _ (fun c hc => Bool.eq_false_iff.1 (h c hc))]
  cases r with
  | nil => exact absurd rfl hne
  | cons a r => rfl

theorem maximalRuns_split (delims t : List Char) (d : Char) (r : List Char)
    (h : ∀ c ∈ t, delims.contains c = false) (hd : delims.contains d = true) :
    maximalRuns delims (t ++ d :: r)
      = (if t = [] then [] else [t]) ++ maximalRuns delims r := by
  unfold maximalRuns
  rw [List.splitOnP_first _ _ (fun c hc => Bool.eq_false_iff.1 (h c hc)) d hd]
  cases t with
  | nil => rfl
  | cons a t => rfl

/-- Every string either has no delimiter or splits at its first delimiter. -/
theorem no_delim_or_split (delims : List Char) : ∀ r : List Char,
    (∀ c ∈ r, delims.contains c = false)
    ∨ ∃ (t : List Char) (d : Char) (r' : List Char), r = t ++ d :: r'
        ∧ (∀ c ∈ t, delims.contains c = false) ∧ delims.contains d = true := by
  intro r
  cases h : firstOf delims r with
  | none => exact Or.inl (firstOf_none delims r h)
  | some i =>
    obtain ⟨t, d, r', hr, _, ht, hd⟩ := firstOf_some delims r i h
    exact Or.inr ⟨t, d, r', hr, ht, hd⟩

/-- Induction along the cuts at delimiters. -/
theorem runs_induction (delims : List Char) (P : List Char → Prop)
    (hbase : ∀ r, (∀ c ∈ r, delims.contains c = false) → P r)
    (hstep : ∀ (t : List Char) (d : Char) (r : List Char),
      (∀ c ∈ t, delims.contains c = false) → delims.contains d = true → P r →
      P (t ++ d :: r)) :
    ∀ r, P r := by
  intro r
  generalize hn : r.length = n
  induction n using Nat.strong_induction_on generalizing r with
  | _ n ih =>
    rcases no_delim_or_split delims r with h | ⟨t, d, r', rfl, ht, hd⟩
    · exact hbase r h
    · exact hstep t d r' ht hd (ih r'.length (by rw [← hn]; simp; omega) r' rfl)

/-- The loop of `SplitString` from position `first` appends the maximal runs of the rest
of the string. -/
theorem SplitString_loop_eq (to_split delims : List Char) :
    ∀ (n first : Nat) (split_strings : List (List Char)), to_split.length - first = n →
      SplitString.loop to_split delims first split_strings
        = split_strings ++ maximalRuns delims (to_split.drop first) := by
  intro n
  induction n using Nat.strong_induction_on with
  | _ n ih =>
    intro first acc hn
    rw [SplitString.loop]
    by_cases hlt : first < to_split.length
    · rw [if_pos hlt]
      have hdrop : to_split.drop first ≠ [] := by
        intro h
        have := congrArg List.length h
        simp at this
        omega
      split
      · rename_i hs
        simp only [find_first_of, Option.map_eq_none'] at hs
        rw [maximalRuns_of_no_delim delims _ (firstOf_none delims _ hs) hdrop]
        rfl
      · rename_i second hs
        simp only [find_first_of, Option.map_eq_some'] at hs
        obtain ⟨i, hi, rfl⟩ := hs
        obtain ⟨t, d, r', hr, hlen, ht, hd⟩ := firstOf_some delims _ i hi
        have hnext : to_split.drop (i + first + 1) = r' := by
          have : to_split.drop (i + first + 1) = (to_split.drop first).drop (i + 1) := by
            rw [List.drop_drop]; congr 1; omega
          rw [this, hr, ← hlen]
          have : t ++ d :: r' = (t ++ [d]) ++ r' := by simp
          rw [this, List.drop_left' (by simp)]
        have hsub : substr to_split first (some (i + first - first)) = t := by
          simp only [substr, Nat.add_sub_cancel, hr, ← hlen, List.take_left]
        have hlen' : (to_split.drop first).length = t.length + (r'.length + 1) := by
          rw [hr]; simp
        rw [List.length_drop] at hlen'
        rw [ih (to_split.length - (i + first + 1)) (by omega) (i + first + 1) _ rfl, hnext, hr,
          maximalRuns_split delims t d r' ht hd, hsub]
        by_cases ht0 : t = []
        · have hi0 : i = 0 := by rw [← hlen, ht0]; rfl
          subst hi0
          simp [ht0]
        · have hi0 : first ≠ i + first := by
            have : t.length ≠ 0 := fun h => ht0 (List.length_eq_zero.mp h)
            omega
          simp [ht0, hi0]
    · rw [if_neg hlt]
      have : to_split.drop first = [] := List.drop_eq_nil_of_le (by omega)
      rw [this, maximalRuns_nil, List.append_nil]

theorem SplitString_eq_maximalRuns (to_split delims : List Char) :
    SplitString to_split delims = maximalRuns delims to_split := by
  unfold SplitString
  rw [SplitString_loop_eq to_split delims _ 0 [] rfl]
  rfl

theorem maximalRuns_append_delim (delims : List Char) (d : Char) (b : List Char)
    (hd : delims.contains d = true) : ∀ a : List Char,
    maximalRuns delims (a ++ d :: b) = maximalRuns delims a ++ maximalRuns delims b := by
  apply runs_induction delims
  · intro r h
    rw [maximalRuns_split delims r d b h hd]
    by_cases hr : r = []
    · subst hr; rfl
    · rw [if_neg hr, maximalRuns_of_no_delim delims r h hr]
  · intro t d' r ht hd' ih
    rw [List.append_assoc, List.cons_append, maximalRuns_split delims t d' _ ht hd', ih,
      maximalRuns_split delims t d' r ht hd', List.append_assoc]

theorem maximalRuns_no_delim_inside (delims : List Char) : ∀ s : List Char,
    ∀ t ∈ maximalRuns delims s, ∀ c ∈ t, delims.contains c = false := by
  apply runs_induction delims
  · intro r h t ht
    by_cases hr : r = []
    · subst hr; simp [maximalRuns_nil] at ht
    · rw [maximalRuns_of_no_delim delims r h hr, List.mem_singleton] at ht
      subst ht; exact h
  · intro t d r ht hd ih u hu
    rw [maximalRuns_split delims t d r ht hd, List.mem_append] at hu
    rcases hu with hu | hu
    · by_cases ht0 : t = []
      · simp [ht0] at hu
      · simp only [ht0, if_false, List.mem_singleton] at hu
        subst hu; exact ht
    · exact ih u hu

theorem maximalRuns_flatten (delims : List Char) : ∀ s : List Char,
    (maximalRuns delims s).flatten = s.filter fun c => !delims.contains c := by
  apply runs_induction delims
  · intro r h
    have hf : (r.filter fun c => !delims.contains c) = r :=
      List.filter_eq_self.2 (fun c hc => by
        show (!delims.contains c) = true
        rw [h c hc]; rfl)
    by_cases hr : r = []
    · subst hr; rfl
    · rw [maximalRuns_of_no_delim delims r h hr, hf]; simp
  · intro t d r ht hd ih
    have hf : (t.filter fun c => !delims.contains c) = t :=
      List.filter_eq_self.2 (fun c hc => by
        show (!delims.contains c) = true
        rw [ht c hc]; rfl)
    rw [maximalRuns_split delims t d r ht hd, List.flatten_append, ih, List.filter_append, hf,
      List.filter_cons_of_neg (by
        show ¬ (!delims.contains d) = true
        rw [hd]; decide)]
    by_cases ht0 : t = []
    · simp [ht0]
    · simp [ht0]

theorem maximalRuns_ne_nil (delims s : List Char) : ∀ t ∈ maximalRuns delims s, t ≠ [] := by
  intro t ht
  unfold maximalRuns at ht
  have := (List.mem_filter.1 ht).2
  intro h
  subst h
  simp at this

theorem contains_iff_mem (delims : List Char) (c : Char) :
    delims.contains c = true ↔ c ∈ delims := by
  simp [List.contains]

theorem contains_false_iff (delims : List Char) (c : Char) :
    delims.contains c = false ↔ c ∉ delims := by
  rw [← contains_iff_mem, Bool.not_eq_true]

end poly

/-- C20. Tokenizer: for every string and every set of delimiter characters, `SplitString`
returns the maximal non-empty runs of non-delimiter characters in order of occurrence. No
token is empty, no token contains a delimiter, the tokens concatenated are the string
with its delimiters removed; a string without delimiters is its own single token, and a
delimiter between two strings separates their tokens, so runs of delimiters and leading
or trailing delimiters change nothing. -/
theorem SplitString_tokens (s delims : List Char) :
    SplitString s delims = maximalRuns delims s
    ∧ (∀ t ∈ SplitString s delims, t ≠ [])
    ∧ (∀ t ∈ SplitString s delims, ∀ c ∈ t, c ∉ delims)
    ∧ (SplitString s delims).flatten = s.filter (fun c => decide (c ∉ delims))
    ∧ ((∀ c ∈ s, c ∉ delims) → s ≠ [] → SplitString s delims = [s])
    ∧ (∀ (a b : List Char) (d : Char), d ∈ delims →
        SplitString (a ++ d :: b) delims = SplitString a delims ++ SplitString b delims) := by
  refine ⟨SplitString_eq_maximalRuns s delims, ?_, ?_, ?_, ?_, ?_⟩
  · rw [SplitString_eq_maximalRuns]; exact maximalRuns_ne_nil delims s
  · rw [SplitString_eq_maximalRuns]
    intro t ht c hc
    exact (contains_false_iff delims c).1 (maximalRuns_no_delim_inside delims s t ht c hc)
  · rw [SplitString_eq_maximalRuns, maximalRuns_flatten]
    congr 1
    funext c
    simp [List.contains]
  · intro h hne
    rw [SplitString_eq_maximalRuns]
    exact maximalRuns_of_no_delim delims s
      (fun c hc => (contains_false_iff delims c).2 (h c hc)) hne
  · intro a b d hd
    rw [SplitString_eq_maximalRuns, SplitString_eq_maximalRuns, SplitString_eq_maximalRuns]
    exact maximalRuns_append_delim delims d b ((contains_iff_mem delims d).2 hd) a

namespace poly

/-! ## The line reader -/

theorem readElement_of_ok (stof : List Char → Except StofError ℚ) (st : ReaderState)
    (t : List Char) (v : ℚ) (h : stof t = .ok v) :
    readElement stof st t = .ok (readValue st v) := by
  unfold readElement readValue
  rw [h]
  simp only []
  split_ifs
  · rfl
  · rfl
  · cases st.x <;> rfl

theorem readElement_of_error (stof : List Char → Except StofError ℚ) (st : ReaderState)
    (t : List Char) (e : StofError) (h : stof t = .error e) :
    ∃ what, readElement stof st t = .error (.runtime_error what) := by
  unfold readElement
  rw [h]
  cases e
  · exact ⟨_, rfl⟩
  · exact ⟨_, rfl⟩

/-- When every token converts, the loop over the tokens is a fold of `readValue` over the
values. -/
theorem foldlM_readElement_of_ok (stof : List Char → Except StofError ℚ) :
    ∀ (tokens : List (List Char)) (vals : List ℚ) (st : ReaderState),
      tokens.map stof = vals.map Except.ok →
      tokens.foldlM (readElement stof) st = .ok (vals.foldl readValue st)
  | [], [], st, _ => rfl
  | [], _ :: _, _, h => by simp at h
  | _ :: _, [], _, h => by simp at h
  | t :: tokens, v :: vals, st, h => by
    simp only [List.map_cons, List.cons.injEq] at h
    rw [List.foldlM_cons, readElement_of_ok stof st t v h.1]
    exact foldlM_readElement_of_ok stof tokens vals (readValue st v) h.2

/-- When some token does not convert, the loop throws a `runtime_error`. -/
theorem foldlM_readElement_of_error (stof : List Char → Except StofError ℚ) :
    ∀ (tokens : List (List Char)) (st : ReaderState),
      (∃ t ∈ tokens, ∃ e, stof t = .error e) →
      ∃ what, tokens.foldlM (readElement stof) st = .error (.runtime_error what)
  | [], _, h => by simp at h
  | t :: tokens, st, h => by
    rw [List.foldlM_cons]
    cases ht : stof t with
    | error e =>
      obtain ⟨what, hw⟩ := readElement_of_error stof st t e ht
      exact ⟨what, by rw [hw]; rfl⟩
    | ok v =>
      rw [readElement_of_ok stof st t v ht]
      obtain ⟨u, hu, e, he⟩ := h
      rcases List.mem_cons.1 hu with rfl | hu
      · rw [ht] at he; cases he
      · exact foldlM_readElement_of_error stof tokens (readValue st v) ⟨u, hu, e, he⟩

/-- Every list of tokens either converts entirely or has a token that does not. -/
theorem all_convert_or_not (stof : List Char → Except StofError ℚ) :
    ∀ tokens : List (List Char),
      (∃ vals : List ℚ, tokens.map stof = vals.map Except.ok)
      ∨ (∃ t ∈ tokens, ∃ e, stof t = .error e)
  | [] => Or.inl ⟨[], rfl⟩
  | t :: tokens => by
    cases ht : stof t with
    | error e => exact Or.inr ⟨t, List.mem_cons_self _ _, e, ht⟩
    | ok v =>
      rcases all_convert_or_not stof tokens with ⟨vals, hv⟩ | ⟨u, hu, e, he⟩
      · exact Or.inl ⟨v :: vals, by simp [ht, hv]⟩
      · exact Or.inr ⟨u, List.mem_cons_of_mem _ hu, e, he⟩

/-- Once the query point is read, the values fill the polygon two by two. -/
theorem foldl_readValue_polygon (px py : ℚ) : ∀ (vals : List ℚ) (polygon : Polygon),
    vals.foldl readValue
        { x := none, point_x := some px, point_y := some py, polygon := polygon }
      = { x := unpaired vals, point_x := some px, point_y := some py,
          polygon := { x_vec_ := polygon.x_vec_ ++ (pairUp vals).map Prod.fst,
                       y_vec_ := polygon.y_vec_ ++ (pairUp vals).map Prod.snd } }
  | [], polygon => by simp [unpaired, pairUp]
  | [x], polygon => by simp [unpaired, pairUp, readValue]
  | x :: y :: rest, polygon => by
    have ih := foldl_readValue_polygon px py rest (polygon.AppendPoint x y)
    simp only [List.foldl_cons, readValue, unpaired, pairUp, List.map_cons] at ih ⊢
    simp only [reduceCtorEq, if_false]
    rw [ih]
    simp [Polygon.AppendPoint]

/-- The state after the loop, when every token converts. -/
theorem foldl_readValue_initial : ∀ vals : List ℚ,
    vals.foldl readValue initialReaderState
      = match vals with
        | [] => initialReaderState
        | [px] => { initialReaderState with point_x := some px }
        | px :: py :: rest =>
          { x := unpaired rest, point_x := some px, point_y := some py,
            polygon := { x_vec_ := (pairUp rest).map Prod.fst,
                         y_vec_ := (pairUp rest).map Prod.snd } }
  | [] => rfl
  | [px] => rfl
  | px :: py :: rest => by
    have h := foldl_readValue_polygon px py rest { x_vec_ := [], y_vec_ := [] }
    simp only [List.nil_append] at h
    show List.foldl readValue
      { x := none, point_x := some px, point_y := some py,
        polygon := { x_vec_ := [], y_vec_ := [] } } rest = _
    rw [h]

theorem length_pairUp : ∀ vals : List ℚ, (pairUp vals).length = vals.length / 2
  | [] => rfl
  | [_] => by simp [pairUp]
  | x :: y :: rest => by
    simp only [pairUp, List.length_cons, length_pairUp rest]
    omega

theorem getElem?_pairUp : ∀ (vals : List ℚ) (j : Nat), j < vals.length / 2 →
    ((pairUp vals).map Prod.fst)[j]? = vals[2 * j]?
    ∧ ((pairUp vals).map Prod.snd)[j]? = vals[2 * j + 1]?
  | [], j, h => by simp at h
  | [_], j, h => by simp only [List.length_singleton] at h; omega
  | x :: y :: rest, 0, _ => by simp [pairUp]
  | x :: y :: rest, j + 1, h => by
    have hj : j < rest.length / 2 := by
      simp only [List.length_cons] at h
      omega
    have ih := getElem?_pairUp rest j hj
    have e1 : 2 * (j + 1) = (2 * j + 1) + 1 := by ring
    have e2 : 2 * (j + 1) + 1 = (2 * j + 1 + 1) + 1 := by ring
    simp only [pairUp, List.map_cons, List.getElem?_cons_succ, e1, e2]
    exact ih

/-- The call as a function of the values of the tokens, when every token converts. -/
theorem CreatePointAndPolygonFromString_of_ok (stof : List Char → Except StofError ℚ)
    (polygon_string : List Char) (vals : List ℚ)
    (hconv : (tokensOf polygon_string).map stof = vals.map Except.ok) :
    CreatePointAndPolygonFromString stof polygon_string = outcomeOfValues vals := by
  have hfold := foldlM_readElement_of_ok stof (tokensOf polygon_string) vals
    initialReaderState hconv
  unfold CreatePointAndPolygonFromString
  simp only []
  have hfold' : (SplitString (substr polygon_string 0 (find polygon_string '#')) [' ', '\t']).foldlM
      (readElement stof)
      { x := none, point_x := none, point_y := none, polygon := { x_vec_ := [], y_vec_ := [] } }
      = .ok (vals.foldl readValue initialReaderState) := hfold
  rw [hfold', foldl_readValue_initial]
  match vals with
  | [] => rfl
  | [_] => rfl
  | px :: py :: rest =>
    simp only [Polygon.size, List.length_map, length_pairUp, if_true, outcomeOfValues]

end poly

namespace poly

theorem firstOf_singleton_of_not_mem (c : Char) : ∀ s : List Char, c ∉ s →
    firstOf [c] s = none
  | [], _ => rfl
  | a :: s, h => by
    have ha : ¬ [c].contains a = true := by
      rw [contains_iff_mem, List.mem_singleton]
      intro hac
      exact h (by rw [hac]; exact List.mem_cons_self _ _)
    unfold firstOf
    rw [if_neg ha, firstOf_singleton_of_not_mem c s (fun hs => h (List.mem_cons_of_mem _ hs))]
    rfl

theorem firstOf_singleton_append (c : Char) (r : List Char) : ∀ s : List Char, c ∉ s →
    firstOf [c] (s ++ c :: r) = some s.length
  | [], _ => by
    have hc : [c].contains c = true := by rw [contains_iff_mem]; exact List.mem_singleton_self c
    show firstOf [c] (c :: r) = some 0
    unfold firstOf
    rw [if_pos hc]
  | a :: s, h => by
    have ha : ¬ [c].contains a = true := by
      rw [contains_iff_mem, List.mem_singleton]
      intro hac
      exact h (by rw [hac]; exact List.mem_cons_self _ _)
    show firstOf [c] (a :: (s ++ c :: r)) = some (s.length + 1)
    unfold firstOf
    rw [if_neg ha, firstOf_singleton_append c r s (fun hs => h (List.mem_cons_of_mem _ hs))]
    rfl

theorem lineBody_of_no_comment (s : List Char) (h : '#' ∉ s) : lineBody s = s := by
  unfold lineBody find
  rw [firstOf_singleton_of_not_mem '#' s h]
  rfl

theorem lineBody_append_comment (s c : List Char) (h : '#' ∉ s) :
    lineBody (s ++ '#' :: c) = s := by
  unfold lineBody find
  rw [firstOf_singleton_append '#' c s h]
  simp [substr]

theorem tokensOf_eq_maximalRuns (polygon_string : List Char) :
    tokensOf polygon_string = maximalRuns [' ', '\t'] (lineBody polygon_string) :=
  SplitString_eq_maximalRuns _ _

/-- The call depends on the line only through its tokens. -/
theorem CreatePointAndPolygonFromString_congr (stof : List Char → Except StofError ℚ)
    (s s' : List Char) (h : lineBody s = lineBody s') :
    CreatePointAndPolygonFromString stof s = CreatePointAndPolygonFromString stof s' := by
  unfold CreatePointAndPolygonFromString
  have h' : substr s 0 (find s '#') = substr s' 0 (find s' '#') := h
  simp only [h']

/-- When some token does not convert, the call throws a `runtime_error`. -/
theorem CreatePointAndPolygonFromString_of_error (stof : List Char → Except StofError ℚ)
    (polygon_string : List Char)
    (h : ∃ t ∈ tokensOf polygon_string, ∃ e, stof t = .error e) :
    ∃ what, CreatePointAndPolygonFromString stof polygon_string
      = .error (.runtime_error what) := by
  obtain ⟨what, hw⟩ := foldlM_readElement_of_error stof (tokensOf polygon_string)
    initialReaderState h
  have hw' : (SplitString (substr polygon_string 0 (find polygon_string '#'))
      [' ', '\t']).foldlM (readElement stof)
      { x := none, point_x := none, point_y := none, polygon := { x_vec_ := [], y_vec_ := [] } }
      = .error (.runtime_error what) := hw
  refine ⟨what, ?_⟩
  unfold CreatePointAndPolygonFromString
  simp only [hw']

theorem ok_of_map_eq (stof : List Char → Except StofError ℚ) :
    ∀ (tokens : List (List Char)) (vals : List ℚ), tokens.map stof = vals.map Except.ok →
      tokens.length = vals.length ∧ ∀ t ∈ tokens, ∃ v, stof t = .ok v := by
  intro tokens vals h
  constructor
  · have := congrArg List.length h
    simpa using this
  · intro t ht
    have hm : stof t ∈ tokens.map stof := List.mem_map_of_mem _ ht
    rw [h, List.mem_map] at hm
    obtain ⟨v, _, hv⟩ := hm
    exact ⟨v, hv.symm⟩

end poly

/-- C16. Parsed line layout: when every token of the comment-stripped line converts, with
values `vals`, and `CreatePointAndPolygonFromString` succeeds, the returned point is
`(vals 0, vals 1)`, the polygon has `(k - 2) / 2` vertices for `k` tokens, and vertex `j`
is `(vals (2 + 2 j), vals (3 + 2 j))`. -/
theorem parsed_line_layout (stof : List Char → Except StofError ℚ)
    (polygon_string : List Char) (vals : List ℚ) (point_x point_y : ℚ) (polygon : Polygon)
    (hconv : (tokensOf polygon_string).map stof = vals.map Except.ok)
    (hok : CreatePointAndPolygonFromString stof polygon_string
      = .ok (point_x, point_y, polygon)) :
    vals[0]? = some point_x ∧ vals[1]? = some point_y
    ∧ polygon.x_vec_.length = (vals.length - 2) / 2
    ∧ polygon.y_vec_.length = (vals.length - 2) / 2
    ∧ ∀ j : Nat, j < (vals.length - 2) / 2 →
        polygon.x_vec_[j]? = vals[2 + 2 * j]? ∧ polygon.y_vec_[j]? = vals[3 + 2 * j]? := by
  rw [CreatePointAndPolygonFromString_of_ok stof polygon_string vals hconv] at hok
  match vals, hok with
  | [], hok => cases hok
  | [_], hok => cases hok
  | px :: py :: rest, hok =>
    simp only [outcomeOfValues] at hok
    split at hok
    · cases hok
    · simp only [Except.ok.injEq, Prod.mk.injEq] at hok
      obtain ⟨rfl, rfl, rfl⟩ := hok
      refine ⟨rfl, by simp, ?_, ?_, ?_⟩
      · simp [length_pairUp]
      · simp [length_pairUp]
      · intro j hj
        have hj' : j < rest.length / 2 := by simpa using hj
        obtain ⟨h1, h2⟩ := getElem?_pairUp rest j hj'
        have e1 : 2 + 2 * j = (2 * j + 1) + 1 := by ring
        have e2 : 3 + 2 * j = ((2 * j + 1) + 1) + 1 := by ring
        simp only [e1, e2, List.getElem?_cons_succ]
        exact ⟨h1, h2⟩

/-- C17. Parser rejection: `CreatePointAndPolygonFromString` throws a `runtime_error` if
and only if some token of the comment-stripped line does not convert or the line has
fewer than 6 tokens (fewer than 2 polygon points); it throws nothing else. -/
theorem parser_rejects_iff (stof : List Char → Except StofError ℚ)
    (polygon_string : List Char) :
    ((∃ what, CreatePointAndPolygonFromString stof polygon_string
          = .error (.runtime_error what))
      ↔ ((∃ t ∈ tokensOf polygon_string, ∃ e, stof t = .error e)
          ∨ (tokensOf polygon_string).length < 6))
    ∧ (∀ f, CreatePointAndPolygonFromString stof polygon_string ≠ .error (.fault f)) := by
  rcases all_convert_or_not stof (tokensOf polygon_string) with ⟨vals, hv⟩ | hbad
  · obtain ⟨hlen, hall⟩ := ok_of_map_eq stof _ _ hv
    have hnobad : ¬ ∃ t ∈ tokensOf polygon_string, ∃ e, stof t = .error e := by
      rintro ⟨t, ht, e, he⟩
      obtain ⟨v, hv'⟩ := hall t ht
      rw [hv'] at he
      cases he
    rw [CreatePointAndPolygonFromString_of_ok stof polygon_string vals hv, hlen]
    match vals with
    | [] => exact ⟨⟨fun _ => Or.inr (by simp), fun _ => ⟨_, rfl⟩⟩, fun f h => by cases h⟩
    | [_] => exact ⟨⟨fun _ => Or.inr (by simp), fun _ => ⟨_, rfl⟩⟩, fun f h => by cases h⟩
    | px :: py :: rest =>
      simp only [List.length_cons, outcomeOfValues]
      by_cases hfew : rest.length / 2 ≤ 1
      · rw [if_pos hfew]
        exact ⟨⟨fun _ => Or.inr (by omega), fun _ => ⟨_, rfl⟩⟩, fun f h => by cases h⟩
      · rw [if_neg hfew]
        refine ⟨⟨fun h => ?_, fun h => ?_⟩, fun f h => by cases h⟩
        · obtain ⟨what, hw⟩ := h
          cases hw
        · rcases h with h | h
          · exact absurd h hnobad
          · omega
  · obtain ⟨what, hw⟩ := CreatePointAndPolygonFromString_of_error stof polygon_string hbad
    rw [hw]
    exact ⟨⟨fun _ => Or.inl hbad, fun _ => ⟨what, rfl⟩⟩, fun f h => by cases h⟩

/-- C19. Trailing comments are ignored: for a string `s` without `#` and any string `c`,
`CreatePointAndPolygonFromString` on `s ++ "#" ++ c` has the same outcome as on `s`
(the same failure, or the same point and polygon). -/
theorem trailing_comment_ignored (stof : List Char → Except StofError ℚ)
    (s c : List Char) (h : '#' ∉ s) :
    CreatePointAndPolygonFromString stof (s ++ '#' :: c)
      = CreatePointAndPolygonFromString stof s := by
  apply CreatePointAndPolygonFromString_congr
  rw [lineBody_append_comment s c h, lineBody_of_no_comment s h]

/-- C16, at the line of the test `CanMakePolygonFromString`: the point is (4,5) and the
polygon is the closed unit square of 5 vertices, vertex `j` being tokens `2 + 2 j` and
`3 + 2 j`. -/
theorem parsed_line_layout_witness :
    CreatePointAndPolygonFromString stofOnTestTokens
        "4.0 5.0 0.0 0.0 1.0 0.0 1.0 1.0 0.0 1.0 0.0 0.0".toList
      = .ok (4, 5, unitSquare)
    ∧ ∀ j : Nat, j < 5 →
        unitSquare.x_vec_[j]? = ([4, 5, 0, 0, 1, 0, 1, 1, 0, 1, 0, 0] : List ℚ)[2 + 2 * j]?
        ∧ unitSquare.y_vec_[j]? = ([4, 5, 0, 0, 1, 0, 1, 1, 0, 1, 0, 0] : List ℚ)[3 + 2 * j]? := by
  have hconv : (tokensOf "4.0 5.0 0.0 0.0 1.0 0.0 1.0 1.0 0.0 1.0 0.0 0.0".toList).map
      stofOnTestTokens = ([4, 5, 0, 0, 1, 0, 1, 1, 0, 1, 0, 0] : List ℚ).map Except.ok := by
    rw [tokensOf_eq_maximalRuns]
    rfl
  have heval : CreatePointAndPolygonFromString stofOnTestTokens
      "4.0 5.0 0.0 0.0 1.0 0.0 1.0 1.0 0.0 1.0 0.0 0.0".toList = .ok (4, 5, unitSquare) := by
    rw [CreatePointAndPolygonFromString_of_ok _ _ _ hconv]
    rfl
  exact ⟨heval, (parsed_line_layout stofOnTestTokens _ _ 4 5 unitSquare hconv heval).2.2.2.2⟩

/-- C17, at the lines of the tests `FailToMakePolygonWithInsufficientGeometry` and
`FailToMakePolygonFromStringWithBadCharacters`: both are rejected. -/
theorem parser_rejects_iff_witness :
    (∃ what, CreatePointAndPolygonFromString stofOnTestTokens "0.0 0.0 1.0 0.0".toList
        = .error (.runtime_error what))
    ∧ (∃ what, CreatePointAndPolygonFromString stofOnTestTokens
          "0.0 0.0 1.0 0.0 1.0 I_Am_Not_A_float 1.0 0.0 1.0 0.0".toList
        = .error (.runtime_error what)) :=
  ⟨(parser_rejects_iff stofOnTestTokens "0.0 0.0 1.0 0.0".toList).1.2
      (Or.inr (by rw [tokensOf_eq_maximalRuns]; decide)),
    (parser_rejects_iff stofOnTestTokens
        "0.0 0.0 1.0 0.0 1.0 I_Am_Not_A_float 1.0 0.0 1.0 0.0".toList).1.2
      (Or.inl ⟨"I_Am_Not_A_float".toList, by rw [tokensOf_eq_maximalRuns]; decide,
        StofError.invalid_argument, rfl⟩)⟩

/-- C18 (the code at a failing input). The line `0.0 0.0 1.0 0.0 1.0 1.0 1.0 0.0 1.0`
(the line of the test `HandlesUnpairedValues` with the token that is not a number
replaced by `1.0`) has 7 polygon tokens, so the last `x` value `1.0` has no `y`;
`CreatePointAndPolygonFromString` does not throw: it returns the point (0,0) and the
three vertices (1,0),(1,1),(1,0), and drops the unpaired value. -/
theorem unpaired_value_dropped :
    CreatePointAndPolygonFromString stofOnTestTokens
        "0.0 0.0 1.0 0.0 1.0 1.0 1.0 0.0 1.0".toList
      = .ok (0, 0, { x_vec_ := [1, 1, 1], y_vec_ := [0, 1, 0] }) := by
  have hconv : (tokensOf "0.0 0.0 1.0 0.0 1.0 1.0 1.0 0.0 1.0".toList).map stofOnTestTokens
      = ([0, 0, 1, 0, 1, 1, 1, 0, 1] : List ℚ).map Except.ok := by
    rw [tokensOf_eq_maximalRuns]
    rfl
  rw [CreatePointAndPolygonFromString_of_ok _ _ _ hconv]
  rfl

/-- C19, at the line of the test `CanMakePolyFromStringWithTrailingComment`: the line
with its comment is read as the line without it, and gives the point (4,5) and the unit
square. -/
theorem trailing_comment_ignored_witness :
    CreatePointAndPolygonFromString stofOnTestTokens
        ("4.0 5.0 0.0 0.0 1.0 0.0 1.0 1.0 0.0 1.0 0.0 0.0 ".toList
          ++ '#' :: " I have a trailing comment. :)".toList)
      = CreatePointAndPolygonFromString stofOnTestTokens
          "4.0 5.0 0.0 0.0 1.0 0.0 1.0 1.0 0.0 1.0 0.0 0.0 ".toList
    ∧ "4.0 5.0 0.0 0.0 1.0 0.0 1.0 1.0 0.0 1.0 0.0 0.0 # I have a trailing comment. :)".toList
      = "4.0 5.0 0.0 0.0 1.0 0.0 1.0 1.0 0.0 1.0 0.0 0.0 ".toList
          ++ '#' :: " I have a trailing comment. :)".toList
    ∧ CreatePointAndPolygonFromString stofOnTestTokens
          "4.0 5.0 0.0 0.0 1.0 0.0 1.0 1.0 0.0 1.0 0.0 0.0 ".toList
      = .ok (4, 5, unitSquare) := by
  refine ⟨trailing_comment_ignored stofOnTestTokens _ _ (by decide), by decide, ?_⟩
  have hconv : (tokensOf "4.0 5.0 0.0 0.0 1.0 0.0 1.0 1.0 0.0 1.0 0.0 0.0 ".toList).map
      stofOnTestTokens = ([4, 5, 0, 0, 1, 0, 1, 1, 0, 1, 0, 0] : List ℚ).map Except.ok := by
    rw [tokensOf_eq_maximalRuns]
    rfl
  rw [CreatePointAndPolygonFromString_of_ok _ _ _ hconv]
  rfl

/-- C20, at the line of the test `CanMakePolygonFromStringWithManyDelimiters`: the 12
numeric tokens. -/
theorem SplitString_tokens_witness :
    SplitString "4.0  5.0  0.0\t0.0   1.0  0.0 1.0  1.0  0.0\t 1.0 0.0 0.0  ".toList [' ', '\t']
      = ["4.0", "5.0", "0.0", "0.0", "1.0", "0.0", "1.0", "1.0", "0.0", "1.0", "0.0",
          "0.0"].map String.toList :=
  (SplitString_tokens _ _).1.trans (by decide)

namespace winding_number

/-! ## Outcomes of the call -/

/-- The tail of the call returns a value or the insufficient-geometry failure. -/
theorem finish_cases (self : IWindingNumberAlgorithm) (s : LoopState) :
    (∃ n : Int, finish self s = .ok (some n, self))
    ∨ finish self s = .ok (none, { self with error_message_ :=
        "Insufficient geometry in polygon for a meaningful result" }) := by
  unfold finish
  split
  · exact Or.inr rfl
  · exact Or.inl ⟨_, rfl⟩

end winding_number

/-- C21. No out-of-range vertex access: on a non-empty polygon with coordinate sequences
of equal length, vertex 0 and the vertex read at every loop index `i` with `1 <= i < size`
(index `i`, or 0 when `i = size - 1`) are in range, and the call ends in exactly one of: a
returned integer (the algorithm object unchanged), or no result with one of the two
diagnostic messages set; it never raises. -/
theorem no_out_of_range_access (self : IWindingNumberAlgorithm) (x y : ℚ) (polygon : Polygon)
    (hlen : polygon.x_vec_.length = polygon.y_vec_.length)
    (hne : verticesOf polygon ≠ []) :
    (∃ a, ExtractPoint polygon 0 = .ok a)
    ∧ (∀ i : Nat, 1 ≤ i → i < polygon.x_vec_.length →
        ∃ b, ExtractPoint polygon (if i = polygon.x_vec_.length - 1 then 0 else i) = .ok b)
    ∧ ((∃ n : Int, CalculateWindingNumber2D self x y polygon = .ok (some n, self))
      ∨ CalculateWindingNumber2D self x y polygon
          = .ok (none, { self with error_message_ := "Input polygon is not closed." })
      ∨ CalculateWindingNumber2D self x y polygon
          = .ok (none, { self with error_message_ :=
              "Insufficient geometry in polygon for a meaningful result" })) := by
  obtain ⟨v0, rest, rfl⟩ := polygon_cases polygon hlen hne
  refine ⟨⟨_, ExtractPoint_polygonOf (v0 :: rest) 0 (by simp)⟩, ?_, ?_⟩
  · intro i _ hi
    have hi' : i < (v0 :: rest).length := by simpa [polygonOf] using hi
    by_cases hlast : i = (polygonOf (v0 :: rest)).x_vec_.length - 1
    · rw [if_pos hlast]
      exact ⟨_, ExtractPoint_polygonOf (v0 :: rest) 0 (by simp)⟩
    · rw [if_neg hlast]
      exact ⟨_, ExtractPoint_polygonOf (v0 :: rest) i hi'⟩
  · rw [CalculateWindingNumber2D_polygonOf]
    split
    · exact Or.inr (Or.inl rfl)
    · rcases finish_cases self (List.foldl (loopBody self.tolerance_ { x := x, y := y })
        (initialState { x := x, y := y } v0) (closeWith v0 rest)) with h | h
      · exact Or.inl h
      · exact Or.inr (Or.inr h)

/-- C21, at the unit square, the point (0,0) and tolerance 0: the call ends in one of the
three outcomes, here the value 1. -/
theorem no_out_of_range_access_witness :
    ((∃ n : Int, CalculateWindingNumber2D IWindingNumberAlgorithm.Create 0 0 unitSquare
          = .ok (some n, IWindingNumberAlgorithm.Create))
      ∨ CalculateWindingNumber2D IWindingNumberAlgorithm.Create 0 0 unitSquare
          = .ok (none, { IWindingNumberAlgorithm.Create with
              error_message_ := "Input polygon is not closed." })
      ∨ CalculateWindingNumber2D IWindingNumberAlgorithm.Create 0 0 unitSquare
          = .ok (none, { IWindingNumberAlgorithm.Create with error_message_ :=
              "Insufficient geometry in polygon for a meaningful result" }))
    ∧ CalculateWindingNumber2D IWindingNumberAlgorithm.Create 0 0 unitSquare
        = .ok (some 1, IWindingNumberAlgorithm.Create) := by
  refine ⟨(no_out_of_range_access IWindingNumberAlgorithm.Create 0 0 unitSquare rfl
    (by simp [verticesOf, unitSquare])).2.2, ?_⟩
  rw [show unitSquare = polygonOf [⟨0, 0⟩, ⟨1, 0⟩, ⟨1, 1⟩, ⟨0, 1⟩, ⟨0, 0⟩] from rfl,
    CalculateWindingNumber2D_polygonOf]
  norm_num [closeWith, List.foldl, loopBody, initialState, finish, WithinTolerance,
    FuzzyEquals, CrossProduct, default_max_delta, IWindingNumberAlgorithm.Create, abs_le]

namespace winding_number

/-! ## Translation -/

theorem CrossProduct_translate (dx dy : ℚ) (a b p : Point) :
    CrossProduct (translate dx dy a) (translate dx dy b) (translate dx dy p)
      = CrossProduct a b p := by
  simp only [CrossProduct, translate]
  ring

theorem WithinTolerance_translate (tolerance dx dy : ℚ) (a b : Point) :
    WithinTolerance tolerance (translate dx dy a) (translate dx dy b)
      = WithinTolerance tolerance a b := by
  simp only [WithinTolerance, translate, add_sub_add_right_eq_sub]

theorem loopBody_translate (tolerance dx dy : ℚ) (p : Point) (s : LoopState) (b : Point) :
    loopBody tolerance (translate dx dy p) (translateState dx dy s) (translate dx dy b)
      = translateState dx dy (loopBody tolerance p s b) := by
  unfold loopBody
  simp only [translateState, WithinTolerance_translate, CrossProduct_translate]
  by_cases hw : WithinTolerance tolerance s.a b = true
  · simp only [hw, if_true]
  · simp only [hw, Bool.false_eq_true, if_false]
    simp only [translate, FuzzyEquals, add_sub_add_right_eq_sub, add_le_add_iff_right,
      add_lt_add_iff_right]

theorem foldl_loopBody_translate (tolerance dx dy : ℚ) (p : Point) :
    ∀ (bs : List Point) (s : LoopState),
      List.foldl (loopBody tolerance (translate dx dy p)) (translateState dx dy s)
          (bs.map (translate dx dy))
        = translateState dx dy (List.foldl (loopBody tolerance p) s bs)
  | [], _ => rfl
  | b :: bs, s => by
    rw [List.map_cons, List.foldl_cons, List.foldl_cons, loopBody_translate]
    exact foldl_loopBody_translate tolerance dx dy p bs (loopBody tolerance p s b)

theorem closeWith_map_translate (dx dy : ℚ) (v0 : Point) : ∀ rest : List Point,
    closeWith (translate dx dy v0) (rest.map (translate dx dy))
      = (closeWith v0 rest).map (translate dx dy)
  | [] => rfl
  | [_] => rfl
  | b :: c :: rest => by
    have ih := closeWith_map_translate dx dy v0 (c :: rest)
    simp only [List.map_cons, closeWith] at ih ⊢
    rw [ih]

theorem initialState_translate (dx dy : ℚ) (p v0 : Point) :
    initialState (translate dx dy p) (translate dx dy v0)
      = translateState dx dy (initialState p v0) := by
  simp only [initialState, translateState, translate, add_le_add_iff_right]

theorem finish_translateState (self : IWindingNumberAlgorithm) (dx dy : ℚ) (s : LoopState) :
    finish self (translateState dx dy s) = finish self s := rfl

theorem polygonOf_map_translate (dx dy : ℚ) (vs : List Point) :
    polygonOf (vs.map (translate dx dy))
      = { x_vec_ := (polygonOf vs).x_vec_.map (· + dx),
          y_vec_ := (polygonOf vs).y_vec_.map (· + dy) } := by
  simp [polygonOf, translate, Function.comp_def]

theorem getLast_map_translate (dx dy : ℚ) (vs : List Point) (h : vs ≠ []) :
    (vs.map (translate dx dy)).getLast (by simpa using h) = translate dx dy (vs.getLast h) := by
  rw [List.getLast_map]

/-! ## Exact duplicates -/

/-- A vertex read twice in a row is skipped the second time. -/
theorem loopBody_loopBody_same (tolerance : ℚ) (p : Point) (s : LoopState) (d : Point)
    (htol : 0 ≤ tolerance) :
    loopBody tolerance p (loopBody tolerance p s d) d = loopBody tolerance p s d := by
  by_cases hw : WithinTolerance tolerance s.a d = true
  · rw [loopBody_skip tolerance p s d hw, loopBody_skip tolerance p s d hw]
  · apply loopBody_skip
    have ha : (loopBody tolerance p s d).a = d := by
      unfold loopBody
      rw [if_neg hw]
    rw [ha]
    exact WithinTolerance_self tolerance d htol

theorem foldl_loopBody_duplicate (tolerance : ℚ) (p : Point) (htol : 0 ≤ tolerance)
    (s : LoopState) (l1 : List Point) (d : Point) (l2 : List Point) :
    List.foldl (loopBody tolerance p) s (l1 ++ d :: d :: l2)
      = List.foldl (loopBody tolerance p) s (l1 ++ d :: l2) := by
  rw [List.foldl_append, List.foldl_append, List.foldl_cons, List.foldl_cons, List.foldl_cons,
    loopBody_loopBody_same tolerance p _ d htol]

theorem foldl_loopBody_initial_cons (tolerance : ℚ) (p v0 : Point) (htol : 0 ≤ tolerance)
    (bs : List Point) :
    List.foldl (loopBody tolerance p) (initialState p v0) (v0 :: bs)
      = List.foldl (loopBody tolerance p) (initialState p v0) bs := by
  have h : WithinTolerance tolerance (initialState p v0).a v0 = true := by
    show WithinTolerance tolerance v0 v0 = true
    exact WithinTolerance_self tolerance v0 htol
  rw [List.foldl_cons, loopBody_skip tolerance p (initialState p v0) v0 h]

theorem insertCopy_split {α : Type} (j : Nat) (l : List α) (hj : j < l.length) :
    ∃ (l1 : List α) (d : α) (l2 : List α),
      l = l1 ++ d :: l2 ∧ insertCopy j l = l1 ++ d :: d :: l2 := by
  have h1 : l.take (j + 1) = l.take j ++ [l[j]] := by
    rw [List.take_succ, List.getElem?_eq_getElem hj]
    rfl
  have h2 : l.drop j = l[j] :: l.drop (j + 1) := List.drop_eq_getElem_cons hj
  refine ⟨l.take j, l[j], l.drop (j + 1), ?_, ?_⟩
  · rw [← h2, List.take_append_drop]
  · unfold insertCopy
    rw [h1, h2, List.append_assoc]
    rfl

theorem polygonOf_insertCopy (j : Nat) (vs : List Point) :
    polygonOf (insertCopy j vs)
      = { x_vec_ := insertCopy j (polygonOf vs).x_vec_,
          y_vec_ := insertCopy j (polygonOf vs).y_vec_ } := by
  simp [polygonOf, insertCopy, List.map_take, List.map_drop]

theorem WithinTolerance_of_neg (tolerance : ℚ) (a b : Point) (h : tolerance < 0) :
    WithinTolerance tolerance a b = false := by
  rw [← Bool.not_eq_true]
  intro hw
  exact absurd (tolerance_nonneg_of_within tolerance a b hw) (not_le.mpr h)

end winding_number

/-- C23. Translation invariance, in exact arithmetic: for a non-empty polygon, a point
`(x, y)`, any tolerance and any offset `(dx, dy)`, `CalculateWindingNumber2D` on the point
`(x + dx, y + dy)` and the polygon with every vertex shifted by `(dx, dy)` returns the
same result as on the original point and polygon. -/
theorem translation_invariant (self : IWindingNumberAlgorithm) (x y dx dy : ℚ)
    (polygon : Polygon)
    (hlen : polygon.x_vec_.length = polygon.y_vec_.length)
    (hne : verticesOf polygon ≠ []) :
    CalculateWindingNumber2D self (x + dx) (y + dy)
        { x_vec_ := polygon.x_vec_.map (· + dx), y_vec_ := polygon.y_vec_.map (· + dy) }
      = CalculateWindingNumber2D self x y polygon := by
  obtain ⟨v0, rest, rfl⟩ := polygon_cases polygon hlen hne
  rw [← polygonOf_map_translate, List.map_cons, CalculateWindingNumber2D_polygonOf,
    CalculateWindingNumber2D_polygonOf]
  have hlast : (translate dx dy v0 :: rest.map (translate dx dy)).getLast
      (List.cons_ne_nil _ _)
      = translate dx dy ((v0 :: rest).getLast (List.cons_ne_nil _ _)) :=
    getLast_map_translate dx dy (v0 :: rest) (List.cons_ne_nil _ _)
  have hp : ({ x := x + dx, y := y + dy } : Point) = translate dx dy { x := x, y := y } := rfl
  rw [hlast, WithinTolerance_translate, hp, closeWith_map_translate, initialState_translate,
    foldl_loopBody_translate, finish_translateState]

/-- C23, at the unit square and the point (1/2, 1/2) with tolerance 0, moved by (3, -2). -/
theorem translation_invariant_witness :
    CalculateWindingNumber2D IWindingNumberAlgorithm.Create (1 / 2 + 3) (1 / 2 + -2)
        { x_vec_ := unitSquare.x_vec_.map (· + 3), y_vec_ := unitSquare.y_vec_.map (· + -2) }
      = CalculateWindingNumber2D IWindingNumberAlgorithm.Create (1 / 2) (1 / 2) unitSquare :=
  translation_invariant IWindingNumberAlgorithm.Create (1 / 2) (1 / 2) 3 (-2) unitSquare rfl
    (by simp [verticesOf, unitSquare])

/-- C24. Exact duplicate vertices are collapsed: for any tolerance, any test point, a
non-empty polygon whose last vertex equals its first exactly and any vertex position `j`,
inserting a copy of vertex `j` right after it leaves the result of
`CalculateWindingNumber2D` unchanged. -/
theorem duplicate_vertex_collapsed (self : IWindingNumberAlgorithm) (x y : ℚ)
    (polygon : Polygon) (j : Nat)
    (hlen : polygon.x_vec_.length = polygon.y_vec_.length)
    (hne : verticesOf polygon ≠ [])
    (hclosed : (verticesOf polygon).getLast? = (verticesOf polygon).head?)
    (hj : j < (verticesOf polygon).length) :
    CalculateWindingNumber2D self x y
        { x_vec_ := insertCopy j polygon.x_vec_, y_vec_ := insertCopy j polygon.y_vec_ }
      = CalculateWindingNumber2D self x y polygon := by
  obtain ⟨v0, rest, rfl⟩ := polygon_cases polygon hlen hne
  rw [verticesOf_polygonOf] at hclosed hj
  rw [← polygonOf_insertCopy]
  -- the polygon with the copy is `v0 :: rest'`, and it ends in `v0` as well
  obtain ⟨rest', hins⟩ : ∃ rest', insertCopy j (v0 :: rest) = v0 :: rest' :=
    ⟨rest.take j ++ (v0 :: rest).drop j, rfl⟩
  have hj' : j < rest.length + 1 := hj
  have hrest' : rest' ≠ [] := by
    intro h
    have := congrArg List.length hins
    rw [h] at this
    simp only [insertCopy, List.length_append, List.length_take, List.length_drop,
      List.length_cons, List.length_nil] at this
    omega
  have hlast_vs : (v0 :: rest).getLast (List.cons_ne_nil _ _) = v0 := by
    rw [List.getLast?_eq_getLast _ (List.cons_ne_nil _ _), List.head?_cons,
      Option.some.injEq] at hclosed
    exact hclosed
  have hdrop : (v0 :: rest).drop j ≠ [] := by
    intro h
    have := congrArg List.length h
    simp only [List.length_drop, List.length_nil, List.length_cons] at this
    omega
  have hlast_ins : (v0 :: rest').getLast (List.cons_ne_nil _ _) = v0 := by
    have h1 : (v0 :: rest').getLast? = some v0 := by
      rw [← hins, insertCopy, List.getLast?_append_of_ne_nil _ hdrop,
        List.getLast?_drop, if_neg (by simp only [List.length_cons]; omega),
        List.getLast?_eq_getLast _ (List.cons_ne_nil _ _), hlast_vs]
    rw [List.getLast?_eq_getLast _ (List.cons_ne_nil _ _)] at h1
    exact Option.some.inj h1
  rw [hins, CalculateWindingNumber2D_polygonOf, CalculateWindingNumber2D_polygonOf, hlast_ins,
    hlast_vs]
  by_cases htol : 0 ≤ self.tolerance_
  · rw [WithinTolerance_self _ _ htol]
    simp only [Bool.true_eq_false, if_false]
    have hcw' : closeWith v0 rest' = rest' :=
      closeWith_of_getLast v0 rest' hrest'
        (by rw [← List.getLast_cons hrest']; exact hlast_ins)
    have hcw : closeWith v0 rest = rest := by
      cases rest with
      | nil => rfl
      | cons b rest =>
        exact closeWith_of_getLast v0 (b :: rest) (List.cons_ne_nil _ _)
          (by rw [← List.getLast_cons (List.cons_ne_nil _ _)]; exact hlast_vs)
    obtain ⟨l1, d, l2, hsplit, hsplit'⟩ := insertCopy_split j (v0 :: rest) hj
    rw [hcw, hcw',
      ← foldl_loopBody_initial_cons self.tolerance_ { x := x, y := y } v0 htol rest',
      ← foldl_loopBody_initial_cons self.tolerance_ { x := x, y := y } v0 htol rest,
      ← hins, hsplit', foldl_loopBody_duplicate _ _ htol, ← hsplit]
  · rw [WithinTolerance_of_neg _ _ _ (not_le.mp htol), if_pos rfl, if_pos rfl]

/-- C24, at the unit square, the point (1/2, 1/2), tolerance 0 and `j = 2`: the square
with the vertex (1,1) doubled gives the same result. -/
theorem duplicate_vertex_collapsed_witness :
    CalculateWindingNumber2D IWindingNumberAlgorithm.Create (1 / 2) (1 / 2)
        { x_vec_ := [0, 1, 1, 1, 0, 0], y_vec_ := [0, 0, 1, 1, 1, 0] }
      = CalculateWindingNumber2D IWindingNumberAlgorithm.Create (1 / 2) (1 / 2) unitSquare :=
  duplicate_vertex_collapsed IWindingNumberAlgorithm.Create (1 / 2) (1 / 2) unitSquare 2 rfl
    (by simp [verticesOf, unitSquare]) (by simp [verticesOf, unitSquare])
    (by simp [verticesOf, unitSquare])

/-! ## Binary32 arithmetic

The facts about `ieee.F32` that the properties below need. -/

namespace ieee
namespace F32

theorem ofExact_zero_f32 (e : Int) : ofExact 0 e = zero := by
  simp [ofExact, zero]

theorem sub_self_of_isFinite_f32 (x : F32) (h : x.isFinite = true) : sub x x = zero := by
  cases x with
  | finite m e => simp [sub, ofExact_zero_f32]
  | inf s => simp [isFinite] at h
  | nan => simp [isFinite] at h

theorem abs_zero_f32 : abs zero = zero := by
  simp [abs, zero]

theorem sub_nan_left_f32 (x : F32) : sub .nan x = .nan := by
  cases x <;> rfl

theorem mul_nan_left_f32 (x : F32) : mul .nan x = .nan := by
  cases x <;> rfl

theorem sub_nan_right_f32 (x : F32) : sub x .nan = .nan := by
  cases x <;> rfl

theorem mul_nan_right_f32 (x : F32) : mul x .nan = .nan := by
  cases x <;> rfl

theorem le_nan_right_f32 (x : F32) : le x .nan = false := by
  cases x <;> rfl

theorem lt_nan_right_f32 (x : F32) : lt x .nan = false := by
  cases x <;> rfl

theorem mul_zero_left_f32 (x : F32) (h : x.isFinite = true) : mul zero x = zero := by
  cases x with
  | finite m e => simp [mul, zero, ofExact_zero_f32]
  | inf s => simp [isFinite] at h
  | nan => simp [isFinite] at h

theorem mul_zero_right_f32 (x : F32) (h : x.isFinite = true) : mul x zero = zero := by
  cases x with
  | finite m e => simp [mul, zero, ofExact_zero_f32]
  | inf s => simp [isFinite] at h
  | nan => simp [isFinite] at h

theorem le_of_lt_f32 (x y : F32) (h : lt x y = true) : le x y = true := by
  cases x <;> cases y <;> simp_all [lt, le]
  exact Int.le_of_lt h

/-- `0 <= t` follows from `|d| <= t`. -/
theorem le_zero_of_abs_le_f32 (d t : F32) (h : le (abs d) t = true) : le zero t = true := by
  cases d with
  | nan => cases t <;> simp [abs, le] at h
  | inf s =>
    cases t with
    | nan => simp [abs, le] at h
    | inf t => simp [abs, le] at h; simp [zero, le, h]
    | finite m e => simp [abs, le] at h
  | finite m e =>
    cases t with
    | nan => simp [abs, le] at h
    | inf t => simp [abs, le] at h; simp [zero, le, h]
    | finite m2 e2 =>
      simp only [abs, le, decide_eq_true_eq, zero] at h ⊢
      have h1 : (0 : Int) ≤ |m| * 2 ^ (e - min e e2).toNat :=
        mul_nonneg (abs_nonneg m) (by positivity)
      have h2 : (0 : Int) ≤ m2 * 2 ^ (e2 - min e e2).toNat := le_trans h1 h
      have h3 : (0 : Int) ≤ m2 := by
        by_contra hneg
        have : m2 * 2 ^ (e2 - min e e2).toNat < 0 :=
          mul_neg_of_neg_of_pos (not_le.mp hneg) (by positivity)
        omega
      simp only [zero_mul]
      exact mul_nonneg h3 (by positivity)

theorem not_le_iff_lt_f32 (x y : F32) (hx : x ≠ .nan) (hy : y ≠ .nan) :
    le x y = false ↔ lt y x = true := by
  cases x with
  | nan => exact absurd rfl hx
  | inf s =>
    cases y with
    | nan => exact absurd rfl hy
    | inf t => cases s <;> cases t <;> simp [le, lt]
    | finite m e => cases s <;> simp [le, lt]
  | finite m e =>
    cases y with
    | nan => exact absurd rfl hy
    | inf t => cases t <;> simp [le, lt]
    | finite m2 e2 =>
      simp only [le, lt, decide_eq_false_iff_not, decide_eq_true_eq, not_le, min_comm e2 e]

theorem lt_imp_not_le_f32 (x y : F32) (h : lt y x = true) : le x y = false := by
  have hx : x ≠ .nan := by rintro rfl; simp [lt_nan_right_f32] at h
  have hy : y ≠ .nan := by rintro rfl; simp [lt] at h
  exact (not_le_iff_lt_f32 x y hx hy).2 h

theorem abs_ofExact_neg_f32 (m e : Int) : abs (ofExact (-m) e) = abs (ofExact m e) := by
  by_cases hm : m = 0
  · subst hm; rfl
  · unfold ofExact
    simp only [neg_eq_zero, hm, if_false, Int.natAbs_neg]
    split_ifs <;> simp [abs, abs_mul]

theorem abs_sub_comm_f32 (a b : F32) : abs (sub a b) = abs (sub b a) := by
  cases a with
  | nan => cases b <;> rfl
  | inf s =>
    cases b with
    | nan => rfl
    | inf t => cases s <;> cases t <;> rfl
    | finite m e => rfl
  | finite m e =>
    cases b with
    | nan => rfl
    | inf t => rfl
    | finite m2 e2 =>
      simp only [sub, min_comm e2 e]
      rw [← abs_ofExact_neg_f32, neg_sub]

theorem pow_halvings_le_f32 : ∀ (fuel n : Nat), n ≠ 0 → 2 ^ halvings fuel n ≤ n
  | 0, n, h => by simp [halvings]; omega
  | fuel + 1, n, h => by
    unfold halvings
    split_ifs with h2
    · simp; omega
    · have hn : n / 2 ≠ 0 := by omega
      have ih := pow_halvings_le_f32 fuel (n / 2) hn
      rw [pow_succ]
      omega

theorem pow_log2_le_f32 (n : Nat) (h : n ≠ 0) : 2 ^ log2 n ≤ n :=
  pow_halvings_le_f32 n n h

/-- A non-zero number whose last bit is at `2^-149` or above does not round to zero. -/
theorem significand_ne_zero_f32 (n : Nat) (e : Int) (hn : n ≠ 0) (he : -149 ≤ e) :
    significand n e ≠ 0 := by
  unfold significand
  simp only []
  have hlog := pow_log2_le_f32 n hn
  split_ifs with h1 h2
  · exact Nat.mul_ne_zero hn (by positivity)
  · have hq : quantum n e = e + (log2 n + 1) - 24 := by
      unfold quantum at h1 ⊢
      rcases max_cases (e + ((log2 n : Int) + 1) - 24) (-149) with ⟨h, _⟩ | ⟨h, _⟩
      · exact h
      · rw [h] at h1; omega
    have hs : (quantum n e - e).toNat + 23 = log2 n := by
      rw [hq] at h1 ⊢
      omega
    have hk0 : 2 ^ 23 ≤ n / 2 ^ (quantum n e - e).toNat := by
      rw [Nat.le_div_iff_mul_le (by positivity), ← pow_add, Nat.add_comm, hs]
      exact hlog
    omega
  · have hq : quantum n e = e + (log2 n + 1) - 24 := by
      unfold quantum at h1 ⊢
      rcases max_cases (e + ((log2 n : Int) + 1) - 24) (-149) with ⟨h, _⟩ | ⟨h, _⟩
      · exact h
      · rw [h] at h1; omega
    have hs : (quantum n e - e).toNat + 23 = log2 n := by
      rw [hq] at h1 ⊢
      omega
    have hk0 : 2 ^ 23 ≤ n / 2 ^ (quantum n e - e).toNat := by
      rw [Nat.le_div_iff_mul_le (by positivity), ← pow_add, Nat.add_comm, hs]
      exact hlog
    omega

theorem le_abs_ofExact_zero_f32 (m e : Int) (hm : m ≠ 0) (he : -149 ≤ e) :
    le (abs (ofExact m e)) zero = false := by
  have hk := significand_ne_zero_f32 m.natAbs e (Int.natAbs_ne_zero.mpr hm) he
  unfold ofExact
  simp only [hm, hk, if_false]
  by_cases h1 : 0 ≤ quantum m.natAbs e
      ∧ 2 ^ 128 ≤ significand m.natAbs e * 2 ^ (quantum m.natAbs e).toNat
  · rw [if_pos h1]; rfl
  · rw [if_neg h1]
    have hdiv : 0 < significand m.natAbs e / twoPart (significand m.natAbs e) := by
      apply Nat.div_pos
      · exact Nat.le_of_dvd (Nat.pos_of_ne_zero hk) (Nat.gcd_dvd_left _ _)
      · exact Nat.gcd_pos_of_pos_left _ (Nat.pos_of_ne_zero hk)
    have hsign : (if m < 0 then (-1 : Int) else 1) ≠ 0 := by
      split_ifs <;> decide
    have hne : ((significand m.natAbs e / twoPart (significand m.natAbs e) : Nat) : Int) ≠ 0 := by
      exact_mod_cast Nat.pos_iff_ne_zero.mp hdiv
    have hpos : (0 : Int)
        < |(if m < 0 then -1 else 1)
            * ((significand m.natAbs e / twoPart (significand m.natAbs e) : Nat) : Int)| :=
      abs_pos.mpr (mul_ne_zero hsign hne)
    simp only [abs, le, zero, decide_eq_false_iff_not, not_le, zero_mul]
    exact mul_pos hpos (by positivity)

theorem isValid_finite_f32 (m e : Int) (h : isValid (.finite m e) = true) :
    (m = 0 ∧ e = 0) ∨ (m % 2 = 1 ∧ -149 ≤ e) := by
  simp only [isValid, Bool.or_eq_true, Bool.and_eq_true, decide_eq_true_eq] at h
  rcases h with h | h
  · exact Or.inl h
  · exact Or.inr ⟨h.1.1.1, h.1.2⟩

theorem exponent_ge_of_isValid_f32 (m e : Int) (h : isValid (.finite m e) = true) :
    -149 ≤ e := by
  rcases isValid_finite_f32 m e h with h | h <;> omega

/-- Two terms in lowest terms with the same value are the same term. -/
theorem eq_of_scaled_eq_f32 (m1 e1 m2 e2 : Int) (d : Nat)
    (h1 : isValid (.finite m1 e1) = true) (h2 : isValid (.finite m2 e2) = true)
    (hd : e2 = e1 + d) (h : m1 = m2 * 2 ^ d) : m1 = m2 ∧ e1 = e2 := by
  cases d with
  | zero => simp at hd h; exact ⟨h, hd.symm⟩
  | succ d =>
    exfalso
    have heven : m1 % 2 = 0 := by
      rw [h, pow_succ, ← mul_assoc]
      exact Int.mul_emod_left _ _
    rcases isValid_finite_f32 m1 e1 h1 with ⟨hm1, he1⟩ | ⟨hm1, _⟩
    · have hm2 : m2 = 0 := by
        rw [hm1] at h
        rcases mul_eq_zero.mp h.symm with h0 | h0
        · exact h0
        · exact absurd h0 (by positivity)
      rcases isValid_finite_f32 m2 e2 h2 with ⟨_, he2⟩ | ⟨hm2', _⟩
      · omega
      · omega
    · omega

theorem eq_of_aligned_eq_f32 (m1 e1 m2 e2 : Int)
    (h1 : isValid (.finite m1 e1) = true) (h2 : isValid (.finite m2 e2) = true)
    (h : m1 * 2 ^ (e1 - min e1 e2).toNat - m2 * 2 ^ (e2 - min e1 e2).toNat = 0) :
    m1 = m2 ∧ e1 = e2 := by
  rcases le_total e1 e2 with hle | hle
  · rw [min_eq_left hle, sub_self, Int.toNat_zero, pow_zero, mul_one] at h
    exact eq_of_scaled_eq_f32 m1 e1 m2 e2 (e2 - e1).toNat h1 h2 (by omega) (by linarith)
  · rw [min_eq_right hle, sub_self, Int.toNat_zero, pow_zero, mul_one] at h
    have := eq_of_scaled_eq_f32 m2 e2 m1 e1 (e1 - e2).toNat h2 h1 (by omega) (by linarith)
    exact ⟨this.1.symm, this.2.symm⟩

/-- On binary32 values, `std::abs(x - y) <= 0.f` holds exactly when `x` and `y` are the
same finite value: a difference of two distinct floats does not round to zero, and a
difference that involves an infinity or a NaN is an infinity or a NaN. -/
theorem le_abs_sub_zero_iff_f32 (x y : F32) (hx : x.isValid = true) (hy : y.isValid = true) :
    le (abs (sub x y)) zero = true ↔ (x = y ∧ x.isFinite = true) := by
  cases x with
  | nan => cases y <;> simp [sub, abs, le, isFinite]
  | inf s =>
    cases y with
    | nan => simp [sub, abs, le, isFinite]
    | inf t => by_cases h : s = t <;> simp [sub, abs, le, isFinite, zero, h]
    | finite m e => simp [sub, abs, le, isFinite, zero]
  | finite m e =>
    cases y with
    | nan => simp [sub, abs, le]
    | inf t => simp [sub, abs, le, zero]
    | finite m2 e2 =>
      constructor
      · intro h
        have hzero : m * 2 ^ (e - min e e2).toNat - m2 * 2 ^ (e2 - min e e2).toNat = 0 := by
          by_contra hne
          have hmin : -149 ≤ min e e2 :=
            le_min (exponent_ge_of_isValid_f32 m e hx) (exponent_ge_of_isValid_f32 m2 e2 hy)
          have := le_abs_ofExact_zero_f32 _ _ hne hmin
          simp only [sub] at h
          rw [this] at h
          exact absurd h (by decide)
        obtain ⟨hm, he⟩ := eq_of_aligned_eq_f32 m e m2 e2 hx hy hzero
        exact ⟨by rw [hm, he], rfl⟩
      · rintro ⟨hxy, _⟩
        rw [← hxy, sub_self_of_isFinite_f32 (.finite m e) rfl, abs_zero_f32]
        decide

end F32
end ieee

/-! ## The loop over binary32: the indexed loop and the vertex sequence -/

namespace ieee

theorem polygonOf_verticesOf_f32 (polygon : Polygon)
    (h : polygon.x_vec_.length = polygon.y_vec_.length) :
    polygonOf (verticesOf polygon) = polygon := by
  obtain ⟨xs, ys⟩ := polygon
  simp only [polygonOf, verticesOf] at *
  congr 1
  · induction xs generalizing ys with
    | nil => simp
    | cons a xs ih =>
      cases ys with
      | nil => simp at h
      | cons b ys => simp at h; simp [ih ys h]
  · induction xs generalizing ys with
    | nil => cases ys with
      | nil => simp
      | cons b ys => simp at h
    | cons a xs ih =>
      cases ys with
      | nil => simp at h
      | cons b ys => simp at h; simp [ih ys h]

theorem verticesOf_polygonOf_f32 (vs : List Point) : verticesOf (polygonOf vs) = vs := by
  induction vs with
  | nil => rfl
  | cons v vs ih =>
    simp only [verticesOf, polygonOf, List.map_cons, List.zipWith_cons_cons] at *
    rw [ih]

theorem length_verticesOf_f32 (polygon : Polygon)
    (h : polygon.x_vec_.length = polygon.y_vec_.length) :
    (verticesOf polygon).length = polygon.x_vec_.length := by
  simp [verticesOf, h]

theorem ExtractPoint_polygonOf_f32 (vs : List Point) (n : Nat) (h : n < vs.length) :
    ExtractPoint (polygonOf vs) n = .ok (vs.get ⟨n, h⟩) := by
  simp [ExtractPoint, polygonOf, List.getElem?_map, List.getElem?_eq_getElem h]

theorem size_polygonOf_f32 (vs : List Point) : (polygonOf vs).size = .ok vs.length := by
  simp [Polygon.size, polygonOf]

theorem IsClosed_polygonOf_f32 (vs : List Point) (h : vs ≠ []) (tolerance : F32) :
    (polygonOf vs).IsClosed tolerance
      = .ok (WithinTolerance tolerance (vs.head h) (vs.getLast h)) := by
  simp only [Polygon.IsClosed, polygonOf, List.getLast?_map, List.head?_map,
    List.getLast?_eq_getLast _ h, List.head?_eq_head h, Option.map_some', WithinTolerance]

theorem length_closeWith_f32 (v0 : Point) : ∀ rest : List Point,
    (closeWith v0 rest).length = rest.length
  | [] => rfl
  | [_] => rfl
  | _ :: c :: rest => by simp [closeWith, length_closeWith_f32 v0 (c :: rest)]

theorem getElem?_closeWith_f32 (v0 : Point) : ∀ (rest : List Point) (j : Nat),
    (closeWith v0 rest)[j]? = if j + 1 = rest.length then some v0 else rest[j]?
  | [], j => by simp [closeWith]
  | [_], j => by cases j <;> simp [closeWith]
  | b :: c :: rest, 0 => by simp [closeWith]
  | b :: c :: rest, j + 1 => by
    simp [closeWith, getElem?_closeWith_f32 v0 (c :: rest) j]

/-- Reading vertices inside the range never faults, so the monadic loop is a plain fold
over the points it reads. -/
theorem foldlM_ExtractPoint_f32 (vs : List Point) (g : Nat → Nat)
    (step : LoopState → Point → LoopState) (d : Point) :
    ∀ (is : List Nat) (s : LoopState), (∀ i ∈ is, g i < vs.length) →
      is.foldlM (fun s i => (ExtractPoint (polygonOf vs) (g i)).bind
          fun b => (Except.ok (step s b) : Except Fault LoopState)) s
        = Except.ok (List.foldl step s (is.map fun i => (vs[g i]?).getD d)) := by
  intro is
  induction is with
  | nil => intro s _; rfl
  | cons i is ih =>
    intro s h
    have hi : g i < vs.length := h i (List.mem_cons_self _ _)
    have hrest : ∀ j ∈ is, g j < vs.length := fun j hj => h j (List.mem_cons_of_mem _ hj)
    rw [List.foldlM_cons, ExtractPoint_polygonOf_f32 vs (g i) hi]
    show is.foldlM _ (step s (vs.get ⟨g i, hi⟩)) = _
    rw [ih _ hrest]
    simp [List.getElem?_eq_getElem hi]

/-- The points `b` read by the loop on a polygon `v0 :: rest`: the vertices after the
first, the last one replaced by vertex 0. -/
theorem loop_targets_f32 (v0 : Point) (rest : List Point) :
    ((List.range' 1 rest.length).map fun i =>
        ((v0 :: rest)[if i = rest.length then 0 else i]?).getD v0)
      = closeWith v0 rest := by
  apply List.ext_getElem?
  intro j
  rw [getElem?_closeWith_f32, List.getElem?_map]
  by_cases hj : j < rest.length
  · rw [List.getElem?_range' 1 1 hj]
    by_cases hl : j + 1 = rest.length
    · have : 1 + j = rest.length := by omega
      simp [hl, this]
    · have : ¬ 1 + j = rest.length := by omega
      simp [hl, this, Nat.add_comm 1 j, List.getElem?_eq_getElem hj]
  · have : ¬ j + 1 = rest.length := by omega
    have h2 : rest.length ≤ j := by omega
    rw [List.getElem?_eq_none (by simpa using h2)]
    simp [this, List.getElem?_eq_none h2]

/-- The call on a non-empty well-formed polygon, as a fold over the vertex sequence. -/
theorem CalculateWindingNumber2D_polygonOf_f32 (self : IWindingNumberAlgorithm) (x y : F32)
    (v0 : Point) (rest : List Point) :
    CalculateWindingNumber2D self x y (polygonOf (v0 :: rest))
      = if WithinTolerance self.tolerance_ v0
            ((v0 :: rest).getLast (List.cons_ne_nil _ _)) = false then
          .ok (none, self.set_error_message "Input polygon is not closed.")
        else
          finish self (List.foldl (loopBody self.tolerance_ { x := x, y := y })
            (initialState { x := x, y := y } v0) (closeWith v0 rest)) := by
  unfold CalculateWindingNumber2D
  rw [IsClosed_polygonOf_f32 (v0 :: rest) (List.cons_ne_nil _ _)]
  simp only [Except_bind_ok, List.head_cons, IWindingNumberAlgorithm.tolerance]
  split
  · rfl
  · rw [ExtractPoint_polygonOf_f32 (v0 :: rest) 0 (by simp), size_polygonOf_f32]
    simp only [Except_bind_ok, List.length_cons, Nat.add_sub_cancel, List.get_eq_getElem,
      List.getElem_cons_zero]
    rw [foldlM_ExtractPoint_f32 (v0 :: rest) (fun i => if i = rest.length then 0 else i)
      (loopBody self.tolerance_ { x := x, y := y }) v0]
    · simp only [loop_targets_f32, Except_bind_ok]
      rfl
    · intro i hi
      simp only [List.mem_range'_1] at hi
      simp only [List.length_cons]
      split <;> omega

theorem polygon_cases_f32 (polygon : Polygon)
    (hlen : polygon.x_vec_.length = polygon.y_vec_.length)
    (hne : verticesOf polygon ≠ []) :
    ∃ v0 rest, polygon = polygonOf (v0 :: rest) := by
  cases hv : verticesOf polygon with
  | nil => exact absurd hv hne
  | cons v0 rest => exact ⟨v0, rest, by rw [← hv, polygonOf_verticesOf_f32 polygon hlen]⟩

/-! ## The loop body -/

theorem WithinTolerance_iff_f32 (tolerance : F32) (a b : Point) :
    WithinTolerance tolerance a b = true
      ↔ F32.le (F32.abs (F32.sub a.x b.x)) tolerance = true
        ∧ F32.le (F32.abs (F32.sub a.y b.y)) tolerance = true := by
  simp [WithinTolerance]

theorem tolerance_nonneg_of_within_f32 (tolerance : F32) (a b : Point)
    (h : WithinTolerance tolerance a b = true) : F32.le F32.zero tolerance = true :=
  F32.le_zero_of_abs_le_f32 _ _ ((WithinTolerance_iff_f32 tolerance a b).1 h).1

/-- A point with finite coordinates is within every tolerance `>= 0` of itself: `x - x`
is `0`. (With an infinite or NaN coordinate `x - x` is NaN and the comparison is false.) -/
theorem WithinTolerance_self_f32 (tolerance : F32) (a : Point) (hfin : a.isFinite = true)
    (h : F32.le F32.zero tolerance = true) : WithinTolerance tolerance a a = true := by
  simp only [Point.isFinite, Bool.and_eq_true] at hfin
  simp only [WithinTolerance, F32.sub_self_of_isFinite_f32 _ hfin.1,
    F32.sub_self_of_isFinite_f32 _ hfin.2, F32.abs_zero_f32, h, Bool.and_self]

/-- On an edge that is not skipped, the loop body moves to `b`, adds `edgeDelta` to the
winding number and counts the edge. -/
theorem loopBody_eq_f32 (tolerance : F32) (p a b : Point) (w : Int) (c : Nat)
    (h : WithinTolerance tolerance a b = false) :
    loopBody tolerance p
        { a := a, a_left_or_on_p := F32.le a.x p.x, winding_number := w,
          evaluated_edge_count := c } b
      = { a := b, a_left_or_on_p := F32.le b.x p.x,
          winding_number := w + edgeDelta p a b, evaluated_edge_count := c + 1 } := by
  unfold loopBody edgeDelta
  simp only [h, Bool.false_eq_true, if_false, LoopState.mk.injEq, true_and, and_true]
  split_ifs <;> first | rfl | omega

theorem loopBody_skip_f32 (tolerance : F32) (p : Point) (s : LoopState) (b : Point)
    (h : WithinTolerance tolerance s.a b = true) : loopBody tolerance p s b = s := by
  simp [loopBody, h]

theorem consecutivePairs_cons_cons_f32 (a b : Point) (bs : List Point) :
    consecutivePairs (a :: b :: bs) = (a, b) :: consecutivePairs (b :: bs) := rfl

theorem deltaSum_cons_f32 (p : Point) (e : Point × Point) (es : List (Point × Point)) :
    deltaSum p (e :: es) = edgeDelta p e.1 e.2 + deltaSum p es := by
  simp [deltaSum]

/-- When no edge is skipped, the loop adds up `edgeDelta` over the consecutive pairs and
counts every edge. -/
theorem foldl_loopBody_noskip_f32 (tolerance : F32) (p : Point) :
    ∀ (bs : List Point) (a : Point) (w : Int) (c : Nat),
      (∀ e ∈ consecutivePairs (a :: bs), WithinTolerance tolerance e.1 e.2 = false) →
      (List.foldl (loopBody tolerance p)
          { a := a, a_left_or_on_p := F32.le a.x p.x, winding_number := w,
            evaluated_edge_count := c } bs).winding_number
          = w + deltaSum p (consecutivePairs (a :: bs))
      ∧ (List.foldl (loopBody tolerance p)
          { a := a, a_left_or_on_p := F32.le a.x p.x, winding_number := w,
            evaluated_edge_count := c } bs).evaluated_edge_count
          = c + bs.length := by
  intro bs
  induction bs with
  | nil => intro a w c _; simp [consecutivePairs, deltaSum]
  | cons b bs ih =>
    intro a w c h
    have hab : WithinTolerance tolerance a b = false :=
      h (a, b) (by simp [consecutivePairs_cons_cons_f32])
    have hrest : ∀ e ∈ consecutivePairs (b :: bs), WithinTolerance tolerance e.1 e.2 = false :=
      fun e he => h e (by rw [consecutivePairs_cons_cons_f32]; exact List.mem_cons_of_mem _ he)
    rw [List.foldl_cons, loopBody_eq_f32 tolerance p a b w c hab]
    obtain ⟨h1, h2⟩ := ih b (w + edgeDelta p a b) (c + 1) hrest
    rw [h1, h2, consecutivePairs_cons_cons_f32, deltaSum_cons_f32]
    constructor
    · simp only []; ring
    · simp only [List.length_cons]; omega

theorem closeWith_of_getLast_f32 (v0 : Point) : ∀ (rest : List Point) (h : rest ≠ []),
    rest.getLast h = v0 → closeWith v0 rest = rest
  | [], h, _ => absurd rfl h
  | [b], _, hl => by simp at hl; simp [closeWith, hl]
  | b :: c :: rest, _, hl => by
    have : (c :: rest).getLast (List.cons_ne_nil _ _) = v0 := by
      rw [← hl]; simp [List.getLast_cons]
    simp [closeWith, closeWith_of_getLast_f32 v0 (c :: rest) (List.cons_ne_nil _ _) this]

/-- The call on an exactly closed polygon none of whose edges is skipped: the sum of the
per-edge contributions. -/
theorem CalculateWindingNumber2D_noskip_f32 (self : IWindingNumberAlgorithm) (x y : F32)
    (vs : List Point) (h2 : 2 ≤ vs.length) (htol : F32.le F32.zero self.tolerance_ = true)
    (hfin : ∀ v, vs.head? = some v → v.isFinite = true)
    (hclosed : vs.getLast? = vs.head?)
    (hsep : ∀ e ∈ consecutivePairs vs, WithinTolerance self.tolerance_ e.1 e.2 = false) :
    CalculateWindingNumber2D self x y (polygonOf vs)
      = .ok (some (deltaSum { x := x, y := y } (consecutivePairs vs)), self) := by
  match vs, h2, hfin, hclosed, hsep with
  | v0 :: b :: rest, _, hfin, hclosed, hsep =>
    have hlast : (b :: rest).getLast (List.cons_ne_nil _ _) = v0 := by
      have h := hclosed
      rw [List.getLast?_eq_getLast _ (List.cons_ne_nil _ _)] at h
      simp only [List.head?_cons, Option.some.injEq] at h
      rw [← h, List.getLast_cons (List.cons_ne_nil _ _)]
    have hlast2 : (v0 :: b :: rest).getLast (List.cons_ne_nil _ _) = v0 := by
      rw [List.getLast_cons (List.cons_ne_nil _ _)]; exact hlast
    rw [CalculateWindingNumber2D_polygonOf_f32, hlast2,
      WithinTolerance_self_f32 _ _ (hfin v0 rfl) htol,
      closeWith_of_getLast_f32 v0 (b :: rest) (List.cons_ne_nil _ _) hlast]
    obtain ⟨h1, hc⟩ := foldl_loopBody_noskip_f32 self.tolerance_ { x := x, y := y }
      (b :: rest) v0 0 0 hsep
    simp only [Bool.true_eq_false, if_false, finish, initialState, h1, hc, List.length_cons]
    rw [if_neg (by omega)]
    simp

/-! ## Skipped edges and the evaluated-edge count -/

theorem evaluated_edge_count_loopBody_f32 (tolerance : F32) (p : Point) (s : LoopState) (b : Point) :
    (loopBody tolerance p s b).evaluated_edge_count
      = if WithinTolerance tolerance s.a b = true then s.evaluated_edge_count
        else s.evaluated_edge_count + 1 := by
  unfold loopBody
  split <;> rfl

theorem evaluated_edge_count_mono_f32 (tolerance : F32) (p : Point) :
    ∀ (bs : List Point) (s : LoopState),
      s.evaluated_edge_count
        ≤ (List.foldl (loopBody tolerance p) s bs).evaluated_edge_count := by
  intro bs
  induction bs with
  | nil => intro s; exact le_refl _
  | cons b bs ih =>
    intro s
    rw [List.foldl_cons]
    refine le_trans ?_ (ih _)
    rw [evaluated_edge_count_loopBody_f32]
    split <;> omega

theorem foldl_loopBody_skip_all_f32 (tolerance : F32) (p : Point) :
    ∀ (bs : List Point) (s : LoopState),
      (∀ b ∈ bs, WithinTolerance tolerance s.a b = true) →
      List.foldl (loopBody tolerance p) s bs = s := by
  intro bs
  induction bs with
  | nil => intro s _; rfl
  | cons b bs ih =>
    intro s h
    rw [List.foldl_cons, loopBody_skip_f32 tolerance p s b (h b (List.mem_cons_self _ _))]
    exact ih s (fun b' hb' => h b' (List.mem_cons_of_mem _ hb'))

theorem within_of_evaluated_edge_count_eq_f32 (tolerance : F32) (p : Point) :
    ∀ (bs : List Point) (s : LoopState),
      (List.foldl (loopBody tolerance p) s bs).evaluated_edge_count = s.evaluated_edge_count →
      ∀ b ∈ bs, WithinTolerance tolerance s.a b = true := by
  intro bs
  induction bs with
  | nil => intro s _ b hb; simp at hb
  | cons b bs ih =>
    intro s h
    rw [List.foldl_cons] at h
    have hmono := evaluated_edge_count_mono_f32 tolerance p bs (loopBody tolerance p s b)
    have hstep := evaluated_edge_count_loopBody_f32 tolerance p s b
    by_cases hw : WithinTolerance tolerance s.a b = true
    · rw [loopBody_skip_f32 tolerance p s b hw] at h
      intro b' hb'
      rcases List.mem_cons.1 hb' with rfl | hb'
      · exact hw
      · exact ih s h b' hb'
    · rw [if_neg hw] at hstep
      omega

theorem mem_closeWith_f32 (v0 : Point) : ∀ (rest : List Point) (b : Point),
    b ∈ closeWith v0 rest → b = v0 ∨ b ∈ rest
  | [], b, h => by simp [closeWith] at h
  | [_], b, h => by simp [closeWith] at h; exact Or.inl h
  | c :: d :: rest, b, h => by
    simp only [closeWith, List.mem_cons] at h
    rcases h with h | h
    · exact Or.inr (by simp [h])
    · rcases mem_closeWith_f32 v0 (d :: rest) b (by simpa [List.mem_cons] using h) with h' | h'
      · exact Or.inl h'
      · exact Or.inr (List.mem_cons_of_mem _ h')

theorem mem_closeWith_or_last_f32 (v0 : Point) : ∀ (rest : List Point) (v : Point),
    v ∈ rest → v ∈ closeWith v0 rest ∨ rest.getLast? = some v
  | [], v, h => by simp at h
  | [c], v, h => by simp at h; simp [h]
  | c :: d :: rest, v, h => by
    rcases List.mem_cons.1 h with rfl | h
    · exact Or.inl (by simp [closeWith])
    · rcases mem_closeWith_or_last_f32 v0 (d :: rest) v h with h' | h'
      · exact Or.inl (by simp only [closeWith]; exact List.mem_cons_of_mem _ h')
      · exact Or.inr (by rw [List.getLast?_cons_cons]; exact h')

/-! ## Consecutive pairs under append and reversal -/

theorem consecutivePairs_append_f32 (m : Point) (l2 : List Point) : ∀ l1 : List Point,
    consecutivePairs (l1 ++ m :: l2)
      = consecutivePairs (l1 ++ [m]) ++ consecutivePairs (m :: l2)
  | [] => by simp [consecutivePairs]
  | [c] => by simp [consecutivePairs]
  | c :: d :: l1 => by
    have ih := consecutivePairs_append_f32 m l2 (d :: l1)
    simp only [List.cons_append, consecutivePairs_cons_cons_f32] at ih ⊢
    rw [ih]

theorem consecutivePairs_reverse_f32 : ∀ l : List Point,
    consecutivePairs l.reverse = ((consecutivePairs l).map Prod.swap).reverse
  | [] => rfl
  | [_] => rfl
  | a :: b :: l => by
    have ih := consecutivePairs_reverse_f32 (b :: l)
    have h : (a :: b :: l).reverse = l.reverse ++ b :: [a] := by simp
    rw [h, consecutivePairs_append_f32, consecutivePairs_cons_cons_f32 a b l, List.map_cons,
      List.reverse_cons, ← ih, List.reverse_cons]
    rfl

theorem WithinTolerance_comm_f32 (tolerance : F32) (a b : Point) :
    WithinTolerance tolerance b a = WithinTolerance tolerance a b := by
  simp only [WithinTolerance, F32.abs_sub_comm_f32 b.x a.x, F32.abs_sub_comm_f32 b.y a.y]

theorem deltaSum_append_f32 (p : Point) (es fs : List (Point × Point)) :
    deltaSum p (es ++ fs) = deltaSum p es + deltaSum p fs := by
  simp [deltaSum]

theorem polygonOf_reverse_f32 (vs : List Point) :
    polygonOf vs.reverse
      = { x_vec_ := (polygonOf vs).x_vec_.reverse, y_vec_ := (polygonOf vs).y_vec_.reverse } := by
  simp [polygonOf, List.map_reverse]

/-! ## Cyclic rotation -/

theorem polygonOf_cyclicRotation_f32 (k : Nat) (vs : List Point) :
    polygonOf (cyclicRotation k vs)
      = { x_vec_ := cyclicRotation k (polygonOf vs).x_vec_,
          y_vec_ := cyclicRotation k (polygonOf vs).y_vec_ } := by
  simp [polygonOf, cyclicRotation, List.map_drop, List.map_take]

/-- A closed sequence split at position `k` before its closing entry. -/
theorem closed_split_f32 (vs : List Point) (k : Nat) (hk : k < vs.length - 1)
    (hclosed : vs.getLast? = vs.head?) :
    ∃ (L R T : List Point) (m v0 : Point),
      vs = (L ++ m :: R) ++ [v0] ∧ L.length = k ∧ L ++ [m] = v0 :: T := by
  have hne : vs ≠ [] := by
    intro h; rw [h] at hk; simp at hk
  have hd : vs.dropLast.length = vs.length - 1 := by simp
  have hk' : k < vs.dropLast.length := by omega
  have hsplit : vs.dropLast
      = vs.dropLast.take k ++ vs.dropLast.get ⟨k, hk'⟩ :: vs.dropLast.drop (k + 1) := by
    conv_lhs => rw [← List.take_append_drop k vs.dropLast]
    rw [List.drop_eq_getElem_cons hk']
    rfl
  have hvs : vs = vs.dropLast ++ [vs.getLast hne] := (List.dropLast_append_getLast hne).symm
  have hhead : vs.head? = some (vs.getLast hne) := by
    rw [← hclosed, List.getLast?_eq_getLast _ hne]
  have hLlen : (vs.dropLast.take k).length = k := by
    rw [List.length_take]; omega
  have hfront : (vs.dropLast.take k ++ [vs.dropLast.get ⟨k, hk'⟩]).head?
      = some (vs.getLast hne) := by
    rw [← hhead]
    conv_rhs => rw [hvs, hsplit]
    cases vs.dropLast.take k <;> simp
  obtain ⟨T, hT⟩ : ∃ T, vs.dropLast.take k ++ [vs.dropLast.get ⟨k, hk'⟩]
      = vs.getLast hne :: T := by
    generalize vs.dropLast.take k ++ [vs.dropLast.get ⟨k, hk'⟩] = w at hfront
    cases w with
    | nil => simp at hfront
    | cons c w =>
      simp only [List.head?_cons, Option.some.injEq] at hfront
      exact ⟨w, by rw [hfront]⟩
  refine ⟨vs.dropLast.take k, vs.dropLast.drop (k + 1), T, vs.dropLast.get ⟨k, hk'⟩,
    vs.getLast hne, ?_, hLlen, hT⟩
  rw [← hsplit]
  exact hvs

/-- The consecutive pairs of a rotation are those of the original, in rotated order. -/
theorem consecutivePairs_rotation_f32 (L R T : List Point) (m v0 : Point)
    (hT : L ++ [m] = v0 :: T) :
    consecutivePairs ((L ++ m :: R) ++ [v0])
        = consecutivePairs (L ++ [m]) ++ consecutivePairs ((m :: R) ++ [v0])
    ∧ consecutivePairs ((m :: R) ++ (L ++ [m]))
        = consecutivePairs ((m :: R) ++ [v0]) ++ consecutivePairs (L ++ [m]) := by
  constructor
  · rw [List.append_assoc, List.cons_append, consecutivePairs_append_f32]
  · rw [hT, consecutivePairs_append_f32]

theorem getLast?_eq_head?_of_split_f32 (L R T : List Point) (m v0 : Point)
    (hT : L ++ [m] = v0 :: T) :
    ((L ++ m :: R) ++ [v0]).getLast? = ((L ++ m :: R) ++ [v0]).head? := by
  have h : (L ++ m :: R) ++ [v0] = v0 :: (T ++ (R ++ [v0])) := by
    have : (L ++ m :: R) ++ [v0] = (L ++ [m]) ++ (R ++ [v0]) := by simp
    rw [this, hT]; rfl
  rw [List.getLast?_concat, h, List.head?_cons]

theorem mem_closeWith_self_f32 (v0 : Point) : ∀ rest : List Point, rest ≠ [] →
    v0 ∈ closeWith v0 rest
  | [], h => absurd rfl h
  | [_], _ => by simp [closeWith]
  | b :: c :: rest, _ => by
    simp only [closeWith]
    exact List.mem_cons_of_mem _ (mem_closeWith_self_f32 v0 (c :: rest) (List.cons_ne_nil _ _))

/-- On a polygon closed within the tolerance, no edge is evaluated exactly when every
vertex is within the tolerance of vertex 0. -/
theorem CalculateWindingNumber2D_closed_f32 (self : IWindingNumberAlgorithm) (x y : F32)
    (v0 : Point) (rest : List Point)
    (hcl : WithinTolerance self.tolerance_ v0
      ((v0 :: rest).getLast (List.cons_ne_nil _ _)) = true) :
    ((∀ v ∈ v0 :: rest, WithinTolerance self.tolerance_ v0 v = true) →
      CalculateWindingNumber2D self x y (polygonOf (v0 :: rest))
        = .ok (none, self.set_error_message
            "Insufficient geometry in polygon for a meaningful result"))
    ∧ ((¬ ∀ v ∈ v0 :: rest, WithinTolerance self.tolerance_ v0 v = true) →
      ∃ n : Int, CalculateWindingNumber2D self x y (polygonOf (v0 :: rest))
        = .ok (some n, self)) := by
  rw [CalculateWindingNumber2D_polygonOf_f32, hcl]
  simp only [Bool.true_eq_false, if_false]
  constructor
  · intro hall
    rw [foldl_loopBody_skip_all_f32]
    · rfl
    · intro b hb
      rcases mem_closeWith_f32 v0 rest b hb with rfl | hb
      · exact hall _ (List.mem_cons_self _ _)
      · exact hall b (List.mem_cons_of_mem _ hb)
  · intro hnot
    suffices hc : ¬ (List.foldl (loopBody self.tolerance_ { x := x, y := y })
        (initialState { x := x, y := y } v0) (closeWith v0 rest)).evaluated_edge_count < 1 by
      unfold finish
      rw [if_neg hc]
      exact ⟨_, rfl⟩
    intro hlt
    apply hnot
    have h0 : (List.foldl (loopBody self.tolerance_ { x := x, y := y })
        (initialState { x := x, y := y } v0) (closeWith v0 rest)).evaluated_edge_count
        = (initialState { x := x, y := y } v0).evaluated_edge_count := by
      have : (initialState { x := x, y := y } v0).evaluated_edge_count = 0 := rfl
      omega
    have hw := within_of_evaluated_edge_count_eq_f32 _ _ _ _ h0
    intro v hv
    rcases List.mem_cons.1 hv with rfl | hv
    · cases rest with
      | nil => exact hcl
      | cons c rest => exact hw _ (mem_closeWith_self_f32 _ _ (List.cons_ne_nil _ _))
    · rcases mem_closeWith_or_last_f32 v0 rest v hv with h | h
      · exact hw v h
      · have hl : (v0 :: rest).getLast (List.cons_ne_nil _ _) = v := by
          cases rest with
          | nil => simp at hv
          | cons c rest =>
            rw [List.getLast_cons (List.cons_ne_nil _ _)]
            rw [List.getLast?_eq_getLast _ (List.cons_ne_nil _ _)] at h
            exact Option.some.inj h
        rw [← hl]; exact hcl

/-! ### NaN in the cross product -/

theorem CrossProduct_nan_ax_f32 (a b p : Point) (h : a.x = .nan) :
    CrossProduct a b p = .nan := by
  simp only [CrossProduct, h, F32.sub_nan_right_f32, F32.mul_nan_left_f32,
    F32.sub_nan_left_f32]

theorem CrossProduct_nan_bx_f32 (a b p : Point) (h : b.x = .nan) :
    CrossProduct a b p = .nan := by
  simp only [CrossProduct, h, F32.mul_nan_left_f32, F32.sub_nan_left_f32]

theorem CrossProduct_nan_px_f32 (a b p : Point) (h : p.x = .nan) :
    CrossProduct a b p = .nan := by
  simp only [CrossProduct, h, F32.sub_nan_left_f32, F32.mul_nan_right_f32,
    F32.sub_nan_right_f32]

theorem ne_nan_of_le_left_f32 (x y : F32) (h : F32.le x y = true) : x ≠ .nan := by
  rintro rfl; simp [F32.le] at h

theorem ne_nan_of_le_right_f32 (x y : F32) (h : F32.le x y = true) : y ≠ .nan := by
  rintro rfl; simp [F32.le_nan_right_f32] at h

theorem ne_nan_of_lt_left_f32 (x y : F32) (h : F32.lt x y = true) : x ≠ .nan := by
  rintro rfl; simp [F32.lt] at h

/-- Away from the on-edge special case, the contribution of an edge is the difference of
the two crossing indicators of the general rule. -/
theorem edgeDelta_of_cross_f32 (p a b : Point)
    (hf : FuzzyEquals (CrossProduct a b p) F32.zero default_max_delta = false) :
    edgeDelta p a b
      = (if F32.lt p.x a.x = true ∧ F32.le b.x p.x = true
            ∧ F32.le F32.zero (CrossProduct a b p) = true then 1 else 0)
        - (if F32.le a.x p.x = true ∧ F32.lt p.x b.x = true
            ∧ F32.lt (CrossProduct a b p) F32.zero = true then 1 else 0) := by
  unfold edgeDelta
  simp only [hf, Bool.false_and, Bool.false_eq_true, if_false, Bool.and_eq_true,
    Bool.not_eq_true']
  by_cases ha : F32.le a.x p.x = true
  · have ha2 : ¬ F32.lt p.x a.x = true := by
      intro hlt
      rw [F32.lt_imp_not_le_f32 _ _ hlt] at ha
      exact absurd ha (by decide)
    have hp : p.x ≠ .nan := ne_nan_of_le_right_f32 _ _ ha
    have hinc : ¬ (F32.lt p.x a.x = true ∧ F32.le b.x p.x = true
        ∧ F32.le F32.zero (CrossProduct a b p) = true) := fun h => ha2 h.1
    rw [if_pos ha, if_neg hinc]
    by_cases hc : F32.lt p.x b.x = true ∧ F32.lt (CrossProduct a b p) F32.zero = true
    · have hdec : F32.le b.x p.x = false ∧ F32.lt (CrossProduct a b p) F32.zero = true :=
        ⟨F32.lt_imp_not_le_f32 _ _ hc.1, hc.2⟩
      have hdec2 : F32.le a.x p.x = true ∧ F32.lt p.x b.x = true
          ∧ F32.lt (CrossProduct a b p) F32.zero = true := ⟨ha, hc⟩
      rw [if_pos hdec, if_pos hdec2]
      rfl
    · have hdec : ¬ (F32.le b.x p.x = false
          ∧ F32.lt (CrossProduct a b p) F32.zero = true) := by
        rintro ⟨h1, h2⟩
        have hb : b.x ≠ .nan := by
          intro hb
          rw [CrossProduct_nan_bx_f32 a b p hb] at h2
          exact absurd h2 (by decide)
        exact hc ⟨(F32.not_le_iff_lt_f32 _ _ hb hp).1 h1, h2⟩
      have hdec2 : ¬ (F32.le a.x p.x = true ∧ F32.lt p.x b.x = true
          ∧ F32.lt (CrossProduct a b p) F32.zero = true) := fun h => hc h.2
      rw [if_neg hdec, if_neg hdec2]
      rfl
  · have hdec2 : ¬ (F32.le a.x p.x = true ∧ F32.lt p.x b.x = true
        ∧ F32.lt (CrossProduct a b p) F32.zero = true) := fun h => ha h.1
    rw [if_neg ha, if_neg hdec2]
    by_cases hc : F32.le b.x p.x = true ∧ F32.le F32.zero (CrossProduct a b p) = true
    · have hp : p.x ≠ .nan := ne_nan_of_le_right_f32 _ _ hc.1
      have haa : a.x ≠ .nan := by
        intro haa
        have h2 := hc.2
        rw [CrossProduct_nan_ax_f32 a b p haa] at h2
        exact absurd h2 (by decide)
      have hle : F32.le a.x p.x = false := by
        cases hq : F32.le a.x p.x
        · rfl
        · exact absurd hq ha
      have hinc : F32.lt p.x a.x = true ∧ F32.le b.x p.x = true
          ∧ F32.le F32.zero (CrossProduct a b p) = true :=
        ⟨(F32.not_le_iff_lt_f32 _ _ haa hp).1 hle, hc⟩
      rw [if_pos hc, if_pos hinc]
      rfl
    · have hinc : ¬ (F32.lt p.x a.x = true ∧ F32.le b.x p.x = true
          ∧ F32.le F32.zero (CrossProduct a b p) = true) := fun h => hc h.2
      rw [if_neg hc, if_neg hinc]
      rfl

theorem deltaSum_eq_counts_f32 (p : Point) : ∀ es : List (Point × Point),
    (∀ e ∈ es, FuzzyEquals (CrossProduct e.1 e.2 p) F32.zero default_max_delta = false) →
    deltaSum p es
      = (es.countP fun e => decide (F32.lt p.x e.1.x = true ∧ F32.le e.2.x p.x = true
            ∧ F32.le F32.zero (CrossProduct e.1 e.2 p) = true))
        - (es.countP fun e => decide (F32.le e.1.x p.x = true ∧ F32.lt p.x e.2.x = true
            ∧ F32.lt (CrossProduct e.1 e.2 p) F32.zero = true))
  | [], _ => by simp [deltaSum]
  | e :: es, h => by
    have he := h e (List.mem_cons_self _ _)
    have ih := deltaSum_eq_counts_f32 p es (fun e' he' => h e' (List.mem_cons_of_mem _ he'))
    have h1 := countP_cons_int
      (fun e : Point × Point => F32.lt p.x e.1.x = true ∧ F32.le e.2.x p.x = true
        ∧ F32.le F32.zero (CrossProduct e.1 e.2 p) = true) e es
    have h2 := countP_cons_int
      (fun e : Point × Point => F32.le e.1.x p.x = true ∧ F32.lt p.x e.2.x = true
        ∧ F32.lt (CrossProduct e.1 e.2 p) F32.zero = true) e es
    rw [deltaSum_cons_f32, ih, edgeDelta_of_cross_f32 p e.1 e.2 he, h1, h2]
    ring

/-! ### Reversed edges -/

/-- When neither cross product is in the on-edge band and the two have opposite signs,
traversing an edge backwards negates its contribution. -/
theorem edgeDelta_swap_f32 (p a b : Point)
    (hf : FuzzyEquals (CrossProduct a b p) F32.zero default_max_delta = false)
    (hb : FuzzyEquals (CrossProduct b a p) F32.zero default_max_delta = false)
    (hneg : F32.lt (CrossProduct b a p) F32.zero = F32.le F32.zero (CrossProduct a b p))
    (hpos : F32.le F32.zero (CrossProduct b a p) = F32.lt (CrossProduct a b p) F32.zero) :
    edgeDelta p b a = - edgeDelta p a b := by
  unfold edgeDelta
  simp only [hf, hb, hneg, hpos, Bool.false_and, Bool.false_eq_true, if_false]
  cases F32.le a.x p.x <;> cases F32.le b.x p.x
    <;> cases F32.le F32.zero (CrossProduct a b p)
    <;> cases F32.lt (CrossProduct a b p) F32.zero <;> rfl

theorem deltaSum_swap_reverse_f32 (p : Point) : ∀ es : List (Point × Point),
    (∀ e ∈ es, FuzzyEquals (CrossProduct e.1 e.2 p) F32.zero default_max_delta = false
      ∧ FuzzyEquals (CrossProduct e.2 e.1 p) F32.zero default_max_delta = false
      ∧ F32.lt (CrossProduct e.2 e.1 p) F32.zero = F32.le F32.zero (CrossProduct e.1 e.2 p)
      ∧ F32.le F32.zero (CrossProduct e.2 e.1 p) = F32.lt (CrossProduct e.1 e.2 p) F32.zero) →
    deltaSum p ((es.map Prod.swap).reverse) = - deltaSum p es
  | [], _ => by simp [deltaSum]
  | e :: es, h => by
    obtain ⟨h1, h2, h3, h4⟩ := h e (List.mem_cons_self _ _)
    have ih := deltaSum_swap_reverse_f32 p es (fun e' he' => h e' (List.mem_cons_of_mem _ he'))
    rw [List.map_cons, List.reverse_cons, deltaSum_append_f32, ih, deltaSum_cons_f32,
      deltaSum_cons_f32]
    simp only [Prod.fst_swap, Prod.snd_swap, edgeDelta_swap_f32 p e.1 e.2 h1 h2 h3 h4]
    simp only [deltaSum, List.map_nil, List.sum_nil]
    ring

/-! ### Closing a polygon -/

/-- At tolerance `0.f` two points of binary32 coordinates are within tolerance exactly
when they are the same point and its coordinates are finite. -/
theorem WithinTolerance_zero_iff_f32 (a b : Point)
    (hax : a.x.isValid = true) (hay : a.y.isValid = true)
    (hbx : b.x.isValid = true) (hby : b.y.isValid = true) :
    WithinTolerance F32.zero a b = true ↔ (a = b ∧ a.isFinite = true) := by
  rw [WithinTolerance_iff_f32, F32.le_abs_sub_zero_iff_f32 _ _ hax hbx,
    F32.le_abs_sub_zero_iff_f32 _ _ hay hby]
  obtain ⟨ax, ay⟩ := a
  obtain ⟨bx, by'⟩ := b
  simp only [Point.mk.injEq, Point.isFinite, Bool.and_eq_true]
  tauto

theorem ClosePolygon_polygonOf_nil_f32 :
    (polygonOf []).ClosePolygon = .ok (polygonOf []) := rfl

theorem polygonOf_append_singleton_f32 (vs : List Point) (v : Point) :
    polygonOf (vs ++ [v]) = (polygonOf vs).AppendPoint v.x v.y := by
  simp [polygonOf, Polygon.AppendPoint]

/-- The call `ClosePolygon` on a non-empty polygon, on the vertex sequence. -/
theorem ClosePolygon_polygonOf_cons_f32 (v0 : Point) (rest : List Point) :
    (polygonOf (v0 :: rest)).ClosePolygon
      = if WithinTolerance F32.zero v0 ((v0 :: rest).getLast (List.cons_ne_nil _ _)) = true
        then .ok (polygonOf (v0 :: rest))
        else .ok (polygonOf ((v0 :: rest) ++ [v0])) := by
  unfold Polygon.ClosePolygon
  rw [size_polygonOf_f32, IsClosed_polygonOf_f32 (v0 :: rest) (List.cons_ne_nil _ _)]
  simp only [Except_bind_ok, List.length_cons, Nat.add_one_ne_zero, if_false, List.head_cons]
  split
  · rfl
  · simp [polygonOf]

theorem getLast?_ne_of_getLast_ne_f32 (v0 : Point) (rest : List Point) :
    (v0 :: rest).getLast? = some v0
      ↔ (v0 :: rest).getLast (List.cons_ne_nil _ _) = v0 := by
  rw [List.getLast?_eq_getLast _ (List.cons_ne_nil _ _)]
  exact Option.some_inj

/-- The tail of the call returns a value or the insufficient-geometry failure. -/
theorem finish_cases_f32 (self : IWindingNumberAlgorithm) (s : LoopState) :
    (∃ n : Int, finish self s = .ok (some n, self))
    ∨ finish self s = .ok (none, { self with error_message_ :=
        "Insufficient geometry in polygon for a meaningful result" }) := by
  unfold finish
  split
  · exact Or.inr rfl
  · exact Or.inl ⟨_, rfl⟩

theorem getLast?_eq_head?_cons_f32 (v0 : Point) (rest : List Point) (hrest : rest ≠ [])
    (hclosed : (v0 :: rest).getLast? = (v0 :: rest).head?) :
    rest.getLast hrest = v0 := by
  rw [List.getLast?_eq_getLast _ (List.cons_ne_nil _ _), List.head?_cons,
    Option.some.injEq, List.getLast_cons hrest] at hclosed
  exact hclosed

end ieee

/-! ## The claims stated on the binary32 reading -/

namespace ieee

set_option maxRecDepth 100000

/-- C1 (counterexample). The polygon (inf,0),(0,1),(0,-1),(inf,0) with tolerance 0 and
the point (1, 1/2) meets every condition of the claim: the tolerance is `>= 0`, there
are 4 vertices, the last vertex equals the first, no two consecutive vertices are within
the tolerance of each other and no edge's cross product is within the internal epsilon of
zero. `CalculateWindingNumber2D` returns no value: `inf - inf` is NaN, so the polygon is
not closed for `IsClosed`, and the call fails with the not-closed diagnostic. -/
theorem crossing_rule_counterexample_f32 :
    F32.le F32.zero IWindingNumberAlgorithm.Create.tolerance_ = true
    ∧ 3 ≤ (verticesOf infiniteFirstVertex).length
    ∧ (verticesOf infiniteFirstVertex).getLast? = (verticesOf infiniteFirstVertex).head?
    ∧ (∀ e ∈ consecutivePairs (verticesOf infiniteFirstVertex),
        ¬ (F32.le (F32.abs (F32.sub e.1.x e.2.x)) IWindingNumberAlgorithm.Create.tolerance_
            = true
          ∧ F32.le (F32.abs (F32.sub e.1.y e.2.y)) IWindingNumberAlgorithm.Create.tolerance_
            = true))
    ∧ (∀ e ∈ consecutivePairs (verticesOf infiniteFirstVertex),
        F32.le (F32.abs (F32.sub
            (CrossProduct e.1 e.2 { x := .finite 1 0, y := .finite 1 (-1) }) F32.zero))
          default_max_delta = false)
    ∧ CalculateWindingNumber2D IWindingNumberAlgorithm.Create (.finite 1 0) (.finite 1 (-1))
        infiniteFirstVertex
      = .ok (none, { IWindingNumberAlgorithm.Create with
          error_message_ := "Input polygon is not closed." }) := by
  decide

/-- C1 (amended). General-case crossing rule, every quantity being the one the code
computes in binary32: for a tolerance `>= 0` and a polygon of at least 3 vertices whose
last vertex is exactly its first and whose first vertex has finite coordinates, with no
two consecutive vertices within the tolerance of each other and no edge whose cross
product with `p` is within the internal epsilon of zero, `CalculateWindingNumber2D`
returns the number of edges with `a.x > p.x`, `b.x <= p.x` and cross product `>= 0`,
minus the number of edges with `a.x <= p.x`, `b.x > p.x` and cross product `< 0`. -/
theorem crossing_rule_f32 (self : IWindingNumberAlgorithm) (x y : F32) (polygon : Polygon)
    (hlen : polygon.x_vec_.length = polygon.y_vec_.length)
    (htol : F32.le F32.zero self.tolerance_ = true)
    (h3 : 3 ≤ (verticesOf polygon).length)
    (hclosed : (verticesOf polygon).getLast? = (verticesOf polygon).head?)
    (hfin : ∀ v, (verticesOf polygon).head? = some v →
      v.x.isFinite = true ∧ v.y.isFinite = true)
    (hsep : ∀ e ∈ consecutivePairs (verticesOf polygon),
      ¬ (F32.le (F32.abs (F32.sub e.1.x e.2.x)) self.tolerance_ = true
        ∧ F32.le (F32.abs (F32.sub e.1.y e.2.y)) self.tolerance_ = true))
    (hcross : ∀ e ∈ consecutivePairs (verticesOf polygon),
      F32.le (F32.abs (F32.sub (CrossProduct e.1 e.2 { x := x, y := y }) F32.zero))
        default_max_delta = false) :
    CalculateWindingNumber2D self x y polygon
      = .ok (some
          (((consecutivePairs (verticesOf polygon)).countP fun e =>
              decide (F32.lt x e.1.x = true ∧ F32.le e.2.x x = true
                ∧ F32.le F32.zero (CrossProduct e.1 e.2 { x := x, y := y }) = true) : Int)
            - ((consecutivePairs (verticesOf polygon)).countP fun e =>
              decide (F32.le e.1.x x = true ∧ F32.lt x e.2.x = true
                ∧ F32.lt (CrossProduct e.1 e.2 { x := x, y := y }) F32.zero = true))),
          self) := by
  have hp := polygonOf_verticesOf_f32 polygon hlen
  rw [← deltaSum_eq_counts_f32 { x := x, y := y } _ hcross]
  conv_lhs => rw [← hp]
  apply CalculateWindingNumber2D_noskip_f32 self x y _ (by omega) htol _ hclosed
  · intro e he
    have := hsep e he
    rw [← Bool.not_eq_true, WithinTolerance_iff_f32]
    exact this
  · intro v hv
    obtain ⟨h1, h2⟩ := hfin v hv
    simp [Point.isFinite, h1, h2]

/-- C1 (amended), at the unit square of the tests and the point (1/2, 1/2), with
tolerance 0: the value is 1. -/
theorem crossing_rule_f32_witness :
    CalculateWindingNumber2D IWindingNumberAlgorithm.Create (.finite 1 (-1)) (.finite 1 (-1))
        unitSquare
      = .ok (some 1, IWindingNumberAlgorithm.Create) := by
  have h := crossing_rule_f32 IWindingNumberAlgorithm.Create (.finite 1 (-1)) (.finite 1 (-1))
    unitSquare rfl (by decide) (by decide) (by decide) (by decide) (by decide) (by decide)
  rw [h]
  decide

/-- C2. On a non-empty polygon that is not closed within the configured tolerance (it is
not the case that both `|x_first - x_last| <= tol` and `|y_first - y_last| <= tol`, the
differences being those the code computes; this covers a difference that exceeds the
tolerance and a difference that is NaN), `CalculateWindingNumber2D` returns no result and
sets the diagnostic message to "Input polygon is not closed.". -/
theorem not_closed_fails_f32 (self : IWindingNumberAlgorithm) (x y : F32) (polygon : Polygon)
    (hlen : polygon.x_vec_.length = polygon.y_vec_.length)
    (hne : verticesOf polygon ≠ [])
    (hopen : ¬ (F32.le (F32.abs (F32.sub ((verticesOf polygon).head hne).x
            ((verticesOf polygon).getLast hne).x)) self.tolerance_ = true
        ∧ F32.le (F32.abs (F32.sub ((verticesOf polygon).head hne).y
            ((verticesOf polygon).getLast hne).y)) self.tolerance_ = true)) :
    CalculateWindingNumber2D self x y polygon
      = .ok (none, { self with error_message_ := "Input polygon is not closed." }) := by
  obtain ⟨v0, rest, rfl⟩ := polygon_cases_f32 polygon hlen hne
  simp only [verticesOf_polygonOf_f32, List.head_cons] at hopen
  rw [CalculateWindingNumber2D_polygonOf_f32, if_pos]
  · rfl
  · rw [← Bool.not_eq_true, WithinTolerance_iff_f32]
    exact hopen

/-- C2, at the open polygon (0,0),(1,0),(1,1) with tolerance 0 and the point (0,0). -/
theorem not_closed_fails_f32_witness :
    CalculateWindingNumber2D IWindingNumberAlgorithm.Create F32.zero F32.zero openTriangle
      = .ok (none, { IWindingNumberAlgorithm.Create with
          error_message_ := "Input polygon is not closed." }) :=
  not_closed_fails_f32 IWindingNumberAlgorithm.Create F32.zero F32.zero openTriangle rfl
    (by decide) (by decide)

/-- C3. On a non-empty polygon, `CalculateWindingNumber2D` returns no result if and only
if the polygon is not closed within the tolerance or every vertex is within the tolerance
of the first vertex in both coordinates (each difference and comparison being the one the
code computes); in the second case the diagnostic is "Insufficient geometry in polygon
for a meaningful result"; in every other case a value is returned. -/
theorem result_absent_iff_f32 (self : IWindingNumberAlgorithm) (x y : F32)
    (polygon : Polygon)
    (hlen : polygon.x_vec_.length = polygon.y_vec_.length)
    (hne : verticesOf polygon ≠ []) :
    ((∃ alg, CalculateWindingNumber2D self x y polygon = .ok (none, alg))
      ↔ (¬ (F32.le (F32.abs (F32.sub ((verticesOf polygon).head hne).x
                ((verticesOf polygon).getLast hne).x)) self.tolerance_ = true
            ∧ F32.le (F32.abs (F32.sub ((verticesOf polygon).head hne).y
                ((verticesOf polygon).getLast hne).y)) self.tolerance_ = true)
          ∨ ∀ v ∈ verticesOf polygon,
              F32.le (F32.abs (F32.sub ((verticesOf polygon).head hne).x v.x))
                  self.tolerance_ = true
              ∧ F32.le (F32.abs (F32.sub ((verticesOf polygon).head hne).y v.y))
                  self.tolerance_ = true))
    ∧ ((∀ v ∈ verticesOf polygon,
          F32.le (F32.abs (F32.sub ((verticesOf polygon).head hne).x v.x))
              self.tolerance_ = true
          ∧ F32.le (F32.abs (F32.sub ((verticesOf polygon).head hne).y v.y))
              self.tolerance_ = true) →
        CalculateWindingNumber2D self x y polygon
          = .ok (none, { self with error_message_ :=
              "Insufficient geometry in polygon for a meaningful result" }))
    ∧ (¬ (¬ (F32.le (F32.abs (F32.sub ((verticesOf polygon).head hne).x
                ((verticesOf polygon).getLast hne).x)) self.tolerance_ = true
            ∧ F32.le (F32.abs (F32.sub ((verticesOf polygon).head hne).y
                ((verticesOf polygon).getLast hne).y)) self.tolerance_ = true)
          ∨ ∀ v ∈ verticesOf polygon,
              F32.le (F32.abs (F32.sub ((verticesOf polygon).head hne).x v.x))
                  self.tolerance_ = true
              ∧ F32.le (F32.abs (F32.sub ((verticesOf polygon).head hne).y v.y))
                  self.tolerance_ = true) →
        ∃ n : Int, CalculateWindingNumber2D self x y polygon = .ok (some n, self)) := by
  obtain ⟨v0, rest, rfl⟩ := polygon_cases_f32 polygon hlen hne
  simp only [verticesOf_polygonOf_f32, List.head_cons, ← WithinTolerance_iff_f32]
  have hlast_mem : (v0 :: rest).getLast (List.cons_ne_nil _ _) ∈ v0 :: rest :=
    List.getLast_mem _
  by_cases hcl : WithinTolerance self.tolerance_ v0
      ((v0 :: rest).getLast (List.cons_ne_nil _ _)) = true
  · obtain ⟨hall, hsome⟩ := CalculateWindingNumber2D_closed_f32 self x y v0 rest hcl
    refine ⟨⟨?_, ?_⟩, fun h => hall h, ?_⟩
    · rintro ⟨alg, halg⟩
      right
      by_contra hnot
      obtain ⟨n, hn⟩ := hsome hnot
      rw [hn] at halg
      simp at halg
    · rintro (h | h)
      · exact absurd hcl h
      · exact ⟨_, hall h⟩
    · intro h
      exact hsome (fun h' => h (Or.inr h'))
  · have hnone : CalculateWindingNumber2D self x y (polygonOf (v0 :: rest))
        = .ok (none, self.set_error_message "Input polygon is not closed.") := by
      rw [CalculateWindingNumber2D_polygonOf_f32, if_pos]
      simpa using hcl
    refine ⟨⟨fun _ => Or.inl hcl, fun _ => ⟨_, hnone⟩⟩, fun h => ?_, fun h => ?_⟩
    · exact absurd (h _ hlast_mem) hcl
    · exact absurd (Or.inl hcl) h

/-- C3, at the polygon (0,0),(0,1e-7f),(1e-7f,1e-7f),(0,0) with tolerance 1e-6f: no
result, with the insufficient-geometry diagnostic. -/
theorem result_absent_iff_f32_witness :
    CalculateWindingNumber2D { tolerance_ := default_max_delta, error_message_ := "" }
        F32.zero F32.zero collapsedTriangle
      = .ok (none, { tolerance_ := default_max_delta, error_message_ :=
          "Insufficient geometry in polygon for a meaningful result" }) :=
  (result_absent_iff_f32 { tolerance_ := default_max_delta, error_message_ := "" }
      F32.zero F32.zero collapsedTriangle rfl (by decide)).2.1 (by decide)

/-- C13. For a non-empty polygon and any tolerance, `IsClosed(tolerance)` returns true
if and only if `std::abs(x_first - x_last) <= tolerance` and
`std::abs(y_first - y_last) <= tolerance`, each axis on its own and each difference the
binary32 one. -/
theorem IsClosed_iff_f32 (polygon : Polygon) (tolerance : F32)
    (hlen : polygon.x_vec_.length = polygon.y_vec_.length)
    (hne : verticesOf polygon ≠ []) :
    ∃ b : Bool, polygon.IsClosed tolerance = .ok b
      ∧ (b = true
        ↔ F32.le (F32.abs (F32.sub ((verticesOf polygon).head hne).x
              ((verticesOf polygon).getLast hne).x)) tolerance = true
          ∧ F32.le (F32.abs (F32.sub ((verticesOf polygon).head hne).y
              ((verticesOf polygon).getLast hne).y)) tolerance = true) := by
  obtain ⟨v0, rest, rfl⟩ := polygon_cases_f32 polygon hlen hne
  refine ⟨_, IsClosed_polygonOf_f32 (v0 :: rest) (List.cons_ne_nil _ _) tolerance, ?_⟩
  simp only [verticesOf_polygonOf_f32, WithinTolerance_iff_f32]

/-- C13, at the polygon (0,0),(1,0),(1,1),(0,1),(0,0): closed at tolerance 0. -/
theorem IsClosed_iff_f32_witness : unitSquare.IsClosed F32.zero = .ok true := by
  obtain ⟨b, hb, hiff⟩ := IsClosed_iff_f32 unitSquare F32.zero rfl (by decide)
  have : b = true := hiff.2 (by decide)
  rw [hb, this]

/-- C7 (counterexample). The triangle (2,93),(27,135),(47,17),(2,93) with tolerance 0 and
the point (0x1.437aeep+3, 0x1.aa7da8p+6) meets every condition of the claim: at least 3
vertices, the last equal to the first, no two consecutive vertices within the tolerance,
and every edge's cross product further than the internal epsilon from zero.
`CalculateWindingNumber2D` returns -1 for it and 0, not 1, for the reversed triangle: the
point is so close to the first edge that the rounded cross products of that edge and of
its reverse are both negative. On a second input, the polygon (inf,0),(0,1),(0,-1),(inf,0)
with tolerance 0 and the point (1, 1/2), the conditions hold as well and the call returns
no value at all, because `inf - inf` is NaN in `IsClosed`. -/
theorem reversal_negates_counterexample_f32 :
    F32.le F32.zero IWindingNumberAlgorithm.Create.tolerance_ = true
    ∧ 3 ≤ (verticesOf slantedTriangle).length
    ∧ (verticesOf slantedTriangle).getLast? = (verticesOf slantedTriangle).head?
    ∧ (∀ e ∈ consecutivePairs (verticesOf slantedTriangle),
        ¬ (F32.le (F32.abs (F32.sub e.1.x e.2.x)) IWindingNumberAlgorithm.Create.tolerance_
            = true
          ∧ F32.le (F32.abs (F32.sub e.1.y e.2.y)) IWindingNumberAlgorithm.Create.tolerance_
            = true))
    ∧ (∀ e ∈ consecutivePairs (verticesOf slantedTriangle),
        F32.le (F32.abs (F32.sub (CrossProduct e.1 e.2 nearFirstEdge) F32.zero))
          default_max_delta = false)
    ∧ CalculateWindingNumber2D IWindingNumberAlgorithm.Create nearFirstEdge.x
        nearFirstEdge.y slantedTriangle
      = .ok (some (-1), IWindingNumberAlgorithm.Create)
    ∧ CalculateWindingNumber2D IWindingNumberAlgorithm.Create nearFirstEdge.x
        nearFirstEdge.y
        { x_vec_ := slantedTriangle.x_vec_.reverse, y_vec_ := slantedTriangle.y_vec_.reverse }
      = .ok (some 0, IWindingNumberAlgorithm.Create)
    ∧ 3 ≤ (verticesOf infiniteFirstVertex).length
    ∧ (verticesOf infiniteFirstVertex).getLast? = (verticesOf infiniteFirstVertex).head?
    ∧ (∀ e ∈ consecutivePairs (verticesOf infiniteFirstVertex),
        ¬ (F32.le (F32.abs (F32.sub e.1.x e.2.x)) IWindingNumberAlgorithm.Create.tolerance_
            = true
          ∧ F32.le (F32.abs (F32.sub e.1.y e.2.y)) IWindingNumberAlgorithm.Create.tolerance_
            = true))
    ∧ (∀ e ∈ consecutivePairs (verticesOf infiniteFirstVertex),
        F32.le (F32.abs (F32.sub
            (CrossProduct e.1 e.2 { x := .finite 1 0, y := .finite 1 (-1) }) F32.zero))
          default_max_delta = false)
    ∧ CalculateWindingNumber2D IWindingNumberAlgorithm.Create (.finite 1 0) (.finite 1 (-1))
        infiniteFirstVertex
      = .ok (none, { IWindingNumberAlgorithm.Create with
          error_message_ := "Input polygon is not closed." })
    ∧ CalculateWindingNumber2D IWindingNumberAlgorithm.Create (.finite 1 0) (.finite 1 (-1))
        { x_vec_ := infiniteFirstVertex.x_vec_.reverse,
          y_vec_ := infiniteFirstVertex.y_vec_.reverse }
      = .ok (none, { IWindingNumberAlgorithm.Create with
          error_message_ := "Input polygon is not closed." }) := by
  decide

/-- C7 (amended). Orientation reversal negates the result, every quantity being the one
the code computes in binary32: for a tolerance `>= 0` and a polygon of at least 3 vertices
whose last vertex is exactly its first and whose first vertex has finite coordinates,
with no two consecutive vertices within the tolerance of each other, and such that for
every edge `a -> b` the cross product with `p` and the cross product of the reversed edge
`b -> a` with `p` are both further than the internal epsilon from zero and have opposite
signs (as they do in exact arithmetic), `CalculateWindingNumber2D` on the polygon with
its vertex sequence reversed returns the negation of the value returned for the original
polygon. -/
theorem reversal_negates_f32 (self : IWindingNumberAlgorithm) (x y : F32) (polygon : Polygon)
    (hlen : polygon.x_vec_.length = polygon.y_vec_.length)
    (htol : F32.le F32.zero self.tolerance_ = true)
    (h3 : 3 ≤ (verticesOf polygon).length)
    (hclosed : (verticesOf polygon).getLast? = (verticesOf polygon).head?)
    (hfin : ∀ v, (verticesOf polygon).head? = some v →
      v.x.isFinite = true ∧ v.y.isFinite = true)
    (hsep : ∀ e ∈ consecutivePairs (verticesOf polygon),
      ¬ (F32.le (F32.abs (F32.sub e.1.x e.2.x)) self.tolerance_ = true
        ∧ F32.le (F32.abs (F32.sub e.1.y e.2.y)) self.tolerance_ = true))
    (hcross : ∀ e ∈ consecutivePairs (verticesOf polygon),
      F32.le (F32.abs (F32.sub (CrossProduct e.1 e.2 { x := x, y := y }) F32.zero))
        default_max_delta = false)
    (hback : ∀ e ∈ consecutivePairs (verticesOf polygon),
      F32.le (F32.abs (F32.sub (CrossProduct e.2 e.1 { x := x, y := y }) F32.zero))
          default_max_delta = false
      ∧ F32.lt (CrossProduct e.2 e.1 { x := x, y := y }) F32.zero
          = F32.le F32.zero (CrossProduct e.1 e.2 { x := x, y := y })
      ∧ F32.le F32.zero (CrossProduct e.2 e.1 { x := x, y := y })
          = F32.lt (CrossProduct e.1 e.2 { x := x, y := y }) F32.zero) :
    ∃ n : Int,
      CalculateWindingNumber2D self x y polygon = .ok (some n, self)
      ∧ CalculateWindingNumber2D self x y
          { x_vec_ := polygon.x_vec_.reverse, y_vec_ := polygon.y_vec_.reverse }
        = .ok (some (-n), self) := by
  have hp := polygonOf_verticesOf_f32 polygon hlen
  have hsep' : ∀ e ∈ consecutivePairs (verticesOf polygon),
      WithinTolerance self.tolerance_ e.1 e.2 = false := by
    intro e he
    rw [← Bool.not_eq_true, WithinTolerance_iff_f32]
    exact hsep e he
  have hfin' : ∀ v, (verticesOf polygon).head? = some v → v.isFinite = true := by
    intro v hv
    obtain ⟨h1, h2⟩ := hfin v hv
    simp [Point.isFinite, h1, h2]
  have hboth : ∀ e ∈ consecutivePairs (verticesOf polygon),
      FuzzyEquals (CrossProduct e.1 e.2 { x := x, y := y }) F32.zero default_max_delta = false
      ∧ FuzzyEquals (CrossProduct e.2 e.1 { x := x, y := y }) F32.zero default_max_delta
          = false
      ∧ F32.lt (CrossProduct e.2 e.1 { x := x, y := y }) F32.zero
          = F32.le F32.zero (CrossProduct e.1 e.2 { x := x, y := y })
      ∧ F32.le F32.zero (CrossProduct e.2 e.1 { x := x, y := y })
          = F32.lt (CrossProduct e.1 e.2 { x := x, y := y }) F32.zero :=
    fun e he => ⟨hcross e he, hback e he⟩
  refine ⟨deltaSum { x := x, y := y } (consecutivePairs (verticesOf polygon)), ?_, ?_⟩
  · conv_lhs => rw [← hp]
    exact CalculateWindingNumber2D_noskip_f32 self x y _ (by omega) htol hfin' hclosed hsep'
  · have hrev : ({ x_vec_ := polygon.x_vec_.reverse, y_vec_ := polygon.y_vec_.reverse }
        : Polygon) = polygonOf (verticesOf polygon).reverse := by
      rw [polygonOf_reverse_f32, hp]
    rw [hrev, ← deltaSum_swap_reverse_f32 _ _ hboth, ← consecutivePairs_reverse_f32]
    apply CalculateWindingNumber2D_noskip_f32 self x y _ (by simp; omega) htol
    · intro v hv
      rw [List.head?_reverse, hclosed] at hv
      exact hfin' v hv
    · rw [List.getLast?_reverse, List.head?_reverse, hclosed]
    · intro e he
      rw [consecutivePairs_reverse_f32, List.mem_reverse, List.mem_map] at he
      obtain ⟨e', he', rfl⟩ := he
      simp only [Prod.fst_swap, Prod.snd_swap]
      rw [WithinTolerance_comm_f32]
      exact hsep' e' he'

/-- C7 (amended), at the unit square and the point (1/2, 1/2) with tolerance 0: the
square gives 1 and the reversed square gives -1. -/
theorem reversal_negates_f32_witness :
    CalculateWindingNumber2D IWindingNumberAlgorithm.Create (.finite 1 (-1)) (.finite 1 (-1))
        unitSquare
        = .ok (some 1, IWindingNumberAlgorithm.Create)
    ∧ CalculateWindingNumber2D IWindingNumberAlgorithm.Create (.finite 1 (-1))
          (.finite 1 (-1))
          { x_vec_ := unitSquare.x_vec_.reverse, y_vec_ := unitSquare.y_vec_.reverse }
        = .ok (some (-1), IWindingNumberAlgorithm.Create) := by
  obtain ⟨n, h1, h2⟩ := reversal_negates_f32 IWindingNumberAlgorithm.Create (.finite 1 (-1))
    (.finite 1 (-1)) unitSquare rfl (by decide) (by decide) (by decide) (by decide)
    (by decide) (by decide) (by decide)
  have h0 : CalculateWindingNumber2D IWindingNumberAlgorithm.Create (.finite 1 (-1))
      (.finite 1 (-1)) unitSquare = .ok (some 1, IWindingNumberAlgorithm.Create) := by
    decide
  have hn : n = 1 := by
    rw [h0] at h1
    simpa using h1.symm
  subst hn
  exact ⟨h1, h2⟩

/-- C8 (counterexample). The polygon (inf,0),(1,0),(inf,0) with tolerance 0 and `k = 1`
meets every condition of the claim (3 vertices, the last equal to the first, no two
consecutive vertices within the tolerance, `0 <= k < 2`). On the polygon itself
`CalculateWindingNumber2D` fails with the not-closed diagnostic, because `inf - inf` is
NaN; on its rotation (1,0),(inf,0),(1,0) it returns the value 0. -/
theorem rotation_invariant_counterexample_f32 :
    F32.le F32.zero IWindingNumberAlgorithm.Create.tolerance_ = true
    ∧ 3 ≤ (verticesOf infiniteSpike).length
    ∧ (verticesOf infiniteSpike).getLast? = (verticesOf infiniteSpike).head?
    ∧ (∀ e ∈ consecutivePairs (verticesOf infiniteSpike),
        ¬ (F32.le (F32.abs (F32.sub e.1.x e.2.x)) IWindingNumberAlgorithm.Create.tolerance_
            = true
          ∧ F32.le (F32.abs (F32.sub e.1.y e.2.y)) IWindingNumberAlgorithm.Create.tolerance_
            = true))
    ∧ 1 < (verticesOf infiniteSpike).length - 1
    ∧ CalculateWindingNumber2D IWindingNumberAlgorithm.Create F32.zero F32.zero infiniteSpike
      = .ok (none, { IWindingNumberAlgorithm.Create with
          error_message_ := "Input polygon is not closed." })
    ∧ CalculateWindingNumber2D IWindingNumberAlgorithm.Create F32.zero F32.zero
        { x_vec_ := cyclicRotation 1 infiniteSpike.x_vec_,
          y_vec_ := cyclicRotation 1 infiniteSpike.y_vec_ }
      = .ok (some 0, IWindingNumberAlgorithm.Create) := by
  decide

/-- C8 (amended). Rotation invariance, every quantity being the one the code computes in
binary32: for a tolerance `>= 0`, a polygon `v 0, ..., v (n-1)` with `n >= 3` whose last
vertex is exactly its first, whose vertices all have finite coordinates and in which no
two consecutive vertices are within the tolerance of each other, and every `k < n - 1`,
`CalculateWindingNumber2D` on the cyclic rotation `v k, ..., v (n-2), v 0, ..., v k`
returns the same result as on the original polygon. -/
theorem rotation_invariant_f32 (self : IWindingNumberAlgorithm) (x y : F32)
    (polygon : Polygon) (k : Nat)
    (hlen : polygon.x_vec_.length = polygon.y_vec_.length)
    (htol : F32.le F32.zero self.tolerance_ = true)
    (h3 : 3 ≤ (verticesOf polygon).length)
    (hclosed : (verticesOf polygon).getLast? = (verticesOf polygon).head?)
    (hfin : ∀ v ∈ verticesOf polygon, v.x.isFinite = true ∧ v.y.isFinite = true)
    (hsep : ∀ e ∈ consecutivePairs (verticesOf polygon),
      ¬ (F32.le (F32.abs (F32.sub e.1.x e.2.x)) self.tolerance_ = true
        ∧ F32.le (F32.abs (F32.sub e.1.y e.2.y)) self.tolerance_ = true))
    (hk : k < (verticesOf polygon).length - 1) :
    CalculateWindingNumber2D self x y
        { x_vec_ := cyclicRotation k polygon.x_vec_, y_vec_ := cyclicRotation k polygon.y_vec_ }
      = CalculateWindingNumber2D self x y polygon := by
  have hp := polygonOf_verticesOf_f32 polygon hlen
  have _ := h3
  have hsep' : ∀ e ∈ consecutivePairs (verticesOf polygon),
      WithinTolerance self.tolerance_ e.1 e.2 = false := by
    intro e he
    rw [← Bool.not_eq_true, WithinTolerance_iff_f32]
    exact hsep e he
  have hfin' : ∀ v ∈ verticesOf polygon, v.isFinite = true := by
    intro v hv
    obtain ⟨h1, h2⟩ := hfin v hv
    simp [Point.isFinite, h1, h2]
  have hrot : (Polygon.mk (cyclicRotation k polygon.x_vec_) (cyclicRotation k polygon.y_vec_))
      = polygonOf (cyclicRotation k (verticesOf polygon)) := by
    rw [polygonOf_cyclicRotation_f32, hp]
  rw [hrot]
  conv_rhs => rw [← hp]
  obtain ⟨L, R, T, m, v0, hvs, hL, hT⟩ := closed_split_f32 (verticesOf polygon) k hk hclosed
  rw [hvs] at hsep' hfin' ⊢
  rw [← hL, cyclicRotation_decomposed]
  obtain ⟨hp1, hp2⟩ := consecutivePairs_rotation_f32 L R T m v0 hT
  rw [CalculateWindingNumber2D_noskip_f32 self x y ((L ++ m :: R) ++ [v0]) (by simp; omega) htol
      (fun v hv => hfin' v (List.mem_of_mem_head? hv))
      (getLast?_eq_head?_of_split_f32 L R T m v0 hT) hsep',
    CalculateWindingNumber2D_noskip_f32 self x y ((m :: R) ++ (L ++ [m])) (by simp; omega) htol
      (by
        intro v hv
        simp only [List.cons_append, List.head?_cons, Option.some.injEq] at hv
        subst hv
        exact hfin' _ (by simp))
      (by
        rw [show (m :: R) ++ (L ++ [m]) = ((m :: R) ++ L) ++ [m] by simp,
          List.getLast?_concat]
        rfl)
      (by
        intro e he
        apply hsep' e
        rw [hp2, List.mem_append] at he
        rw [hp1, List.mem_append]
        exact he.symm),
    hp1, hp2, deltaSum_append_f32, deltaSum_append_f32, add_comm]

/-- C8 (amended), at the unit square, the point (1/2, 1/2), tolerance 0 and `k = 2`: the
square started at (1,1) gives the same result. -/
theorem rotation_invariant_f32_witness :
    CalculateWindingNumber2D IWindingNumberAlgorithm.Create (.finite 1 (-1)) (.finite 1 (-1))
        { x_vec_ := [.finite 1 0, .finite 0 0, .finite 0 0, .finite 1 0, .finite 1 0],
          y_vec_ := [.finite 1 0, .finite 1 0, .finite 0 0, .finite 0 0, .finite 1 0] }
      = CalculateWindingNumber2D IWindingNumberAlgorithm.Create (.finite 1 (-1))
          (.finite 1 (-1)) unitSquare :=
  rotation_invariant_f32 IWindingNumberAlgorithm.Create (.finite 1 (-1)) (.finite 1 (-1))
    unitSquare 2 rfl (by decide) (by decide) (by decide) (by decide) (by decide) (by decide)

/-- C10 (counterexample). With tolerance 0, the edge (0,-3e38f) -> (0,3e38f) and the
point (0,0) meet every condition of the claim (`a.x = b.x`, `a.y < b.y`, the endpoints are
not within the tolerance of each other, `p.x = a.x`, `a.y < p.y < b.y`), and the loop body
leaves the winding number as it was: `b.y - a.y` overflows to `inf`, `inf * 0` is NaN, so
the cross product is NaN and neither the special case nor the general rule counts the
edge. The same happens on the edge (inf,0) -> (inf,2) with the point (inf,1), where
`b.x - a.x` is `inf - inf`, a NaN. -/
theorem upward_vertical_edge_counterexample_f32 :
    F32.le F32.zero F32.zero = true
    ∧ tallEdgeState.a.x = tallEdgeEnd.x
    ∧ F32.lt tallEdgeState.a.y tallEdgeEnd.y = true
    ∧ ¬ (F32.le (F32.abs (F32.sub tallEdgeState.a.x tallEdgeEnd.x)) F32.zero = true
        ∧ F32.le (F32.abs (F32.sub tallEdgeState.a.y tallEdgeEnd.y)) F32.zero = true)
    ∧ origin.x = tallEdgeState.a.x
    ∧ F32.lt tallEdgeState.a.y origin.y = true
    ∧ F32.lt origin.y tallEdgeEnd.y = true
    ∧ (loopBody F32.zero origin tallEdgeState tallEdgeEnd).winding_number
        = tallEdgeState.winding_number
    ∧ (loopBody F32.zero origin tallEdgeState tallEdgeEnd).winding_number
        ≠ tallEdgeState.winding_number + 1
    ∧ infiniteEdgeState.a.x = infiniteEdgeEnd.x
    ∧ F32.lt infiniteEdgeState.a.y infiniteEdgeEnd.y = true
    ∧ ¬ (F32.le (F32.abs (F32.sub infiniteEdgeState.a.x infiniteEdgeEnd.x)) F32.zero = true
        ∧ F32.le (F32.abs (F32.sub infiniteEdgeState.a.y infiniteEdgeEnd.y)) F32.zero = true)
    ∧ infiniteEdgeMiddle.x = infiniteEdgeState.a.x
    ∧ F32.lt infiniteEdgeState.a.y infiniteEdgeMiddle.y = true
    ∧ F32.lt infiniteEdgeMiddle.y infiniteEdgeEnd.y = true
    ∧ (loopBody F32.zero infiniteEdgeMiddle infiniteEdgeState infiniteEdgeEnd).winding_number
        = infiniteEdgeState.winding_number
    ∧ (loopBody F32.zero infiniteEdgeMiddle infiniteEdgeState infiniteEdgeEnd).winding_number
        ≠ infiniteEdgeState.winding_number + 1 := by
  decide

/-- C10 (amended). Point on an upward vertical edge, every quantity being the one the code
computes in binary32: for a tolerance `>= 0`, an edge `a -> b` with `a.x = b.x` finite
and `a.y < b.y` whose endpoints are not within the tolerance of each other and for which
the differences `b.y - a.y` and `p.y - b.y` do not overflow, and a point `p` with
`p.x = a.x` and `a.y < p.y < b.y`, the loop body leaves the winding number at its
previous value plus 1. -/
theorem upward_vertical_edge_adds_one_f32 (tolerance : F32) (p : Point) (s : LoopState)
    (b : Point)
    (htol : F32.le F32.zero tolerance = true)
    (hx : s.a.x = b.x) (hy : F32.lt s.a.y b.y = true)
    (hsep : ¬ (F32.le (F32.abs (F32.sub s.a.x b.x)) tolerance = true
      ∧ F32.le (F32.abs (F32.sub s.a.y b.y)) tolerance = true))
    (hpx : p.x = s.a.x) (hpy : F32.lt s.a.y p.y = true ∧ F32.lt p.y b.y = true)
    (hfin : s.a.x.isFinite = true)
    (hdy : (F32.sub b.y s.a.y).isFinite = true)
    (hdp : (F32.sub p.y b.y).isFinite = true) :
    (loopBody tolerance p s b).winding_number = s.winding_number + 1 := by
  have _ := htol
  have hw : WithinTolerance tolerance s.a b = false := by
    rw [← Bool.not_eq_true, WithinTolerance_iff_f32]; exact hsep
  have hbfin : b.x.isFinite = true := by rw [← hx]; exact hfin
  have hc : CrossProduct s.a b p = F32.zero := by
    unfold CrossProduct
    rw [hpx, hx, F32.sub_self_of_isFinite_f32 _ hbfin, F32.mul_zero_left_f32 _ hdp,
      F32.mul_zero_right_f32 _ hdy, F32.sub_self_of_isFinite_f32 F32.zero rfl]
  have hzero : F32.le (F32.abs (F32.sub F32.zero F32.zero)) default_max_delta = true := by
    decide
  have hspecial : (FuzzyEquals (CrossProduct s.a b p) F32.zero default_max_delta
      && FuzzyEquals s.a.x b.x default_max_delta && F32.lt s.a.y b.y
      && F32.le p.y b.y && F32.le s.a.y p.y) = true := by
    rw [hc]
    simp only [FuzzyEquals, hzero, hx, F32.sub_self_of_isFinite_f32 _ hbfin, hy,
      F32.le_of_lt_f32 _ _ hpy.1, F32.le_of_lt_f32 _ _ hpy.2, Bool.and_self]
    decide
  unfold loopBody
  simp only [hw, Bool.false_eq_true, if_false, hspecial, if_true]

/-- C10 (amended), at the right edge (1,0) -> (1,1) of the unit square, the point
(1, 1/2) and tolerance 0, from a winding number of 0. -/
theorem upward_vertical_edge_adds_one_f32_witness :
    (loopBody F32.zero { x := .finite 1 0, y := .finite 1 (-1) }
        { a := { x := .finite 1 0, y := .finite 0 0 }, a_left_or_on_p := true,
          winding_number := 0, evaluated_edge_count := 1 }
        { x := .finite 1 0, y := .finite 1 0 }).winding_number = 0 + 1 :=
  upward_vertical_edge_adds_one_f32 F32.zero { x := .finite 1 0, y := .finite 1 (-1) }
    { a := { x := .finite 1 0, y := .finite 0 0 }, a_left_or_on_p := true,
      winding_number := 0, evaluated_edge_count := 1 }
    { x := .finite 1 0, y := .finite 1 0 } (by decide) rfl (by decide) (by decide)
    rfl (by decide) (by decide) (by decide) (by decide)

/-- C11 (counterexample). With tolerance 1, the edge (0,0) -> (1/2,10) and the point
(1/4,5) on it satisfy every condition of the claim (the edge is not skipped, the cross
product is 0, `|a.x - b.x| = 1/2 <= 1`, `a.y < b.y`, `a.y <= p.y <= b.y`), and the loop
body leaves the winding number at 0: the x-equality test of the special case uses the
internal epsilon, not the tolerance. Every operation on these values is exact in
binary32. -/
theorem special_case_tolerance_counterexample_f32 :
    F32.le F32.zero (.finite 1 0) = true
    ∧ WithinTolerance (.finite 1 0) { x := .finite 0 0, y := .finite 0 0 }
        { x := .finite 1 (-1), y := .finite 5 1 } = false
    ∧ F32.le (F32.abs (F32.sub
          (CrossProduct { x := .finite 0 0, y := .finite 0 0 }
            { x := .finite 1 (-1), y := .finite 5 1 }
            { x := .finite 1 (-2), y := .finite 5 0 }) F32.zero)) default_max_delta = true
    ∧ F32.le (F32.abs (F32.sub (.finite 0 0) (.finite 1 (-1)))) (.finite 1 0) = true
    ∧ F32.lt (.finite 0 0) (.finite 5 1) = true
    ∧ F32.le (.finite 0 0) (.finite 5 0) = true
    ∧ F32.le (.finite 5 0) (.finite 5 1) = true
    ∧ (loopBody (.finite 1 0) { x := .finite 1 (-2), y := .finite 5 0 }
        { a := { x := .finite 0 0, y := .finite 0 0 }, a_left_or_on_p := true,
          winding_number := 0, evaluated_edge_count := 0 }
        { x := .finite 1 (-1), y := .finite 5 1 }).winding_number = 0
    ∧ (loopBody (.finite 1 0) { x := .finite 1 (-2), y := .finite 5 0 }
        { a := { x := .finite 0 0, y := .finite 0 0 }, a_left_or_on_p := true,
          winding_number := 0, evaluated_edge_count := 0 }
        { x := .finite 1 (-1), y := .finite 5 1 }).winding_number ≠ 0 + 1 := by
  decide

/-- C11 (amended). For every tolerance `>= 0`, every edge `a -> b` that is not skipped
as degenerate and every point `p` such that the cross product the code computes is within
the internal epsilon of zero, `|a.x - b.x|` is within the internal epsilon (not the
tolerance), `a.y < b.y` and `a.y <= p.y <= b.y`, the loop body increments the winding
number by exactly 1. Every difference and comparison is the binary32 one; a cross product
that is NaN is not within the internal epsilon of zero. -/
theorem special_case_uses_internal_epsilon_f32 (tolerance : F32) (p : Point) (s : LoopState)
    (b : Point)
    (htol : F32.le F32.zero tolerance = true)
    (hsep : ¬ (F32.le (F32.abs (F32.sub s.a.x b.x)) tolerance = true
      ∧ F32.le (F32.abs (F32.sub s.a.y b.y)) tolerance = true))
    (hcross : F32.le (F32.abs (F32.sub (CrossProduct s.a b p) F32.zero)) default_max_delta
      = true)
    (hx : F32.le (F32.abs (F32.sub s.a.x b.x)) default_max_delta = true)
    (hy : F32.lt s.a.y b.y = true)
    (hpy : F32.le s.a.y p.y = true ∧ F32.le p.y b.y = true) :
    (loopBody tolerance p s b).winding_number = s.winding_number + 1 := by
  have _ := htol
  have hw : WithinTolerance tolerance s.a b = false := by
    rw [← Bool.not_eq_true, WithinTolerance_iff_f32]; exact hsep
  have hspecial : (FuzzyEquals (CrossProduct s.a b p) F32.zero default_max_delta
      && FuzzyEquals s.a.x b.x default_max_delta && F32.lt s.a.y b.y
      && F32.le p.y b.y && F32.le s.a.y p.y) = true := by
    simp only [FuzzyEquals, hcross, hx, hy, hpy.1, hpy.2, Bool.and_self]
  unfold loopBody
  simp only [hw, Bool.false_eq_true, if_false, hspecial, if_true]

/-- C11 (amended), at tolerance 1/2, the edge (0,0) -> (2^-24, 10) and the point (0, 5),
from a winding number of 0: the cross product is `5 * 2^-24`, within `1e-6f` of zero. -/
theorem special_case_uses_internal_epsilon_f32_witness :
    (loopBody (.finite 1 (-1)) { x := .finite 0 0, y := .finite 5 0 }
        { a := { x := .finite 0 0, y := .finite 0 0 }, a_left_or_on_p := true,
          winding_number := 0, evaluated_edge_count := 0 }
        { x := .finite 1 (-24), y := .finite 5 1 }).winding_number = 0 + 1 :=
  special_case_uses_internal_epsilon_f32 (.finite 1 (-1))
    { x := .finite 0 0, y := .finite 5 0 }
    { a := { x := .finite 0 0, y := .finite 0 0 }, a_left_or_on_p := true,
      winding_number := 0, evaluated_edge_count := 0 }
    { x := .finite 1 (-24), y := .finite 5 1 } (by decide) (by decide) (by decide)
    (by decide) (by decide) (by decide)

/-- The call `ClosePolygon` on a non-empty polygon of binary32 coordinates whose first
vertex is finite: nothing changes when the last vertex is the first, and otherwise a copy
of the first vertex is appended. -/
theorem ClosePolygon_of_finite_f32 (v0 : Point) (rest : List Point)
    (hvalid : ∀ v ∈ v0 :: rest, v.x.isValid = true ∧ v.y.isValid = true)
    (hfin : v0.isFinite = true) :
    (polygonOf (v0 :: rest)).ClosePolygon
      = if (v0 :: rest).getLast (List.cons_ne_nil _ _) = v0 then .ok (polygonOf (v0 :: rest))
        else .ok (polygonOf ((v0 :: rest) ++ [v0])) := by
  have h0 := hvalid v0 (List.mem_cons_self _ _)
  have hl := hvalid _ (List.getLast_mem (List.cons_ne_nil v0 rest))
  have hiff := WithinTolerance_zero_iff_f32 v0 ((v0 :: rest).getLast (List.cons_ne_nil _ _))
    h0.1 h0.2 hl.1 hl.2
  rw [ClosePolygon_polygonOf_cons_f32]
  by_cases h : (v0 :: rest).getLast (List.cons_ne_nil _ _) = v0
  · rw [if_pos h, if_pos (hiff.2 ⟨h.symm, hfin⟩)]
  · rw [if_neg h, if_neg (fun hw => h (hiff.1 hw).1.symm)]

/-- C14 (counterexample). The polygon with the single vertex (inf,0) has its first and
last vertices exactly equal, yet `ClosePolygon` appends a copy of the vertex, and a second
call appends another one: `inf - inf` is NaN, so `IsClosed()` is false on every call. -/
theorem ClosePolygon_idempotent_counterexample_f32 :
    (verticesOf infinitePoint).getLast? = (verticesOf infinitePoint).head?
    ∧ infinitePoint.ClosePolygon = .ok (infinitePoint.AppendPoint (.inf false) (.finite 0 0))
    ∧ infinitePoint.ClosePolygon ≠ .ok infinitePoint
    ∧ (infinitePoint.AppendPoint (.inf false) (.finite 0 0)).ClosePolygon
        = .ok ((infinitePoint.AppendPoint (.inf false) (.finite 0 0)).AppendPoint
            (.inf false) (.finite 0 0))
    ∧ (infinitePoint.AppendPoint (.inf false) (.finite 0 0)).ClosePolygon
        ≠ .ok (infinitePoint.AppendPoint (.inf false) (.finite 0 0)) := by
  decide

/-- C14 (amended). `ClosePolygon` is idempotent on every polygon of binary32 coordinates
that is empty or whose first vertex has finite coordinates: it leaves the polygon
unchanged when the polygon is empty or its first and last vertices are exactly equal,
otherwise it appends exactly one copy of the first vertex; and calling it on its own
result changes nothing. -/
theorem ClosePolygon_idempotent_f32 (polygon : Polygon)
    (hlen : polygon.x_vec_.length = polygon.y_vec_.length)
    (hvalid : ∀ v ∈ verticesOf polygon, v.x.isValid = true ∧ v.y.isValid = true)
    (hfin : ∀ v, (verticesOf polygon).head? = some v →
      v.x.isFinite = true ∧ v.y.isFinite = true) :
    ((verticesOf polygon = [] ∨ (verticesOf polygon).getLast? = (verticesOf polygon).head?) →
        polygon.ClosePolygon = .ok polygon)
    ∧ (∀ v0 : Point, (verticesOf polygon).head? = some v0 →
        (verticesOf polygon).getLast? ≠ some v0 →
        polygon.ClosePolygon = .ok (polygon.AppendPoint v0.x v0.y))
    ∧ (∃ closed : Polygon, polygon.ClosePolygon = .ok closed
        ∧ closed.ClosePolygon = .ok closed) := by
  have hp := polygonOf_verticesOf_f32 polygon hlen
  cases hv : verticesOf polygon with
  | nil =>
    rw [hv] at hp
    subst hp
    refine ⟨fun _ => rfl, fun v0 h => by simp at h, ⟨_, rfl, rfl⟩⟩
  | cons v0 rest =>
    rw [hv] at hp hvalid hfin
    subst hp
    have hfin0 : v0.isFinite = true := by
      obtain ⟨h1, h2⟩ := hfin v0 rfl
      simp [Point.isFinite, h1, h2]
    have hcall := ClosePolygon_of_finite_f32 v0 rest hvalid hfin0
    refine ⟨?_, ?_, ?_⟩
    · rintro (h | h)
      · exact absurd h (List.cons_ne_nil _ _)
      · rw [List.head?_cons, getLast?_ne_of_getLast_ne_f32] at h
        rw [hcall, if_pos h]
    · intro v h hne
      simp only [List.head?_cons, Option.some.injEq] at h
      subst h
      rw [Ne, getLast?_ne_of_getLast_ne_f32] at hne
      rw [hcall, if_neg hne, polygonOf_append_singleton_f32]
    · by_cases h : (v0 :: rest).getLast (List.cons_ne_nil _ _) = v0
      · rw [hcall, if_pos h]
        exact ⟨_, rfl, by rw [hcall, if_pos h]⟩
      · rw [hcall, if_neg h]
        refine ⟨_, rfl, ?_⟩
        have h2 := ClosePolygon_polygonOf_cons_f32 v0 (rest ++ [v0])
        have hlast : (v0 :: (rest ++ [v0])).getLast (List.cons_ne_nil _ _) = v0 := by
          rw [← getLast?_ne_of_getLast_ne_f32, ← List.cons_append, List.getLast?_concat]
        rw [hlast, if_pos (WithinTolerance_self_f32 _ _ hfin0 (by decide))] at h2
        exact h2

/-- C14 (amended), at the open polygon (0,0),(1,0),(1,1): the first call appends (0,0),
the second call changes nothing. -/
theorem ClosePolygon_idempotent_f32_witness :
    openTriangle.ClosePolygon = .ok (openTriangle.AppendPoint (.finite 0 0) (.finite 0 0))
    ∧ (openTriangle.AppendPoint (.finite 0 0) (.finite 0 0)).ClosePolygon
        = .ok (openTriangle.AppendPoint (.finite 0 0) (.finite 0 0)) :=
  ⟨(ClosePolygon_idempotent_f32 openTriangle rfl (by decide) (by decide)).2.1
      { x := .finite 0 0, y := .finite 0 0 } (by decide) (by decide),
    (ClosePolygon_idempotent_f32 (openTriangle.AppendPoint (.finite 0 0) (.finite 0 0)) rfl
      (by decide) (by decide)).1 (Or.inr (by decide))⟩

/-- C15 (counterexample). On the non-empty polygon with the single vertex (inf,0),
`ClosePolygon` returns (inf,0),(inf,0), whose last vertex equals its first; yet
`IsClosed(1)` is false on it and `CalculateWindingNumber2D` with tolerance 1 fails on it
with the not-closed diagnostic, because `inf - inf` is NaN. -/
theorem ClosePolygon_closes_counterexample_f32 :
    verticesOf infinitePoint ≠ []
    ∧ infinitePoint.ClosePolygon = .ok (infinitePoint.AppendPoint (.inf false) (.finite 0 0))
    ∧ (verticesOf (infinitePoint.AppendPoint (.inf false) (.finite 0 0))).getLast?
        = (verticesOf (infinitePoint.AppendPoint (.inf false) (.finite 0 0))).head?
    ∧ F32.le F32.zero (.finite 1 0) = true
    ∧ (infinitePoint.AppendPoint (.inf false) (.finite 0 0)).IsClosed (.finite 1 0)
        = .ok false
    ∧ CalculateWindingNumber2D { tolerance_ := .finite 1 0, error_message_ := "" }
        F32.zero F32.zero (infinitePoint.AppendPoint (.inf false) (.finite 0 0))
      = .ok (none, { tolerance_ := .finite 1 0,
                     error_message_ := "Input polygon is not closed." }) := by
  decide

/-- C15 (amended). On a non-empty polygon of binary32 coordinates whose first vertex has
finite coordinates, `ClosePolygon` returns the polygon itself when its last vertex is
exactly its first, and otherwise the polygon with one copy of its first vertex appended;
the last vertex of the result equals its first exactly, `IsClosed(tol)` is true on it for
every `tol >= 0`, and for every configured tolerance `>= 0` `CalculateWindingNumber2D`
on it either returns a value or fails with the insufficient-geometry diagnostic, never
with the not-closed one. -/
theorem ClosePolygon_closes_f32 (polygon : Polygon)
    (hlen : polygon.x_vec_.length = polygon.y_vec_.length)
    (hne : verticesOf polygon ≠ [])
    (hvalid : ∀ v ∈ verticesOf polygon, v.x.isValid = true ∧ v.y.isValid = true)
    (hfin : (((verticesOf polygon).head hne).x).isFinite = true
      ∧ (((verticesOf polygon).head hne).y).isFinite = true) :
    ∃ closed : Polygon, polygon.ClosePolygon = .ok closed
      ∧ closed
          = (if (verticesOf polygon).getLast hne = (verticesOf polygon).head hne then polygon
             else polygon.AppendPoint ((verticesOf polygon).head hne).x
               ((verticesOf polygon).head hne).y)
      ∧ (verticesOf closed).head? = some ((verticesOf polygon).head hne)
      ∧ (verticesOf closed).getLast? = some ((verticesOf polygon).head hne)
      ∧ (∀ tol : F32, F32.le F32.zero tol = true → closed.IsClosed tol = .ok true)
      ∧ (∀ (self : IWindingNumberAlgorithm) (x y : F32),
          F32.le F32.zero self.tolerance_ = true →
          ((∃ n : Int, CalculateWindingNumber2D self x y closed = .ok (some n, self))
            ∨ CalculateWindingNumber2D self x y closed
                = .ok (none, { self with error_message_ :=
                    "Insufficient geometry in polygon for a meaningful result" }))
          ∧ CalculateWindingNumber2D self x y closed
              ≠ .ok (none, { self with error_message_ := "Input polygon is not closed." })) := by
  obtain ⟨v0, rest, rfl⟩ := polygon_cases_f32 polygon hlen hne
  simp only [verticesOf_polygonOf_f32, List.head_cons] at hvalid hfin ⊢
  have hfin0 : v0.isFinite = true := by
    simp [Point.isFinite, hfin.1, hfin.2]
  have hcall := ClosePolygon_of_finite_f32 v0 rest hvalid hfin0
  -- the closed polygon is `v0 :: rest'` with last vertex `v0`
  obtain ⟨rest', hres, hlast⟩ : ∃ rest' : List Point,
      (if (v0 :: rest).getLast (List.cons_ne_nil _ _) = v0 then polygonOf (v0 :: rest)
        else (polygonOf (v0 :: rest)).AppendPoint v0.x v0.y) = polygonOf (v0 :: rest')
      ∧ (v0 :: rest').getLast (List.cons_ne_nil _ _) = v0 := by
    by_cases h : (v0 :: rest).getLast (List.cons_ne_nil _ _) = v0
    · exact ⟨rest, by rw [if_pos h], h⟩
    · refine ⟨rest ++ [v0], by rw [if_neg h, ← polygonOf_append_singleton_f32]; rfl, ?_⟩
      rw [← getLast?_ne_of_getLast_ne_f32, ← List.cons_append, List.getLast?_concat]
  refine ⟨_, ?_, rfl, ?_⟩
  · rw [hcall]
    by_cases h : (v0 :: rest).getLast (List.cons_ne_nil _ _) = v0
    · rw [if_pos h, if_pos h]
    · rw [if_neg h, if_neg h, polygonOf_append_singleton_f32]
  rw [hres]
  refine ⟨?_, ?_, ?_, ?_⟩
  · rw [verticesOf_polygonOf_f32, List.head?_cons]
  · rw [verticesOf_polygonOf_f32, getLast?_ne_of_getLast_ne_f32]; exact hlast
  · intro tol htol
    rw [IsClosed_polygonOf_f32 (v0 :: rest') (List.cons_ne_nil _ _), List.head_cons, hlast,
      WithinTolerance_self_f32 _ _ hfin0 htol]
  · intro self x y htol
    have hcl : WithinTolerance self.tolerance_ v0
        ((v0 :: rest').getLast (List.cons_ne_nil _ _)) = true := by
      rw [hlast]; exact WithinTolerance_self_f32 _ _ hfin0 htol
    obtain ⟨hall, hsome⟩ := CalculateWindingNumber2D_closed_f32 self x y v0 rest' hcl
    by_cases hnear : ∀ v ∈ v0 :: rest', WithinTolerance self.tolerance_ v0 v = true
    · have hres := hall hnear
      refine ⟨Or.inr hres, ?_⟩
      rw [hres]
      intro heq
      have hmsg : ("Insufficient geometry in polygon for a meaningful result" : String)
          = "Input polygon is not closed." :=
        congrArg (fun r => r.2.error_message_) (Except.ok.inj heq)
      exact absurd hmsg (by decide)
    · obtain ⟨n, hn⟩ := hsome hnear
      refine ⟨Or.inl ⟨n, hn⟩, ?_⟩
      rw [hn]
      intro heq
      have := congrArg (fun r => r.1) (Except.ok.inj heq)
      simp at this

/-- C15 (amended), at the open polygon (0,0),(1,0),(1,1): `ClosePolygon` returns
(0,0),(1,0),(1,1),(0,0), which is closed at tolerance 0, and the call with tolerance 0 at
the point (0,0) does not report "not closed". -/
theorem ClosePolygon_closes_f32_witness :
    openTriangle.ClosePolygon
        = .ok (openTriangle.AppendPoint (.finite 0 0) (.finite 0 0))
    ∧ (openTriangle.AppendPoint (.finite 0 0) (.finite 0 0)).IsClosed F32.zero = .ok true
    ∧ CalculateWindingNumber2D IWindingNumberAlgorithm.Create F32.zero F32.zero
          (openTriangle.AppendPoint (.finite 0 0) (.finite 0 0))
        ≠ .ok (none, { IWindingNumberAlgorithm.Create with
            error_message_ := "Input polygon is not closed." }) := by
  obtain ⟨closed, hcall, hEq, _, _, hclosed, hwn⟩ :=
    ClosePolygon_closes_f32 openTriangle rfl (by decide) (by decide) (by decide)
  have hc : closed = openTriangle.AppendPoint (.finite 0 0) (.finite 0 0) := by
    rw [hEq]; decide
  subst hc
  exact ⟨hcall, hclosed F32.zero (by decide),
    (hwn IWindingNumberAlgorithm.Create F32.zero F32.zero (by decide)).2⟩

/-- C22 (counterexample). With tolerance 0 and `P = Q =` (inf,0),(1,0),(inf,0), both
polygons meet every condition of the claim (3 vertices, last vertex equal to the first,
the same first vertex, no two consecutive vertices within the tolerance), and
`CalculateWindingNumber2D` returns no value for `P`, for `Q` or for `P` followed by the
vertices of `Q` after its first: `inf - inf` is NaN, so none of them is closed for
`IsClosed`. -/
theorem concatenated_loops_counterexample_f32 :
    F32.le F32.zero IWindingNumberAlgorithm.Create.tolerance_ = true
    ∧ 3 ≤ (verticesOf infiniteSpike).length
    ∧ (verticesOf infiniteSpike).getLast? = (verticesOf infiniteSpike).head?
    ∧ (∀ e ∈ consecutivePairs (verticesOf infiniteSpike),
        ¬ (F32.le (F32.abs (F32.sub e.1.x e.2.x)) IWindingNumberAlgorithm.Create.tolerance_
            = true
          ∧ F32.le (F32.abs (F32.sub e.1.y e.2.y)) IWindingNumberAlgorithm.Create.tolerance_
            = true))
    ∧ CalculateWindingNumber2D IWindingNumberAlgorithm.Create F32.zero F32.zero infiniteSpike
      = .ok (none, { IWindingNumberAlgorithm.Create with
          error_message_ := "Input polygon is not closed." })
    ∧ CalculateWindingNumber2D IWindingNumberAlgorithm.Create F32.zero F32.zero
        { x_vec_ := infiniteSpike.x_vec_ ++ infiniteSpike.x_vec_.tail,
          y_vec_ := infiniteSpike.y_vec_ ++ infiniteSpike.y_vec_.tail }
      = .ok (none, { IWindingNumberAlgorithm.Create with
          error_message_ := "Input polygon is not closed." }) := by
  decide

/-- C22 (amended). Winding numbers add over concatenated loops, every quantity being the
one the code computes in binary32: for a tolerance `>= 0` and two polygons `P` and `Q`,
each of at least 3 vertices, each with last vertex exactly equal to its first, with the
same first vertex, whose coordinates are finite, and each without two consecutive vertices
within the tolerance of each other, `CalculateWindingNumber2D` returns a value for `P`, a
value for `Q`, and their sum for `P` followed by the vertices of `Q` after its first. -/
theorem concatenated_loops_add_f32 (self : IWindingNumberAlgorithm) (x y : F32)
    (P Q : Polygon)
    (hlenP : P.x_vec_.length = P.y_vec_.length)
    (hlenQ : Q.x_vec_.length = Q.y_vec_.length)
    (htol : F32.le F32.zero self.tolerance_ = true)
    (h3P : 3 ≤ (verticesOf P).length) (h3Q : 3 ≤ (verticesOf Q).length)
    (hclosedP : (verticesOf P).getLast? = (verticesOf P).head?)
    (hclosedQ : (verticesOf Q).getLast? = (verticesOf Q).head?)
    (hfirst : (verticesOf P).head? = (verticesOf Q).head?)
    (hfin : ∀ v, (verticesOf P).head? = some v → v.x.isFinite = true ∧ v.y.isFinite = true)
    (hsepP : ∀ e ∈ consecutivePairs (verticesOf P),
      ¬ (F32.le (F32.abs (F32.sub e.1.x e.2.x)) self.tolerance_ = true
        ∧ F32.le (F32.abs (F32.sub e.1.y e.2.y)) self.tolerance_ = true))
    (hsepQ : ∀ e ∈ consecutivePairs (verticesOf Q),
      ¬ (F32.le (F32.abs (F32.sub e.1.x e.2.x)) self.tolerance_ = true
        ∧ F32.le (F32.abs (F32.sub e.1.y e.2.y)) self.tolerance_ = true)) :
    ∃ m n : Int,
      CalculateWindingNumber2D self x y P = .ok (some m, self)
      ∧ CalculateWindingNumber2D self x y Q = .ok (some n, self)
      ∧ CalculateWindingNumber2D self x y
          { x_vec_ := P.x_vec_ ++ Q.x_vec_.tail, y_vec_ := P.y_vec_ ++ Q.y_vec_.tail }
        = .ok (some (m + n), self) := by
  have hP := polygonOf_verticesOf_f32 P hlenP
  have hQ := polygonOf_verticesOf_f32 Q hlenQ
  have hsepP' : ∀ e ∈ consecutivePairs (verticesOf P),
      WithinTolerance self.tolerance_ e.1 e.2 = false := by
    intro e he
    rw [← Bool.not_eq_true, WithinTolerance_iff_f32]
    exact hsepP e he
  have hsepQ' : ∀ e ∈ consecutivePairs (verticesOf Q),
      WithinTolerance self.tolerance_ e.1 e.2 = false := by
    intro e he
    rw [← Bool.not_eq_true, WithinTolerance_iff_f32]
    exact hsepQ e he
  have hfinP : ∀ v, (verticesOf P).head? = some v → v.isFinite = true := by
    intro v hv
    obtain ⟨h1, h2⟩ := hfin v hv
    simp [Point.isFinite, h1, h2]
  have hfinQ : ∀ v, (verticesOf Q).head? = some v → v.isFinite = true :=
    fun v hv => hfinP v (hfirst.trans hv)
  have hcat : (Polygon.mk (P.x_vec_ ++ Q.x_vec_.tail) (P.y_vec_ ++ Q.y_vec_.tail))
      = polygonOf (verticesOf P ++ (verticesOf Q).tail) := by
    conv_lhs => rw [← hP, ← hQ]
    simp [polygonOf, List.map_tail]
  refine ⟨deltaSum { x := x, y := y } (consecutivePairs (verticesOf P)),
    deltaSum { x := x, y := y } (consecutivePairs (verticesOf Q)), ?_, ?_, ?_⟩
  · conv_lhs => rw [← hP]
    exact CalculateWindingNumber2D_noskip_f32 self x y _ (by omega) htol hfinP hclosedP hsepP'
  · conv_lhs => rw [← hQ]
    exact CalculateWindingNumber2D_noskip_f32 self x y _ (by omega) htol hfinQ hclosedQ hsepQ'
  · rw [hcat]
    -- split `P` at its last vertex and `Q` at its first: both are the shared vertex `v0`
    match hvP : verticesOf P, hvQ : verticesOf Q with
    | [], _ => rw [hvP] at h3P; simp at h3P
    | _ :: _, [] => rw [hvQ] at h3Q; simp at h3Q
    | p0 :: restP, v0 :: restQ =>
      rw [hvP] at hclosedP hfirst hsepP' h3P hfinP
      rw [hvQ] at hclosedQ hfirst hsepQ' h3Q
      simp only [List.head?_cons, Option.some.injEq] at hfirst
      subst hfirst
      have hrestP : restP ≠ [] := by
        intro h; rw [h] at h3P; simp at h3P
      have hrestQ : restQ ≠ [] := by
        intro h; rw [h] at h3Q; simp at h3Q
      have hlastP := getLast?_eq_head?_cons_f32 p0 restP hrestP hclosedP
      have hlastQ := getLast?_eq_head?_cons_f32 p0 restQ hrestQ hclosedQ
      have hPsplit : p0 :: restP = (p0 :: restP.dropLast) ++ [p0] := by
        conv_lhs => rw [← List.dropLast_append_getLast hrestP, hlastP]
        rfl
      have hpairs : consecutivePairs ((p0 :: restP) ++ restQ)
          = consecutivePairs (p0 :: restP) ++ consecutivePairs (p0 :: restQ) := by
        conv_lhs => rw [hPsplit, List.append_assoc, List.singleton_append]
        rw [consecutivePairs_append_f32, ← hPsplit]
      rw [List.tail_cons, ← deltaSum_append_f32, ← hpairs]
      have h3P' : 3 ≤ restP.length + 1 := h3P
      apply CalculateWindingNumber2D_noskip_f32 self x y _
        (by simp only [List.length_append, List.length_cons]; omega) htol
      · intro v hv
        exact hfinP v (by simpa using hv)
      · rw [List.getLast?_append_of_ne_nil _ hrestQ, List.getLast?_eq_getLast _ hrestQ,
          hlastQ]
        rfl
      · intro e he
        rw [hpairs, List.mem_append] at he
        rcases he with he | he
        · exact hsepP' e he
        · exact hsepQ' e he

/-- C22 (amended), at the unit square concatenated with itself, the point (1/2, 1/2) and
tolerance 0: each square gives 1 and the square traversed twice gives 2. -/
theorem concatenated_loops_add_f32_witness :
    CalculateWindingNumber2D IWindingNumberAlgorithm.Create (.finite 1 (-1)) (.finite 1 (-1))
        unitSquare
        = .ok (some 1, IWindingNumberAlgorithm.Create)
    ∧ CalculateWindingNumber2D IWindingNumberAlgorithm.Create (.finite 1 (-1))
          (.finite 1 (-1))
          { x_vec_ := unitSquare.x_vec_ ++ unitSquare.x_vec_.tail,
            y_vec_ := unitSquare.y_vec_ ++ unitSquare.y_vec_.tail }
        = .ok (some (1 + 1), IWindingNumberAlgorithm.Create) := by
  obtain ⟨m, n, hm, hn, hmn⟩ := concatenated_loops_add_f32 IWindingNumberAlgorithm.Create
    (.finite 1 (-1)) (.finite 1 (-1)) unitSquare unitSquare rfl rfl
    (by decide) (by decide) (by decide) (by decide) (by decide) rfl (by decide)
    (by decide) (by decide)
  have h0 : CalculateWindingNumber2D IWindingNumberAlgorithm.Create (.finite 1 (-1))
      (.finite 1 (-1)) unitSquare = .ok (some 1, IWindingNumberAlgorithm.Create) := by
    decide
  have hm1 : m = 1 := by
    rw [h0] at hm
    simpa using hm.symm
  have hn1 : n = 1 := by
    rw [h0] at hn
    simpa using hn.symm
  subst hm1 hn1
  exact ⟨hm, hmn⟩

end ieee
